import Mathlib

/-!
# gemmi `symmetry.hpp`: symmetry operations, triplets, Hall symbols

A shallow embedding of `src/include/gemmi/symmetry.hpp`.

* `std::array<int, 3>` is a function `Fin 3 → Int`; `int` is a mathematical
  integer (signed overflow is undefined behaviour in C++ and is outside the
  embedding); `%` and `/` on `int` are the truncating `Int.tmod`, `Int.tdiv`.
* `std::string` and `const char*` are `List Char`, a `char` is a `Char`;
  reading the terminating NUL is reading past the end of the list.
* `strtol` and `std::to_string` are the C and C++ library functions, given
  here by their decimal behaviour; `strtol` returns a `long` (64 bits,
  saturated), and storing it in an `int` reduces it modulo `2^32` (`to_int`).
* A loop whose pointer jumps ahead takes a fuel argument that bounds the
  number of iterations; the entry points pass the length of the text.
* `fail(msg)` is `Except.error` with one constructor of `Fail` per call site.
-/

namespace gemmi
namespace sym

/-! ## Data model -/

/-- One constructor per `fail(...)` call site of the source, plus
`indexOutOfRange` for an array access outside `[0, size)` and `outOfFuel`
for a loop of the embedding that is cut off before the source's loop
would stop. -/
inductive Fail where
  | notRotation (detr : Int)
  | wrongTripletFormat
  | unexpectedDenominator (den : Int)
  | unexpectedCharacter (c : Char)
  | trailingSign
  | expectedTwoCommas
  | notLatticeSymbol (c : Char)
  | wrongOrder (N : Int)
  | unknownSymbol (c : Char)
  | wrongOrderFormat
  | twoNumericSubscripts
  | wrongSymbol
  | missingAxis
  | impossible
  | wrongTranslationFormat
  | missingParen
  | misplacedTranslation
  | notHallSymbol
  | null
  | indexOutOfRange (i : Int)
  | outOfFuel
  deriving DecidableEq

instance instDecidableEqExcept {ε α : Type} [DecidableEq ε] [DecidableEq α] :
    DecidableEq (Except ε α) := fun a b =>
  match a, b with
  | .ok x, .ok y => decidable_of_iff (x = y) ⟨fun h => h ▸ rfl, Except.ok.inj⟩
  | .error x, .error y => decidable_of_iff (x = y) ⟨fun h => h ▸ rfl, Except.error.inj⟩
  | .ok _, .error _ => isFalse (fun h => Except.noConfusion h)
  | .error _, .ok _ => isFalse (fun h => Except.noConfusion h)

/-- The type `Op::Tran`. -/
abbrev Tran := Fin 3 → Int

/-- The type `Op::Rot`. -/
abbrev Rot := Fin 3 → Fin 3 → Int

/-- The struct `Op`. -/
@[ext] structure Op where
  rot : Rot
  tran : Tran

instance instDecidableEqOp : DecidableEq Op := fun a b =>
  decidable_of_iff (a.rot = b.rot ∧ a.tran = b.tran)
    ⟨fun h => Op.ext h.1 h.2, fun h => h ▸ ⟨rfl, rfl⟩⟩

/-- Brace initialisation of a `Rot` from nine values, row by row. -/
def mkRot (a b c d e f g h i : Int) : Rot := ![![a, b, c], ![d, e, f], ![g, h, i]]

/-- Brace initialisation of a `Tran`. -/
def mkTran (a b c : Int) : Tran := ![a, b, c]

/-- The assignment `r[i] = v` on a `std::array<int, n>`. -/
def assign {n : Nat} (r : Fin n → Int) (i : Fin n) (v : Int) : Fin n → Int :=
  fun j => if j = i then v else r j

/-- One step of the loop body of `Op::normalize_tran`:
`tran[i] %= 12; if (tran[i] < 0) tran[i] += 12;`. -/
def wrap12 (t : Int) : Int :=
  let t1 := t.tmod 12
  if t1 < 0 then t1 + 12 else t1

/-- The method `Op::normalize_tran`. -/
def Op.normalize_tran (op : Op) : Op :=
  { op with tran := fun i => wrap12 (op.tran i) }

/-- The method `Op::translate`. -/
def Op.translate (op : Op) (a : Tran) : Op :=
  { op with tran := fun i => op.tran i + a i }

/-- The method `Op::translated`. -/
def Op.translated (op : Op) (a : Tran) : Op := op.translate a

/-- The method `Op::negated_rot`. -/
def Op.negated_rot (op : Op) : Rot :=
  mkRot (-op.rot 0 0) (-op.rot 0 1) (-op.rot 0 2)
        (-op.rot 1 0) (-op.rot 1 1) (-op.rot 1 2)
        (-op.rot 2 0) (-op.rot 2 1) (-op.rot 2 2)

/-- The method `Op::negated`. -/
def Op.negated (op : Op) : Op :=
  { rot := op.negated_rot, tran := mkTran (-op.tran 0) (-op.tran 1) (-op.tran 2) }

/-- The method `Op::shift_origin`: its body is the comment `// TODO`. -/
def Op.shift_origin (op : Op) (_a : Tran) : Op := op

/-- The method `Op::det_rot`. -/
def Op.det_rot (op : Op) : Int :=
  op.rot 0 0 * (op.rot 1 1 * op.rot 2 2 - op.rot 1 2 * op.rot 2 1)
  - op.rot 0 1 * (op.rot 1 0 * op.rot 2 2 - op.rot 1 2 * op.rot 2 0)
  + op.rot 0 2 * (op.rot 1 0 * op.rot 2 1 - op.rot 1 1 * op.rot 2 0)

/-- The static method `Op::identity`. -/
def Op.identity : Op :=
  { rot := mkRot 1 0 0 0 1 0 0 0 1, tran := mkTran 0 0 0 }

/-- The function `combine`: the inner loop over `j` is unrolled, the
accumulation into `r.tran[i]` keeps the source's order. -/
def combine (a b : Op) : Op :=
  Op.normalize_tran
    { rot := fun i j => a.rot i 0 * b.rot 0 j + a.rot i 1 * b.rot 1 j + a.rot i 2 * b.rot 2 j
      tran := fun i => a.tran i + a.rot i 0 * b.tran 0 + a.rot i 1 * b.tran 1
                + a.rot i 2 * b.tran 2 }

/-- The method `Op::inverted`. -/
def Op.inverted (op : Op) : Except Fail Op :=
  let detr := op.det_rot
  if detr ≠ 1 ∧ detr ≠ -1 then .error (.notRotation detr)
  else
    let rot := op.rot
    let inv : Rot := mkRot
      (detr * (rot 1 1 * rot 2 2 - rot 2 1 * rot 1 2))
      (detr * (rot 0 2 * rot 2 1 - rot 0 1 * rot 2 2))
      (detr * (rot 0 1 * rot 1 2 - rot 0 2 * rot 1 1))
      (detr * (rot 1 2 * rot 2 0 - rot 1 0 * rot 2 2))
      (detr * (rot 0 0 * rot 2 2 - rot 0 2 * rot 2 0))
      (detr * (rot 1 0 * rot 0 2 - rot 0 0 * rot 1 2))
      (detr * (rot 1 0 * rot 2 1 - rot 2 0 * rot 1 1))
      (detr * (rot 2 0 * rot 0 1 - rot 0 0 * rot 2 1))
      (detr * (rot 0 0 * rot 1 1 - rot 1 0 * rot 0 1))
    .ok { rot := inv
          tran := fun i => - op.tran 0 * inv i 0 - op.tran 1 * inv i 1 - op.tran 2 * inv i 2 }


/-! ## Characters and C library functions -/

/-- The test `*c >= '0' && *c <= '9'`. -/
def isDigit (c : Char) : Bool := decide ('0' ≤ c) && decide (c ≤ '9')

/-- The value `*c - '0'` of a decimal digit. -/
def digitVal (c : Char) : Nat := c.toNat - '0'.toNat

/-- The C library `isspace` in the "C" locale. -/
def isspace (c : Char) : Bool :=
  c == ' ' || c == '\t' || c == '\n' || c == Char.ofNat 11 || c == Char.ofNat 12 || c == '\r'

/-- The digit run of `strtol` in base 10: accumulates the leading decimal
digits and returns the value with the unread rest (the `endptr`). -/
def strtol_digits : Nat → List Char → Nat × List Char
  | acc, [] => (acc, [])
  | acc, c :: cs =>
    if isDigit c then strtol_digits (acc * 10 + digitVal c) cs else (acc, c :: cs)

/-- The largest value of a `long` (64 bits). -/
def LONG_MAX : Int := 9223372036854775807

/-- The smallest value of a `long` (64 bits). -/
def LONG_MIN : Int := -9223372036854775808

/-- The saturation of `strtol`: a value beyond the range of `long` is
returned as `LONG_MAX` or `LONG_MIN`. -/
def clamp_long (v : Int) : Int :=
  if v > LONG_MAX then LONG_MAX else if v < LONG_MIN then LONG_MIN else v

/-- The conversion of a `long` to `int` (32 bits) that an assignment to an
`int` performs: the value modulo `2^32`, taken in `[-2^31, 2^31)`. -/
def to_int (v : Int) : Int := (v + 2147483648) % 4294967296 - 2147483648

/-- The C library `strtol(s, &endptr, 10)`: skips white space, takes an
optional sign and the longest run of decimal digits; returns the value,
saturated to the range of `long`, and `endptr`. Without any digit it returns
0 and `endptr = s`. -/
def strtol (s : List Char) : Int × List Char :=
  let t := s.dropWhile isspace
  let neg : Bool := t.head? = some '-'
  let u := if t.head? = some '-' ∨ t.head? = some '+' then t.tail else t
  match u with
  | [] => (0, s)
  | c :: _ =>
    if isDigit c then
      let r := strtol_digits 0 u
      (clamp_long (if neg then -(r.1 : Int) else (r.1 : Int)), r.2)
    else (0, s)

/-- The C++ library `std::to_string(int)`: decimal digits, with a leading
minus sign for a negative value. -/
def to_string (n : Int) : List Char :=
  if n < 0 then '-' :: Nat.toDigits 10 n.natAbs else Nat.toDigits 10 n.natAbs

/-! ## Triplets -/

/-- The test `std::memchr("xXhHaA", *c, 6)`. -/
def isAxisX (c : Char) : Bool := c ∈ ['x', 'X', 'h', 'H', 'a', 'A']

/-- The test `std::memchr("yYkKbB", *c, 6)`. -/
def isAxisY (c : Char) : Bool := c ∈ ['y', 'Y', 'k', 'K', 'b', 'B']

/-- The test `std::memchr("zZlLcC", *c, 6)`. -/
def isAxisZ (c : Char) : Bool := c ∈ ['z', 'Z', 'l', 'L', 'c', 'C']

/-- The loop of `parse_triplet_part` from position `c` on, with the current
`r` and `sign`. Every iteration reads at least one character, so the fuel
`s.length` that `parse_triplet_part` passes is never used up. The `long`
values `sign * strtol(...)` and `strtol(...)` are stored in the `int`s `r[3]`
and `den`, hence `to_int`; the product `r[3] *= 12 / den` is exact (it is
the `int` product as long as it does not overflow). -/
def parse_triplet_part_loop :
    Nat → List Char → (Fin 4 → Int) → Int → Except Fail (Fin 4 → Int)
  | _, [], r, sign => if sign ≠ 0 then .error .trailingSign else .ok r
  | 0, _ :: _, _, _ => .error .outOfFuel
  | fuel + 1, c :: cs, r, sign =>
    if c = '+' ∨ c = '-' then
      parse_triplet_part_loop fuel cs r (if c = '+' then 1 else -1)
    else if c = ' ' ∨ c = '\t' then
      parse_triplet_part_loop fuel cs r sign
    else if sign = 0 then .error .wrongTripletFormat
    else if isDigit c then
      let n := strtol (c :: cs)
      let r3 : Int := to_int (sign * n.1)
      if n.2.head? = some '/' then
        let d := strtol n.2.tail
        let den := to_int d.1
        if den ≠ 1 ∧ den ≠ 2 ∧ den ≠ 3 ∧ den ≠ 4 ∧ den ≠ 6 then
          .error (.unexpectedDenominator den)
        else
          parse_triplet_part_loop fuel d.2 (assign r 3 (r3 * Int.tdiv 12 den)) 0
      else
        parse_triplet_part_loop fuel n.2 (assign r 3 (r3 * Int.tdiv 12 1)) 0
    else if isAxisX c then
      parse_triplet_part_loop fuel cs (assign r 0 (r 0 + sign)) 0
    else if isAxisY c then
      parse_triplet_part_loop fuel cs (assign r 1 (r 1 + sign)) 0
    else if isAxisZ c then
      parse_triplet_part_loop fuel cs (assign r 2 (r 2 + sign)) 0
    else .error (.unexpectedCharacter c)

/-- The function `parse_triplet_part`. -/
def parse_triplet_part (s : List Char) : Except Fail (Fin 4 → Int) :=
  parse_triplet_part_loop s.length s (fun _ => 0) 1

/-- The function `parse_triplet`. `s.find(',')` is `List.indexOf`, `substr`
is `List.drop` followed by `List.take`. -/
def parse_triplet (s : List Char) : Except Fail Op :=
  if s.count ',' ≠ 2 then .error .expectedTwoCommas
  else
    let comma1 := s.indexOf ','
    let comma2 := (comma1 + 1) + (s.drop (comma1 + 1)).indexOf ','
    match parse_triplet_part (s.take comma1) with
    | .error e => .error e
    | .ok a =>
      match parse_triplet_part ((s.drop (comma1 + 1)).take (comma2 - (comma1 + 1))) with
      | .error e => .error e
      | .ok b =>
        match parse_triplet_part (s.drop (comma2 + 1)) with
        | .error e => .error e
        | .ok c =>
          .ok { rot := mkRot (a 0) (a 1) (a 2) (b 0) (b 1) (b 2) (c 0) (c 1) (c 2)
                tran := mkTran (a 3) (b 3) (c 3) }

/-- The first loop of `make_triplet_part`, one iteration: appends the signed
axis letter `'x' + i` when the coefficient is not zero. -/
def make_triplet_axis (s : List Char) (v : Int) (i : Nat) : List Char :=
  if v ≠ 0 then
    s ++ ((if v < 0 then ['-'] else if s.isEmpty then [] else ['+'])
          ++ [Char.ofNat ('x'.toNat + i)])
  else s

/-- The loop `for (int factor : {2, 2, 3})` of `make_triplet_part`, one
iteration on the pair `(w, denom)`. -/
def simplify_step (wd : Int × Int) (factor : Int) : Int × Int :=
  if wd.1.tmod factor = 0 then (wd.1.tdiv factor, wd.2) else (wd.1, wd.2 * factor)

/-- The text that the block `if (w != 0) { ... }` of `make_triplet_part`
appends to `s`: the simplified fraction `w/12`. -/
def make_triplet_const (w : Int) : List Char :=
  if w ≠ 0 then
    let wd := simplify_step (simplify_step (simplify_step (w, 1) 2) 2) 3
    ((if wd.1 > 0 then ['+'] else []) ++ to_string wd.1)
      ++ (if wd.2 ≠ 1 then '/' :: to_string wd.2 else [])
  else []

/-- The function `make_triplet_part`. -/
def make_triplet_part (x y z w : Int) : List Char :=
  make_triplet_axis (make_triplet_axis (make_triplet_axis [] x 0) y 1) z 2
    ++ make_triplet_const w

/-- The method `Op::triplet`. -/
def Op.triplet (op : Op) : List Char :=
  make_triplet_part (op.rot 0 0) (op.rot 0 1) (op.rot 0 2) (op.tran 0)
  ++ ',' :: make_triplet_part (op.rot 1 0) (op.rot 1 1) (op.rot 1 2) (op.tran 1)
  ++ ',' :: make_triplet_part (op.rot 2 0) (op.rot 2 1) (op.rot 2 2) (op.tran 2)

/-- The method `Op::rot_triplet`. -/
def Op.rot_triplet (op : Op) : List Char :=
  Op.triplet { rot := op.rot, tran := mkTran 0 0 0 }


/-! ## Operation sets -/

/-- The struct `SymOps`. -/
@[ext] structure SymOps where
  sym_ops : List Op
  cen_ops : List Tran

instance instDecidableEqSymOps : DecidableEq SymOps := fun a b =>
  decidable_of_iff (a.sym_ops = b.sym_ops ∧ a.cen_ops = b.cen_ops)
    ⟨fun h => SymOps.ext h.1 h.2, fun h => h ▸ ⟨rfl, rfl⟩⟩

/-- The struct `SymOps::Iter` without its `parent` reference, which is
passed along explicitly. Both counters are `unsigned` (32 bits). -/
structure Iter where
  n_symop : Nat
  n_cenop : Nat
  deriving DecidableEq

/-- The method `SymOps::begin`. -/
def SymOps.begin (_parent : SymOps) : Iter := ⟨0, 0⟩

/-- The method `SymOps::end`, with the cast `(unsigned) sym_ops.size()`. -/
def SymOps.end_ (parent : SymOps) : Iter := ⟨parent.sym_ops.length % 2 ^ 32, 0⟩

/-- The operator `Iter::operator++`, with `unsigned` wrap-around. -/
def Iter.next (parent : SymOps) (it : Iter) : Iter :=
  let n_cenop := (it.n_cenop + 1) % 2 ^ 32
  if n_cenop = parent.cen_ops.length then ⟨(it.n_symop + 1) % 2 ^ 32, 0⟩
  else ⟨it.n_symop, n_cenop⟩

/-- The operator `Iter::operator*`; indexing a vector outside its size is
reported as `indexOutOfRange`. -/
def Iter.deref (parent : SymOps) (it : Iter) : Except Fail Op :=
  match parent.sym_ops.get? it.n_symop with
  | none => .error (.indexOutOfRange it.n_symop)
  | some op =>
    match parent.cen_ops.get? it.n_cenop with
    | none => .error (.indexOutOfRange it.n_cenop)
    | some t => .ok (op.translate t)

/-- The traversal `for (it = from; it != s.end(); ++it) out.push_back(*it)`,
cut off after `fuel` iterations. -/
def SymOps.collect (parent : SymOps) : Nat → Iter → Except Fail (List Op)
  | fuel, it =>
    if it = parent.end_ then .ok []
    else
      match fuel with
      | 0 => .error .outOfFuel
      | fuel + 1 =>
        match it.deref parent with
        | .error e => .error e
        | .ok op =>
          match SymOps.collect parent fuel (it.next parent) with
          | .error e => .error e
          | .ok rest => .ok (op :: rest)

/-! ## Hall symbols -/

/-- The function `lattice_translations`; `lattice_symbol & ~0x20` clears
bit 5 of the character code. -/
def lattice_translations (lattice_symbol : Char) : Except Fail (List Tran) :=
  let u : Nat := lattice_symbol.toNat - (lattice_symbol.toNat &&& 0x20)
  if u = 'P'.toNat then .ok [mkTran 0 0 0]
  else if u = 'A'.toNat then .ok [mkTran 0 0 0, mkTran 0 6 6]
  else if u = 'B'.toNat then .ok [mkTran 0 0 0, mkTran 6 0 6]
  else if u = 'C'.toNat then .ok [mkTran 0 0 0, mkTran 6 6 0]
  else if u = 'I'.toNat then .ok [mkTran 0 0 0, mkTran 6 6 6]
  else if u = 'R'.toNat then .ok [mkTran 0 0 0, mkTran 8 4 4, mkTran 4 8 8]
  else if u = 'S'.toNat then .ok [mkTran 0 0 0, mkTran 4 4 8, mkTran 8 4 8]
  else if u = 'T'.toNat then .ok [mkTran 0 0 0, mkTran 4 8 4, mkTran 8 4 8]
  else if u = 'F'.toNat then
    .ok [mkTran 0 0 0, mkTran 0 6 6, mkTran 6 0 6, mkTran 6 6 0]
  else .error (.notLatticeSymbol lattice_symbol)

/-- The function `rotation_around_z`. -/
def rotation_around_z (N : Int) : Except Fail Rot :=
  if N = 1 then .ok (mkRot 1 0 0 0 1 0 0 0 1)
  else if N = 2 then .ok (mkRot (-1) 0 0 0 (-1) 0 0 0 1)
  else if N = 3 then .ok (mkRot 0 (-1) 0 1 (-1) 0 0 0 1)
  else if N = 4 then .ok (mkRot 0 (-1) 0 1 0 0 0 0 1)
  else if N = 6 then .ok (mkRot 1 (-1) 0 1 0 0 0 0 1)
  else .error (.wrongOrder N)

/-- The function `translation_from_symbol`. -/
def translation_from_symbol (symbol : Char) : Except Fail Tran :=
  if symbol = 'a' then .ok (mkTran 6 0 0)
  else if symbol = 'b' then .ok (mkTran 0 6 0)
  else if symbol = 'c' then .ok (mkTran 0 0 6)
  else if symbol = 'n' then .ok (mkTran 6 6 6)
  else if symbol = 'u' then .ok (mkTran 3 0 0)
  else if symbol = 'v' then .ok (mkTran 0 3 0)
  else if symbol = 'w' then .ok (mkTran 0 0 3)
  else if symbol = 'd' then .ok (mkTran 3 3 3)
  else .error (.unknownSymbol symbol)

/-- The function `skip_blank`; `none` is the null pointer. -/
def skip_blank : Option (List Char) → Option (List Char)
  | none => none
  | some p => some (p.dropWhile fun c => c = ' ' || c = '\t')

/-- The NUL character, the value of an unset `char` flag. -/
def NUL : Char := Char.ofNat 0

/-- The apostrophe, Hall marker of the diagonal axis [110]. -/
def APOS : Char := Char.ofNat 39

/-- The double quote, Hall marker of the diagonal axis [1-10]. -/
def DQUOTE : Char := Char.ofNat 34

/-- An `int` index into a `Tran`, when it is one of 0, 1, 2. -/
def tran_index (i : Int) : Option (Fin 3) :=
  if i = 0 then some 0 else if i = 1 then some 1 else if i = 2 then some 2 else none

/-- The local variables of `hall_matrix_symbol` that its `for` loop updates. -/
structure HallState where
  op : Op
  fractional_tran : Int
  principal_axis : Char
  diagonal_axis : Char

/-- The loop `for (; p < end; ++p)` of `hall_matrix_symbol`, for order `N`. -/
def hall_matrix_symbol_loop (N : Int) : List Char → HallState → Except Fail HallState
  | [], st => .ok st
  | p :: ps, st =>
    if '1' ≤ p ∧ p ≤ '5' then
      if st.fractional_tran ≠ 0 then .error .twoNumericSubscripts
      else hall_matrix_symbol_loop N ps { st with fractional_tran := (p.toNat : Int) - '0'.toNat }
    else if p = APOS ∨ p = DQUOTE ∨ p = '*' then
      if N ≠ (if p = '*' then 3 else 2) then .error .wrongSymbol
      else hall_matrix_symbol_loop N ps { st with diagonal_axis := p }
    else if p = 'x' ∨ p = 'y' ∨ p = 'z' then
      hall_matrix_symbol_loop N ps { st with principal_axis := p }
    else
      match translation_from_symbol p with
      | .error e => .error e
      | .ok t => hall_matrix_symbol_loop N ps { st with op := st.op.translate t }

/-- The function `hall_matrix_symbol` on the text `[start, end)`. The
character at `end` is a space or the terminating NUL, so reading `*p` there
takes the `fail` branch of the order test. An index `principal_axis - 'x'`
outside `0..2` is reported as `indexOutOfRange`. -/
def hall_matrix_symbol (sym : List Char) (pos : Int) (first : Char) : Except Fail Op :=
  let neg : Bool := sym.head? = some '-'
  let p := if neg then sym.tail else sym
  match p with
  | [] => .error .wrongOrderFormat
  | c :: rest =>
    if c < '1' ∨ c = '5' ∨ c > '6' then .error .wrongOrderFormat
    else
      let N : Int := (c.toNat : Int) - '0'.toNat
      match hall_matrix_symbol_loop N rest ⟨Op.identity, 0, NUL, NUL⟩ with
      | .error e => .error e
      | .ok st =>
        -- fill in implicit values
        let filled : Except Fail (Char × Char) :=
          if st.principal_axis = NUL ∧ st.diagonal_axis = NUL then
            if pos = 1 then .ok ('z', st.diagonal_axis)
            else if pos = 2 ∧ N = 2 then
              if first = '2' ∨ first = '4' then .ok ('x', st.diagonal_axis)
              else if first = '3' ∨ first = '6' then .ok (st.principal_axis, APOS)
              else .ok (st.principal_axis, st.diagonal_axis)
            else if pos = 3 ∧ N = 3 then .ok (st.principal_axis, '*')
            else .error .missingAxis
          else .ok (st.principal_axis, st.diagonal_axis)
        match filled with
        | .error e => .error e
        | .ok (principal_axis, diagonal_axis) =>
          -- get the operation
          let base : Except Fail Rot :=
            if diagonal_axis = NUL then rotation_around_z N
            else if diagonal_axis = APOS then .ok (mkRot 0 (-1) 0 (-1) 0 0 0 0 (-1))
            else if diagonal_axis = DQUOTE then .ok (mkRot 0 1 0 1 0 0 0 0 (-1))
            else if diagonal_axis = '*' then .ok (mkRot 0 0 1 1 0 0 0 1 0)
            else .error .impossible
          match base with
          | .error e => .error e
          | .ok rot0 =>
            let op1 : Op := { st.op with rot := rot0 }
            let op2 : Op := if neg then { op1 with rot := op1.negated_rot } else op1
            let idx : Int := (principal_axis.toNat : Int) - 'x'.toNat
            let screw : Except Fail Op :=
              if st.fractional_tran ≠ 0 then
                match tran_index idx with
                | none => .error (.indexOutOfRange idx)
                | some k =>
                  .ok { op2 with
                        tran := assign op2.tran k
                          (op2.tran k + Int.tdiv 12 N * st.fractional_tran) }
              else .ok op2
            match screw with
            | .error e => .error e
            | .ok op3 =>
              if principal_axis = 'x' then
                .ok { op3 with rot := mkRot (op3.rot 2 2) (op3.rot 2 0) (op3.rot 2 1)
                                            (op3.rot 0 2) (op3.rot 0 0) (op3.rot 0 1)
                                            (op3.rot 1 2) (op3.rot 1 0) (op3.rot 1 1) }
              else if principal_axis = 'y' then
                .ok { op3 with rot := mkRot (op3.rot 1 1) (op3.rot 1 2) (op3.rot 1 0)
                                            (op3.rot 2 1) (op3.rot 2 2) (op3.rot 2 0)
                                            (op3.rot 0 1) (op3.rot 0 2) (op3.rot 0 0) }
              else .ok op3

/-- The function `parse_translation(start, end)`: `text` is the string from
`start` on and `stop` the suffix of it that begins at `end`. -/
def parse_translation (text stop : List Char) : Except Fail Tran :=
  let a := strtol text
  let b := strtol a.2
  let c := strtol b.2
  if c.2 ≠ stop then .error .wrongTranslationFormat
  else .ok (mkTran (a.1.tmod 12) (b.1.tmod 12) (c.1.tmod 12))

/-- The function `find_chr(s, c, end)` with `end` the end of the string:
the suffix of `s` that begins at the first `c`, or the null pointer. -/
def find_chr (s : List Char) (c : Char) : Option (List Char) :=
  match s.dropWhile (fun x => x ≠ c) with
  | [] => none
  | r => some r

/-- The effect of `ops.sym_ops.back().shift_origin(tr)`. -/
def shift_back (l : List Op) (tr : Tran) : List Op :=
  match l.reverse with
  | [] => []
  | x :: xs => (x.shift_origin tr :: xs).reverse

/-- The `while (part && part != end)` loop of `symops_from_hall`. Every
iteration advances `part`, so fuel equal to the length of the text suffices. -/
def symops_from_hall_loop (cen_ops : List Tran) :
    Nat → Option (List Char) → List Op → Int → Char → Except Fail SymOps
  | _, none, sym_ops, _, _ => .ok ⟨sym_ops, cen_ops⟩
  | _, some [], sym_ops, _, _ => .ok ⟨sym_ops, cen_ops⟩
  | 0, some (_ :: _), _, _, _ => .error .outOfFuel
  | fuel + 1, some (c :: cs), sym_ops, counter, first =>
    if c = '(' then
      match find_chr (c :: cs) ')' with
      | none => .error .missingParen
      | some rb =>
        if sym_ops.isEmpty then .error .misplacedTranslation
        else
          match parse_translation cs rb with
          | .error e => .error e
          | .ok tr =>
            symops_from_hall_loop cen_ops fuel (skip_blank (find_chr rb.tail ' '))
              (shift_back sym_ops tr) counter first
    else
      let space := find_chr (c :: cs) ' '
      let first := if first = NUL then c else first
      let counter := counter + 1
      if c ≠ '1' ∨ (cs.head? ≠ some ' ' ∧ cs.head? ≠ none) then
        match hall_matrix_symbol ((c :: cs).takeWhile (fun x => x ≠ ' ')) counter first with
        | .error e => .error e
        | .ok op =>
          symops_from_hall_loop cen_ops fuel (skip_blank space) (sym_ops ++ [op]) counter first
      else
        symops_from_hall_loop cen_ops fuel (skip_blank space) sym_ops counter first

/-- The function `symops_from_hall`; `none` is the null pointer, `some s`
a C string with characters `s` (the terminating NUL not included). -/
def symops_from_hall (hall : Option (List Char)) : Except Fail SymOps :=
  match hall with
  | none => .error .null
  | some h0 =>
    match skip_blank (some h0) with
    | none => .error .notHallSymbol
    | some hall =>
      let sym_ops : List Op := [Op.identity]
      let centrosym : Bool := hall.head? = some '-'
      let sym_ops := if centrosym then sym_ops ++ [Op.identity.negated] else sym_ops
      match skip_blank (some (if centrosym then hall.tail else hall)) with
      | none => .error .notHallSymbol
      | some lat =>
        match lattice_translations (lat.headD NUL) with
        | .error e => .error e
        | .ok cen_ops =>
          let part := skip_blank (some lat.tail)
          symops_from_hall_loop cen_ops lat.length part sym_ops 0 NUL

/-! ## The glide vectors as the specification lists them -/

/-- The fixed vector that the specification gives for a glide letter
(`a=(6,0,0)`, `b=(0,6,0)`, `c=(0,0,6)`, `n=(6,6,6)`, `u=(3,0,0)`,
`v=(0,3,0)`, `w=(0,0,3)`, `d=(3,3,3)`); any other character contributes
nothing. It is compared with `translation_from_symbol` below. -/
def spec_glide_vector (c : Char) : Tran :=
  match c with
  | 'a' => mkTran 6 0 0
  | 'b' => mkTran 0 6 0
  | 'c' => mkTran 0 0 6
  | 'n' => mkTran 6 6 6
  | 'u' => mkTran 3 0 0
  | 'v' => mkTran 0 3 0
  | 'w' => mkTran 0 0 3
  | 'd' => mkTran 3 3 3
  | _ => mkTran 0 0 0

/-! ## Lemmas on normalisation -/

@[simp] theorem mkRot_00 (a b c d e f g h i : Int) :
    mkRot a b c d e f g h i 0 0 = a := rfl

@[simp] theorem mkRot_01 (a b c d e f g h i : Int) :
    mkRot a b c d e f g h i 0 1 = b := rfl

@[simp] theorem mkRot_02 (a b c d e f g h i : Int) :
    mkRot a b c d e f g h i 0 2 = c := rfl

@[simp] theorem mkRot_10 (a b c d e f g h i : Int) :
    mkRot a b c d e f g h i 1 0 = d := rfl

@[simp] theorem mkRot_11 (a b c d e f g h i : Int) :
    mkRot a b c d e f g h i 1 1 = e := rfl

@[simp] theorem mkRot_12 (a b c d e f g h i : Int) :
    mkRot a b c d e f g h i 1 2 = f := rfl

@[simp] theorem mkRot_20 (a b c d e f g h i : Int) :
    mkRot a b c d e f g h i 2 0 = g := rfl

@[simp] theorem mkRot_21 (a b c d e f g h i : Int) :
    mkRot a b c d e f g h i 2 1 = h := rfl

@[simp] theorem mkRot_22 (a b c d e f g h i : Int) :
    mkRot a b c d e f g h i 2 2 = i := rfl

@[simp] theorem mkTran_0 (a b c : Int) : mkTran a b c 0 = a := rfl

@[simp] theorem mkTran_1 (a b c : Int) : mkTran a b c 1 = b := rfl

@[simp] theorem mkTran_2 (a b c : Int) : mkTran a b c 2 = c := rfl

theorem tmod_twelve (t : Int) :
    t.tmod 12 = if 0 ≤ t then t % 12 else -((-t) % 12) := by
  cases t with
  | ofNat n => simp [Int.tmod]
  | negSucc n =>
    have h : ¬ (0 : Int) ≤ Int.negSucc n := by
      simp only [Int.negSucc_eq]; omega
    rw [if_neg h]
    show -((((n.succ % 12 : Nat)) : Int)) = _
    simp only [Int.negSucc_eq]
    omega

theorem wrap12_eq_emod (t : Int) : wrap12 t = t % 12 := by
  unfold wrap12
  simp only [tmod_twelve]
  split <;> split <;> omega

theorem normalize_tran_tran (op : Op) (i : Fin 3) :
    (op.normalize_tran).tran i = op.tran i % 12 := by
  simp [Op.normalize_tran, wrap12_eq_emod]

theorem emod_twelve_congr (x y k : Int) (h : x = y + 12 * k) : x % 12 = y % 12 := by
  subst h
  exact Int.add_mul_emod_self_left y 12 k

theorem combine_rot (a b : Op) (i j : Fin 3) :
    (combine a b).rot i j
      = a.rot i 0 * b.rot 0 j + a.rot i 1 * b.rot 1 j + a.rot i 2 * b.rot 2 j := rfl

theorem combine_tran (a b : Op) (i : Fin 3) :
    (combine a b).tran i
      = (a.tran i + a.rot i 0 * b.tran 0 + a.rot i 1 * b.tran 1 + a.rot i 2 * b.tran 2) % 12 := by
  simp [combine, normalize_tran_tran]

/-! ## Composition -/

/-- C1: `combine a b` has rotation the matrix product `a.rot · b.rot`, and
translation component `i` equal to `a.tran[i] + Σ_j a.rot[i][j]·b.tran[j]`
reduced modulo 12 into `[0,12)`: the truncated remainder, raised by 12 when
negative. -/
theorem combine_is_product_and_wrapped_translation (a b : Op) :
    Matrix.of (combine a b).rot = Matrix.of a.rot * Matrix.of b.rot ∧
    ∀ i : Fin 3,
      (combine a b).tran i = wrap12 (a.tran i + ∑ j : Fin 3, a.rot i j * b.tran j) ∧
      (combine a b).tran i = (a.tran i + ∑ j : Fin 3, a.rot i j * b.tran j) % 12 ∧
      0 ≤ (combine a b).tran i ∧ (combine a b).tran i < 12 := by
  refine ⟨?_, fun i => ?_⟩
  · ext i j
    simp [Matrix.mul_apply, Fin.sum_univ_three, combine_rot]
  · have h : (combine a b).tran i
        = (a.tran i + ∑ j : Fin 3, a.rot i j * b.tran j) % 12 := by
      rw [combine_tran, Fin.sum_univ_three]
      congr 1
      ring
    refine ⟨?_, h, ?_, ?_⟩
    · rw [wrap12_eq_emod]; exact h
    · rw [h]; exact Int.emod_nonneg _ (by decide)
    · rw [h]; exact Int.emod_lt_of_pos _ (by decide)

/-- C2: composition is associative, although every `combine` reduces the
translation modulo 12 before returning. -/
theorem combine_assoc (a b c : Op) :
    combine (combine a b) c = combine a (combine b c) := by
  apply Op.ext
  · funext i j
    simp only [combine_rot]
    ring
  · funext i
    simp only [combine_tran, combine_rot]
    simp only [Int.emod_def]
    generalize (a.tran i + a.rot i 0 * b.tran 0 + a.rot i 1 * b.tran 1
      + a.rot i 2 * b.tran 2) / 12 = q
    generalize (b.tran 0 + b.rot 0 0 * c.tran 0 + b.rot 0 1 * c.tran 1
      + b.rot 0 2 * c.tran 2) / 12 = q0
    generalize (b.tran 1 + b.rot 1 0 * c.tran 0 + b.rot 1 1 * c.tran 1
      + b.rot 1 2 * c.tran 2) / 12 = q1
    generalize (b.tran 2 + b.rot 2 0 * c.tran 0 + b.rot 2 1 * c.tran 1
      + b.rot 2 2 * c.tran 2) / 12 = q2
    have h := emod_twelve_congr
      (a.tran i + a.rot i 0 * b.tran 0 + a.rot i 1 * b.tran 1 + a.rot i 2 * b.tran 2 - 12 * q
        + (a.rot i 0 * b.rot 0 0 + a.rot i 1 * b.rot 1 0 + a.rot i 2 * b.rot 2 0) * c.tran 0
        + (a.rot i 0 * b.rot 0 1 + a.rot i 1 * b.rot 1 1 + a.rot i 2 * b.rot 2 1) * c.tran 1
        + (a.rot i 0 * b.rot 0 2 + a.rot i 1 * b.rot 1 2 + a.rot i 2 * b.rot 2 2) * c.tran 2)
      (a.tran i
        + a.rot i 0 * (b.tran 0 + b.rot 0 0 * c.tran 0 + b.rot 0 1 * c.tran 1
            + b.rot 0 2 * c.tran 2 - 12 * q0)
        + a.rot i 1 * (b.tran 1 + b.rot 1 0 * c.tran 0 + b.rot 1 1 * c.tran 1
            + b.rot 1 2 * c.tran 2 - 12 * q1)
        + a.rot i 2 * (b.tran 2 + b.rot 2 0 * c.tran 0 + b.rot 2 1 * c.tran 1
            + b.rot 2 2 * c.tran 2 - 12 * q2))
      (a.rot i 0 * q0 + a.rot i 1 * q1 + a.rot i 2 * q2 - q) (by ring)
    simp only [Int.emod_def] at h
    exact h

/-- C9: the identity is a two-sided unit of `combine` up to normalisation:
both products equal `op` with its translation wrapped into `[0,12)` and its
rotation unchanged. -/
theorem combine_identity (op : Op) :
    combine Op.identity op = op.normalize_tran ∧
    combine op Op.identity = op.normalize_tran ∧
    (op.normalize_tran).rot = op.rot ∧
    ∀ i : Fin 3, (op.normalize_tran).tran i = op.tran i % 12 ∧
      0 ≤ (op.normalize_tran).tran i ∧ (op.normalize_tran).tran i < 12 := by
  refine ⟨?_, ?_, rfl, fun i => ?_⟩
  · apply Op.ext
    · funext i j
      fin_cases i <;> simp [combine_rot, Op.identity, Op.normalize_tran]
    · funext i
      rw [combine_tran, normalize_tran_tran]
      fin_cases i <;> simp [Op.identity]
  · apply Op.ext
    · funext i j
      fin_cases j <;> simp [combine_rot, Op.identity, Op.normalize_tran]
    · funext i
      rw [combine_tran, normalize_tran_tran]
      simp [Op.identity]
  · rw [normalize_tran_tran]
    exact ⟨rfl, Int.emod_nonneg _ (by decide), Int.emod_lt_of_pos _ (by decide)⟩

/-- C10: the determinant is multiplicative over `combine`; when both
determinants are `+1` or `-1`, so is the determinant of the product. -/
theorem det_rot_combine (a b : Op)
    (ha : a.det_rot = 1 ∨ a.det_rot = -1) (hb : b.det_rot = 1 ∨ b.det_rot = -1) :
    (combine a b).det_rot = a.det_rot * b.det_rot ∧
    ((combine a b).det_rot = 1 ∨ (combine a b).det_rot = -1) := by
  have h : (combine a b).det_rot = a.det_rot * b.det_rot := by
    simp only [Op.det_rot, combine_rot]
    ring
  refine ⟨h, ?_⟩
  rw [h]
  rcases ha with ha | ha <;> rcases hb with hb | hb <;> rw [ha, hb] <;> decide

theorem det_rot_combine_witness :
    (Op.det_rot ⟨mkRot 0 (-1) 0 1 0 0 0 0 1, mkTran 0 0 3⟩ = 1 ∨
      Op.det_rot ⟨mkRot 0 (-1) 0 1 0 0 0 0 1, mkTran 0 0 3⟩ = -1) ∧
    (Op.det_rot ⟨mkRot (-1) 0 0 0 (-1) 0 0 0 (-1), mkTran 6 0 0⟩ = 1 ∨
      Op.det_rot ⟨mkRot (-1) 0 0 0 (-1) 0 0 0 (-1), mkTran 6 0 0⟩ = -1) ∧
    (combine ⟨mkRot 0 (-1) 0 1 0 0 0 0 1, mkTran 0 0 3⟩
        ⟨mkRot (-1) 0 0 0 (-1) 0 0 0 (-1), mkTran 6 0 0⟩).det_rot = -1 :=
  ⟨by decide, by decide,
   (det_rot_combine ⟨mkRot 0 (-1) 0 1 0 0 0 0 1, mkTran 0 0 3⟩
      ⟨mkRot (-1) 0 0 0 (-1) 0 0 0 (-1), mkTran 6 0 0⟩ (by decide) (by decide)).1.trans
     (by decide)⟩

/-! ## Inversion -/

theorem inverted_of_det (op : Op) (h : op.det_rot = 1 ∨ op.det_rot = -1) :
    op.inverted = .ok
      { rot := mkRot
          (op.det_rot * (op.rot 1 1 * op.rot 2 2 - op.rot 2 1 * op.rot 1 2))
          (op.det_rot * (op.rot 0 2 * op.rot 2 1 - op.rot 0 1 * op.rot 2 2))
          (op.det_rot * (op.rot 0 1 * op.rot 1 2 - op.rot 0 2 * op.rot 1 1))
          (op.det_rot * (op.rot 1 2 * op.rot 2 0 - op.rot 1 0 * op.rot 2 2))
          (op.det_rot * (op.rot 0 0 * op.rot 2 2 - op.rot 0 2 * op.rot 2 0))
          (op.det_rot * (op.rot 1 0 * op.rot 0 2 - op.rot 0 0 * op.rot 1 2))
          (op.det_rot * (op.rot 1 0 * op.rot 2 1 - op.rot 2 0 * op.rot 1 1))
          (op.det_rot * (op.rot 2 0 * op.rot 0 1 - op.rot 0 0 * op.rot 2 1))
          (op.det_rot * (op.rot 0 0 * op.rot 1 1 - op.rot 1 0 * op.rot 0 1))
        tran := fun i =>
          - op.tran 0 * mkRot
              (op.det_rot * (op.rot 1 1 * op.rot 2 2 - op.rot 2 1 * op.rot 1 2))
              (op.det_rot * (op.rot 0 2 * op.rot 2 1 - op.rot 0 1 * op.rot 2 2))
              (op.det_rot * (op.rot 0 1 * op.rot 1 2 - op.rot 0 2 * op.rot 1 1))
              (op.det_rot * (op.rot 1 2 * op.rot 2 0 - op.rot 1 0 * op.rot 2 2))
              (op.det_rot * (op.rot 0 0 * op.rot 2 2 - op.rot 0 2 * op.rot 2 0))
              (op.det_rot * (op.rot 1 0 * op.rot 0 2 - op.rot 0 0 * op.rot 1 2))
              (op.det_rot * (op.rot 1 0 * op.rot 2 1 - op.rot 2 0 * op.rot 1 1))
              (op.det_rot * (op.rot 2 0 * op.rot 0 1 - op.rot 0 0 * op.rot 2 1))
              (op.det_rot * (op.rot 0 0 * op.rot 1 1 - op.rot 1 0 * op.rot 0 1)) i 0
          - op.tran 1 * mkRot
              (op.det_rot * (op.rot 1 1 * op.rot 2 2 - op.rot 2 1 * op.rot 1 2))
              (op.det_rot * (op.rot 0 2 * op.rot 2 1 - op.rot 0 1 * op.rot 2 2))
              (op.det_rot * (op.rot 0 1 * op.rot 1 2 - op.rot 0 2 * op.rot 1 1))
              (op.det_rot * (op.rot 1 2 * op.rot 2 0 - op.rot 1 0 * op.rot 2 2))
              (op.det_rot * (op.rot 0 0 * op.rot 2 2 - op.rot 0 2 * op.rot 2 0))
              (op.det_rot * (op.rot 1 0 * op.rot 0 2 - op.rot 0 0 * op.rot 1 2))
              (op.det_rot * (op.rot 1 0 * op.rot 2 1 - op.rot 2 0 * op.rot 1 1))
              (op.det_rot * (op.rot 2 0 * op.rot 0 1 - op.rot 0 0 * op.rot 2 1))
              (op.det_rot * (op.rot 0 0 * op.rot 1 1 - op.rot 1 0 * op.rot 0 1)) i 1
          - op.tran 2 * mkRot
              (op.det_rot * (op.rot 1 1 * op.rot 2 2 - op.rot 2 1 * op.rot 1 2))
              (op.det_rot * (op.rot 0 2 * op.rot 2 1 - op.rot 0 1 * op.rot 2 2))
              (op.det_rot * (op.rot 0 1 * op.rot 1 2 - op.rot 0 2 * op.rot 1 1))
              (op.det_rot * (op.rot 1 2 * op.rot 2 0 - op.rot 1 0 * op.rot 2 2))
              (op.det_rot * (op.rot 0 0 * op.rot 2 2 - op.rot 0 2 * op.rot 2 0))
              (op.det_rot * (op.rot 1 0 * op.rot 0 2 - op.rot 0 0 * op.rot 1 2))
              (op.det_rot * (op.rot 1 0 * op.rot 2 1 - op.rot 2 0 * op.rot 1 1))
              (op.det_rot * (op.rot 2 0 * op.rot 0 1 - op.rot 0 0 * op.rot 2 1))
              (op.det_rot * (op.rot 0 0 * op.rot 1 1 - op.rot 1 0 * op.rot 0 1)) i 2 } := by
  unfold Op.inverted
  have hn : ¬ (op.det_rot ≠ 1 ∧ op.det_rot ≠ -1) := by
    rcases h with h | h <;> simp [h]
  simp only [if_neg hn]

theorem det_sq_of_unit (d : Int) (h : d = 1 ∨ d = -1) : d * d = 1 := by
  rcases h with h | h <;> subst h <;> rfl

/-- C3: for an operation of determinant `+1` or `-1`, `inverted` returns an
operation `inv`, and both `combine op inv` and `combine inv op`, after
`normalize_tran`, are `Op::identity()`. -/
theorem inverted_is_two_sided_inverse (op : Op)
    (h : op.det_rot = 1 ∨ op.det_rot = -1) :
    ∃ inv : Op, op.inverted = .ok inv ∧
      (combine op inv).normalize_tran = Op.identity ∧
      (combine inv op).normalize_tran = Op.identity := by
  refine ⟨_, inverted_of_det op h, ?_, ?_⟩
  · have hd := det_sq_of_unit _ h
    generalize hdet : op.det_rot = d at hd
    simp only [Op.det_rot] at hdet
    apply Op.ext
    · funext i j
      show (combine _ _).rot i j = _
      rw [combine_rot]
      fin_cases i <;> fin_cases j <;> simp [Op.identity] <;>
        first
          | (subst hdet; linear_combination hd)
          | (subst hdet; ring)
    · funext i
      rw [normalize_tran_tran, combine_tran]
      fin_cases i <;> simp [Op.identity] <;>
        (subst hdet
         refine Dvd.intro 0 ?_
         first
          | linear_combination (op.tran 0) * hd
          | linear_combination (op.tran 1) * hd
          | linear_combination (op.tran 2) * hd)
  · have hd := det_sq_of_unit _ h
    generalize hdet : op.det_rot = d at hd
    simp only [Op.det_rot] at hdet
    apply Op.ext
    · funext i j
      show (combine _ _).rot i j = _
      rw [combine_rot]
      fin_cases i <;> fin_cases j <;> simp [Op.identity] <;>
        first
          | (subst hdet; linear_combination hd)
          | (subst hdet; ring)
    · funext i
      rw [normalize_tran_tran, combine_tran]
      fin_cases i <;> simp [Op.identity] <;>
        (refine Dvd.intro 0 ?_
         ring)

theorem inverted_is_two_sided_inverse_witness :
    (Op.det_rot ⟨mkRot 0 (-1) 0 1 (-1) 0 0 0 (-1), mkTran 3 0 6⟩ = 1 ∨
      Op.det_rot ⟨mkRot 0 (-1) 0 1 (-1) 0 0 0 (-1), mkTran 3 0 6⟩ = -1) ∧
    ∃ inv : Op, Op.inverted ⟨mkRot 0 (-1) 0 1 (-1) 0 0 0 (-1), mkTran 3 0 6⟩ = .ok inv ∧
      (combine ⟨mkRot 0 (-1) 0 1 (-1) 0 0 0 (-1), mkTran 3 0 6⟩ inv).normalize_tran
        = Op.identity ∧
      (combine inv ⟨mkRot 0 (-1) 0 1 (-1) 0 0 0 (-1), mkTran 3 0 6⟩).normalize_tran
        = Op.identity :=
  ⟨by decide,
   inverted_is_two_sided_inverse ⟨mkRot 0 (-1) 0 1 (-1) 0 0 0 (-1), mkTran 3 0 6⟩ (by decide)⟩

theorem inverted_error_iff (op : Op) :
    (∃ e, op.inverted = .error e) ↔ (op.det_rot ≠ 1 ∧ op.det_rot ≠ -1) := by
  constructor
  · rintro ⟨e, he⟩
    by_contra hn
    have h : op.det_rot = 1 ∨ op.det_rot = -1 := by
      by_cases h1 : op.det_rot = 1
      · exact Or.inl h1
      · by_cases h2 : op.det_rot = -1
        · exact Or.inr h2
        · exact absurd ⟨h1, h2⟩ hn
    rw [inverted_of_det op h] at he
    cases he
  · intro h
    refine ⟨.notRotation op.det_rot, ?_⟩
    unfold Op.inverted
    simp only [if_pos h]

/-- C4: `inverted` fails exactly when the determinant of the rotation is
neither `+1` nor `-1`, and then with the `notRotation` error carrying that
determinant; replacing the translation by any other never changes whether
it fails. -/
theorem inverted_fails_iff (op : Op) :
    ((∃ e, op.inverted = .error e) ↔ (op.det_rot ≠ 1 ∧ op.det_rot ≠ -1)) ∧
    ((∃ e, op.inverted = .error e) ↔ op.inverted = .error (.notRotation op.det_rot)) ∧
    ∀ t : Tran, (∃ e, Op.inverted ⟨op.rot, t⟩ = .error e) ↔ (∃ e, op.inverted = .error e) := by
  refine ⟨inverted_error_iff op, ⟨fun h => ?_, fun h => ⟨_, h⟩⟩, fun t => ?_⟩
  · have hd := (inverted_error_iff op).1 h
    unfold Op.inverted
    simp only [if_pos hd]
  · rw [inverted_error_iff, inverted_error_iff]
    exact Iff.rfl

theorem inverted_fails_iff_witness :
    (∃ e, Op.inverted ⟨mkRot 2 0 0 0 1 0 0 0 1, mkTran 0 0 0⟩ = .error e) ∧
    ¬ (∃ e, Op.inverted ⟨mkRot 0 (-1) 0 1 (-1) 0 0 0 1, mkTran 5 0 7⟩ = .error e) :=
  ⟨(inverted_fails_iff ⟨mkRot 2 0 0 0 1 0 0 0 1, mkTran 0 0 0⟩).1.2 (by decide),
   fun h => absurd ((inverted_fails_iff ⟨mkRot 0 (-1) 0 1 (-1) 0 0 0 1, mkTran 5 0 7⟩).1.1 h)
     (by decide)⟩

/-! ## Decimal digits: `strtol` reads back what `to_string` prints -/

theorem isDigit_digitChar (d : Nat) (h : d < 10) :
    isDigit (Nat.digitChar d) = true ∧ digitVal (Nat.digitChar d) = d := by
  interval_cases d <;> decide


theorem strtol_digits_append (pre rest : List Char) (acc : Nat)
    (hpre : ∀ c ∈ pre, isDigit c = true) :
    strtol_digits acc (pre ++ rest)
      = strtol_digits (pre.foldl (fun a c => a * 10 + digitVal c) acc) rest := by
  induction pre generalizing acc with
  | nil => rfl
  | cons c cs ih =>
    have hc : isDigit c = true := hpre c (List.mem_cons_self _ _)
    simp only [List.cons_append, strtol_digits, hc, if_true, List.foldl_cons]
    exact ih _ (fun x hx => hpre x (List.mem_cons_of_mem _ hx))

theorem strtol_digits_stop (rest : List Char) (acc : Nat)
    (h : ∀ c, rest.head? = some c → isDigit c = false) :
    strtol_digits acc rest = (acc, rest) := by
  cases rest with
  | nil => rfl
  | cons c cs =>
    have hc : isDigit c = false := h c rfl
    simp [strtol_digits, hc]

theorem toDigitsCore_spec (fuel : Nat) : ∀ (n : Nat) (ds : List Char), n < fuel →
    ∃ pre : List Char, Nat.toDigitsCore 10 fuel n ds = pre ++ ds ∧ pre ≠ [] ∧
      (∀ c ∈ pre, isDigit c = true) ∧
      pre.foldl (fun a c => a * 10 + digitVal c) 0 = n := by
  induction fuel with
  | zero => intro n ds h; omega
  | succ fuel ih =>
    intro n ds h
    have hd := isDigit_digitChar (n % 10) (Nat.mod_lt _ (by decide))
    simp only [Nat.toDigitsCore]
    by_cases h0 : n / 10 = 0
    · rw [if_pos h0]
      refine ⟨[Nat.digitChar (n % 10)], rfl, by simp, ?_, ?_⟩
      · intro c hc
        rw [List.mem_singleton] at hc
        rw [hc]; exact hd.1
      · simp only [List.foldl_cons, List.foldl_nil, hd.2]
        omega
    · rw [if_neg h0]
      obtain ⟨pre, hpre, hne, hdig, hval⟩ :=
        ih (n / 10) (Nat.digitChar (n % 10) :: ds) (by omega)
      refine ⟨pre ++ [Nat.digitChar (n % 10)], ?_, by simp, ?_, ?_⟩
      · rw [hpre]; simp
      · intro c hc
        rcases List.mem_append.1 hc with hc | hc
        · exact hdig c hc
        · rw [List.mem_singleton] at hc
          rw [hc]; exact hd.1
      · rw [List.foldl_append, hval]
        simp only [List.foldl_cons, List.foldl_nil, hd.2]
        omega

theorem toDigits_spec (n : Nat) :
    Nat.toDigits 10 n ≠ [] ∧ (∀ c ∈ Nat.toDigits 10 n, isDigit c = true) ∧
    (Nat.toDigits 10 n).foldl (fun a c => a * 10 + digitVal c) 0 = n := by
  obtain ⟨pre, hpre, hne, hdig, hval⟩ := toDigitsCore_spec (n + 1) n [] (by omega)
  have h : Nat.toDigits 10 n = pre := by
    unfold Nat.toDigits
    rw [hpre, List.append_nil]
  rw [h]
  exact ⟨hne, hdig, hval⟩

theorem isDigit_not_special (c : Char) (h : isDigit c = true) :
    isspace c = false ∧ c ≠ '-' ∧ c ≠ '+' ∧ c ≠ ' ' ∧ c ≠ '\t' ∧ c ≠ ',' ∧ c ≠ '/' := by
  refine ⟨?_, ?_, ?_, ?_, ?_, ?_, ?_⟩
  · by_contra hs
    simp only [isspace, Bool.or_eq_true, beq_iff_eq, Bool.not_eq_false] at hs
    rcases hs with ((((hs | hs) | hs) | hs) | hs) | hs <;> (subst hs; revert h; decide)
  all_goals (rintro rfl; revert h; decide)


theorem strtol_toDigits (n : Nat) (rest : List Char)
    (h : ∀ c, rest.head? = some c → isDigit c = false) :
    strtol (Nat.toDigits 10 n ++ rest) = (clamp_long (n : Int), rest) := by
  obtain ⟨hne, hdig, hval⟩ := toDigits_spec n
  have hread : strtol_digits 0 (Nat.toDigits 10 n ++ rest) = (n, rest) := by
    rw [strtol_digits_append _ _ _ hdig, hval, strtol_digits_stop _ _ h]
  revert hread hdig hne
  generalize Nat.toDigits 10 n = ds
  intro hne hdig hread
  cases ds with
  | nil => exact absurd rfl hne
  | cons c cs =>
    have hc : isDigit c = true := hdig c (List.mem_cons_self _ _)
    obtain ⟨h1, h2, h3, -⟩ := isDigit_not_special c hc
    have hor : ¬ (c = '-' ∨ c = '+') := fun hh => hh.elim h2 h3
    simp only [List.cons_append] at hread
    simp [strtol, h1, h2, h3, hc, hread]

/-! ## The fraction printed by `make_triplet_part` -/

theorem simplify_step_cases (w d f : Int) :
    (f ∣ w ∧ simplify_step (w, d) f = (w / f, d)) ∨
    (¬ f ∣ w ∧ simplify_step (w, d) f = (w, d * f)) := by
  unfold simplify_step
  by_cases h : f ∣ w
  · left
    refine ⟨h, ?_⟩
    rw [if_pos (Int.dvd_iff_tmod_eq_zero.1 h), Int.tdiv_eq_ediv_of_dvd h]
  · right
    refine ⟨h, ?_⟩
    rw [if_neg (fun h2 => h (Int.dvd_iff_tmod_eq_zero.2 h2))]

theorem simplify_spec (w : Int) :
    ∃ v d : Int, simplify_step (simplify_step (simplify_step (w, 1) 2) 2) 3 = (v, d) ∧
      (d = 1 ∨ d = 2 ∨ d = 3 ∨ d = 4 ∨ d = 6 ∨ d = 12) ∧
      v * Int.tdiv 12 d = w ∧ (w ≠ 0 → v ≠ 0) ∧
      (d = 12 ↔ (¬ (2 : Int) ∣ w ∧ ¬ (3 : Int) ∣ w)) := by
  rcases simplify_step_cases w 1 2 with ⟨h1, e1⟩ | ⟨h1, e1⟩ <;> rw [e1]
  · rcases simplify_step_cases (w / 2) 1 2 with ⟨h2, e2⟩ | ⟨h2, e2⟩ <;> rw [e2]
    · rcases simplify_step_cases (w / 2 / 2) 1 3 with ⟨h3, e3⟩ | ⟨h3, e3⟩ <;> rw [e3]
      · refine ⟨_, _, rfl, by decide, ?_, ?_, ?_⟩
        · show w / 2 / 2 / 3 * 12 = w; omega
        · omega
        · omega
      · refine ⟨_, _, rfl, by decide, ?_, ?_, ?_⟩
        · show w / 2 / 2 * 4 = w; omega
        · omega
        · omega
    · rcases simplify_step_cases (w / 2) (1 * 2) 3 with ⟨h3, e3⟩ | ⟨h3, e3⟩ <;> rw [e3]
      · refine ⟨_, _, rfl, by decide, ?_, ?_, ?_⟩
        · show w / 2 / 3 * 6 = w; omega
        · omega
        · omega
      · refine ⟨_, _, rfl, by decide, ?_, ?_, ?_⟩
        · show w / 2 * 2 = w; omega
        · omega
        · omega
  · rcases simplify_step_cases w (1 * 2) 2 with ⟨h2, e2⟩ | ⟨h2, e2⟩ <;> rw [e2]
    · exact absurd h2 h1
    · rcases simplify_step_cases w (1 * 2 * 2) 3 with ⟨h3, e3⟩ | ⟨h3, e3⟩ <;> rw [e3]
      · refine ⟨_, _, rfl, by decide, ?_, ?_, ?_⟩
        · show w / 3 * 3 = w; omega
        · omega
        · omega
      · refine ⟨_, _, rfl, by decide, ?_, ?_, ?_⟩
        · show w * 1 = w; omega
        · omega
        · simp only [show (1 * 2 * 2 * 3 : Int) = 12 from rfl, true_iff]; exact ⟨h1, h3⟩

/-! ## Steps of the loop of `parse_triplet_part` -/

theorem loop_plus (f : Nat) (rest : List Char) (r : Fin 4 → Int) (sg : Int) :
    parse_triplet_part_loop (f + 1) ('+' :: rest) r sg
      = parse_triplet_part_loop f rest r 1 := by
  simp +decide [parse_triplet_part_loop]

theorem loop_minus (f : Nat) (rest : List Char) (r : Fin 4 → Int) (sg : Int) :
    parse_triplet_part_loop (f + 1) ('-' :: rest) r sg
      = parse_triplet_part_loop f rest r (-1) := by
  simp +decide [parse_triplet_part_loop]

theorem loop_x (f : Nat) (rest : List Char) (r : Fin 4 → Int) (sg : Int) (h : sg ≠ 0) :
    parse_triplet_part_loop (f + 1) ('x' :: rest) r sg
      = parse_triplet_part_loop f rest (assign r 0 (r 0 + sg)) 0 := by
  simp +decide [parse_triplet_part_loop, h]

theorem loop_y (f : Nat) (rest : List Char) (r : Fin 4 → Int) (sg : Int) (h : sg ≠ 0) :
    parse_triplet_part_loop (f + 1) ('y' :: rest) r sg
      = parse_triplet_part_loop f rest (assign r 1 (r 1 + sg)) 0 := by
  simp +decide [parse_triplet_part_loop, h]

theorem loop_z (f : Nat) (rest : List Char) (r : Fin 4 → Int) (sg : Int) (h : sg ≠ 0) :
    parse_triplet_part_loop (f + 1) ('z' :: rest) r sg
      = parse_triplet_part_loop f rest (assign r 2 (r 2 + sg)) 0 := by
  simp +decide [parse_triplet_part_loop, h]

theorem loop_nil (f : Nat) (r : Fin 4 → Int) :
    parse_triplet_part_loop f [] r 0 = .ok r := by
  cases f <;> rfl

theorem loop_number (f n : Nat) (slash : List Char) (r : Fin 4 → Int) (sg : Int)
    (hsg : sg ≠ 0) (hslash : ∀ c, slash.head? = some c → isDigit c = false) :
    parse_triplet_part_loop (f + 1) (Nat.toDigits 10 n ++ slash) r sg =
      if slash.head? = some '/' then
        if to_int (strtol slash.tail).1 ≠ 1 ∧ to_int (strtol slash.tail).1 ≠ 2
            ∧ to_int (strtol slash.tail).1 ≠ 3 ∧ to_int (strtol slash.tail).1 ≠ 4
            ∧ to_int (strtol slash.tail).1 ≠ 6 then
          .error (.unexpectedDenominator (to_int (strtol slash.tail).1))
        else
          parse_triplet_part_loop f (strtol slash.tail).2
            (assign r 3 (to_int (sg * clamp_long n)
              * Int.tdiv 12 (to_int (strtol slash.tail).1))) 0
      else
        parse_triplet_part_loop f slash
          (assign r 3 (to_int (sg * clamp_long n) * Int.tdiv 12 1)) 0 := by
  have hst := strtol_toDigits n slash hslash
  obtain ⟨hne, hdig, -⟩ := toDigits_spec n
  revert hst hdig hne
  generalize Nat.toDigits 10 n = ds
  intro hst hne hdig
  cases ds with
  | nil => exact absurd rfl hne
  | cons c cs =>
    have hc : isDigit c = true := hdig c (List.mem_cons_self _ _)
    obtain ⟨-, h2, h3, h4, h5, -⟩ := isDigit_not_special c hc
    simp only [List.cons_append] at hst ⊢
    simp only [parse_triplet_part_loop, hst]
    simp [h2, h3, h4, h5, hsg, hc]

theorem to_string_pos (v : Int) (h : 0 < v) : to_string v = Nat.toDigits 10 v.natAbs := by
  unfold to_string
  rw [if_neg (by omega)]

theorem to_string_neg (v : Int) (h : v < 0) :
    to_string v = '-' :: Nat.toDigits 10 v.natAbs := by
  unfold to_string
  rw [if_pos h]

theorem strtol_to_string_small (d : Int) (hd : d = 2 ∨ d = 3 ∨ d = 4 ∨ d = 6) :
    strtol (to_string d) = (d, []) := by
  rcases hd with rfl | rfl | rfl | rfl <;> decide

theorem to_int_of_range (v : Int) (h1 : -2147483648 ≤ v) (h2 : v ≤ 2147483647) :
    to_int v = v := by
  unfold to_int
  omega

theorem clamp_long_of_range (v : Int) (h1 : -9223372036854775808 ≤ v)
    (h2 : v ≤ 9223372036854775807) : clamp_long v = v := by
  unfold clamp_long LONG_MAX LONG_MIN
  rw [if_neg (by omega), if_neg (by omega)]

theorem to_int_small (d : Int) (hd : d = 1 ∨ d = 2 ∨ d = 3 ∨ d = 4 ∨ d = 6) :
    to_int d = d := by
  rcases hd with rfl | rfl | rfl | rfl | rfl <;> decide

theorem loop_fraction (f n : Nat) (d : Int) (r : Fin 4 → Int) (sg : Int) (hsg : sg ≠ 0)
    (hd : d = 1 ∨ d = 2 ∨ d = 3 ∨ d = 4 ∨ d = 6) :
    parse_triplet_part_loop (f + 1)
        (Nat.toDigits 10 n ++ (if d ≠ 1 then '/' :: to_string d else [])) r sg
      = .ok (assign r 3 (to_int (sg * clamp_long n) * Int.tdiv 12 d)) := by
  rcases hd with rfl | rfl | rfl | rfl | rfl
  · rw [if_neg (by decide), loop_number f n [] r sg hsg (by simp)]
    rw [if_neg (by simp), loop_nil]
  all_goals
    rw [if_pos (by decide), loop_number f n _ r sg hsg (by simp +decide)]
    simp only [List.head?_cons, List.tail_cons, if_true]
    rw [strtol_to_string_small _ (by decide), to_int_small _ (by decide),
      if_neg (by decide)]
    exact loop_nil _ _

theorem loop_const (f : Nat) (r : Fin 4 → Int) (sg w : Int) (hw0 : w ≠ 0)
    (h : (2 : Int) ∣ w ∨ (3 : Int) ∣ w)
    (hwr : -2147483648 ≤ w ∧ w ≤ 2147483647) :
    parse_triplet_part_loop (f + 2) (make_triplet_const w) r sg
      = .ok (assign r 3 w) := by
  obtain ⟨v, d, hs, hd, hmul, hv0, h12⟩ := simplify_spec w
  have hd12 : d ≠ 12 := fun h0 => by
    have := h12.1 h0
    omega
  have hd5 : d = 1 ∨ d = 2 ∨ d = 3 ∨ d = 4 ∨ d = 6 := by omega
  have hvr : -2147483648 ≤ v ∧ v ≤ 2147483647 := by
    have hk : Int.tdiv 12 d = 12 ∨ Int.tdiv 12 d = 6 ∨ Int.tdiv 12 d = 4
        ∨ Int.tdiv 12 d = 3 ∨ Int.tdiv 12 d = 2 := by
      rcases hd5 with rfl | rfl | rfl | rfl | rfl <;> decide
    rcases hk with e | e | e | e | e <;> rw [e] at hmul <;> omega
  have hcl : clamp_long (v.natAbs : Int) = (v.natAbs : Int) :=
    clamp_long_of_range _ (by omega) (by omega)
  unfold make_triplet_const
  rw [if_pos hw0]
  simp only [hs]
  rcases lt_or_gt_of_ne (hv0 hw0) with hneg | hpos
  · rw [if_neg (by omega), to_string_neg v hneg]
    simp only [List.nil_append, List.cons_append]
    have hval : to_int ((-1 : Int) * clamp_long (v.natAbs : Int)) * Int.tdiv 12 d = w := by
      have hv : (-1 : Int) * (v.natAbs : Int) = v := by omega
      rw [hcl, hv, to_int_of_range v hvr.1 hvr.2, hmul]
    rw [loop_minus, loop_fraction _ _ _ _ _ (by decide) hd5, hval]
  · rw [if_pos hpos, to_string_pos v hpos]
    simp only [List.cons_append, List.nil_append]
    have hval : to_int ((1 : Int) * clamp_long (v.natAbs : Int)) * Int.tdiv 12 d = w := by
      have hv : (1 : Int) * (v.natAbs : Int) = v := by omega
      rw [hcl, hv, to_int_of_range v hvr.1 hvr.2, hmul]
    rw [loop_plus, loop_fraction _ _ _ _ _ (by decide) hd5, hval]

theorem two_le_length_const (w : Int) (hw0 : w ≠ 0) : 2 ≤ (make_triplet_const w).length := by
  obtain ⟨v, d, hs, -, -, hv0, -⟩ := simplify_spec w
  unfold make_triplet_const
  rw [if_pos hw0]
  simp only [hs]
  have hlen : ∀ n, 1 ≤ (Nat.toDigits 10 n).length := fun n => by
    have := (toDigits_spec n).1
    cases hh : Nat.toDigits 10 n with
    | nil => exact absurd hh this
    | cons c cs => simp
  rcases lt_or_gt_of_ne (hv0 hw0) with hneg | hpos
  · rw [if_neg (by omega), to_string_neg v hneg]
    have := hlen v.natAbs
    simp only [List.nil_append, List.cons_append, List.length_append, List.length_cons]
    omega
  · rw [if_pos hpos, to_string_pos v hpos]
    have := hlen v.natAbs
    simp only [List.nil_append, List.cons_append, List.length_append, List.length_cons,
      List.length_nil]
    omega

theorem axis_char_x : Char.ofNat ('x'.toNat + 0) = 'x' := by decide
theorem axis_char_y : Char.ofNat ('x'.toNat + 1) = 'y' := by decide
theorem axis_char_z : Char.ofNat ('x'.toNat + 2) = 'z' := by decide

theorem make_triplet_const_zero : make_triplet_const 0 = [] := by decide

theorem update_chain (r : Fin 4 → Int) (x y z w : Int)
    (h0 : r 0 = x) (h1 : r 1 = y) (h2 : r 2 = z) :
    assign r 3 w = ![x, y, z, w] := by
  funext i
  fin_cases i <;> simp [assign, h0, h1, h2]

theorem part_round_trip (x y z w : Int)
    (hx : x = -1 ∨ x = 0 ∨ x = 1) (hy : y = -1 ∨ y = 0 ∨ y = 1) (hz : z = -1 ∨ z = 0 ∨ z = 1)
    (hne : x ≠ 0 ∨ y ≠ 0 ∨ z ≠ 0 ∨ w ≠ 0) (hw : (2 : Int) ∣ w ∨ (3 : Int) ∣ w)
    (hwr : -2147483648 ≤ w ∧ w ≤ 2147483647) :
    parse_triplet_part (make_triplet_part x y z w) = .ok ![x, y, z, w] := by
  by_cases hw0 : w = 0
  · subst hw0
    rcases hx with rfl | rfl | rfl <;> rcases hy with rfl | rfl | rfl <;>
      rcases hz with rfl | rfl | rfl <;>
      first
        | decide
        | (exfalso; revert hne; decide)
  · obtain ⟨f, hf⟩ : ∃ f, (make_triplet_const w).length = f + 2 :=
      ⟨(make_triplet_const w).length - 2, by have := two_le_length_const w hw0; omega⟩
    have hk := fun r sg => loop_const f r sg w hw0 hw hwr
    simp only [parse_triplet_part, make_triplet_part]
    revert hk hf
    generalize make_triplet_const w = t
    intro hf hk
    rcases hx with rfl | rfl | rfl <;> rcases hy with rfl | rfl | rfl <;>
      rcases hz with rfl | rfl | rfl <;>
      (simp +decide only [parse_triplet_part, make_triplet_part, make_triplet_axis, axis_char_x,
        axis_char_y, axis_char_z, List.length_append, List.length_cons, List.length_nil, hf,
        List.nil_append, List.cons_append, List.append_assoc, ne_eq, if_true, if_false,
        not_true_eq_false, not_false_eq_true, List.isEmpty_nil, List.isEmpty_cons,
        Bool.false_eq_true, Bool.and_false, Bool.false_and,
        List.singleton_append, Nat.add_assoc, Nat.reduceAdd, Nat.zero_add,
        loop_x, loop_y, loop_z, loop_minus, loop_plus, hk]
       rw [update_chain] <;> simp [assign])

/-! ## Splitting a triplet at its commas -/

theorem indexOf_comma (p rest : List Char) (h : ',' ∉ p) :
    (p ++ ',' :: rest).indexOf ',' = p.length := by
  induction p with
  | nil => simp [List.indexOf_cons]
  | cons c cs ih =>
    have hc : c ≠ ',' := fun e => h (e ▸ List.mem_cons_self _ _)
    have hcs : ',' ∉ cs := fun e => h (List.mem_cons_of_mem _ e)
    simp [List.indexOf_cons, hc, ih hcs]

theorem take_drop_comma (p rest : List Char) :
    (p ++ ',' :: rest).take p.length = p ∧ (p ++ ',' :: rest).drop (p.length + 1) = rest := by
  constructor
  · simp
  · induction p with
    | nil => simp
    | cons c cs ih => simp

theorem parse_triplet_split (p0 p1 p2 : List Char)
    (h0 : ',' ∉ p0) (h1 : ',' ∉ p1) (h2 : ',' ∉ p2) :
    parse_triplet (p0 ++ ',' :: (p1 ++ ',' :: p2)) =
      match parse_triplet_part p0 with
      | .error e => .error e
      | .ok a =>
        match parse_triplet_part p1 with
        | .error e => .error e
        | .ok b =>
          match parse_triplet_part p2 with
          | .error e => .error e
          | .ok c =>
            .ok { rot := mkRot (a 0) (a 1) (a 2) (b 0) (b 1) (b 2) (c 0) (c 1) (c 2)
                  tran := mkTran (a 3) (b 3) (c 3) } := by
  have hcount : (p0 ++ ',' :: (p1 ++ ',' :: p2)).count ',' = 2 := by
    simp [List.count_append, List.count_cons, List.count_eq_zero_of_not_mem h0,
      List.count_eq_zero_of_not_mem h1, List.count_eq_zero_of_not_mem h2]
  unfold parse_triplet
  rw [if_neg (by rw [hcount]; decide)]
  simp only [indexOf_comma p0 _ h0, (take_drop_comma p0 _).1, (take_drop_comma p0 _).2,
    indexOf_comma p1 _ h1]
  have e1 : p0.length + 1 + p1.length - (p0.length + 1) = p1.length := by omega
  have e2 : (p0 ++ ',' :: (p1 ++ ',' :: p2)).drop (p0.length + 1 + p1.length + 1) = p2 := by
    have : p0.length + 1 + p1.length + 1 = (p0.length + 1) + (p1.length + 1) := by omega
    rw [this, ← List.drop_drop, (take_drop_comma p0 _).2, (take_drop_comma p1 _).2]
  rw [e1, (take_drop_comma p1 _).1, e2]

theorem comma_not_mem_toDigits (n : Nat) : ',' ∉ Nat.toDigits 10 n := fun h =>
  absurd ((toDigits_spec n).2.1 _ h) (by decide)

theorem comma_not_mem_to_string (v : Int) : ',' ∉ to_string v := by
  unfold to_string
  split
  · simp only [List.mem_cons, not_or]
    exact ⟨by decide, comma_not_mem_toDigits _⟩
  · exact comma_not_mem_toDigits _

theorem comma_not_mem_axis (s : List Char) (v : Int) (i : Nat) (hi : i < 3) (hs : ',' ∉ s) :
    ',' ∉ make_triplet_axis s v i := by
  unfold make_triplet_axis
  have hch : ',' ≠ Char.ofNat ('x'.toNat + i) := by
    interval_cases i <;> decide
  split
  · simp only [List.mem_append, List.mem_singleton, not_or]
    refine ⟨hs, ?_, hch⟩
    split
    · simp +decide
    · split <;> simp +decide
  · exact hs

theorem comma_not_mem_const (w : Int) : ',' ∉ make_triplet_const w := by
  unfold make_triplet_const
  split
  · simp only [List.mem_append, not_or]
    refine ⟨⟨?_, comma_not_mem_to_string _⟩, ?_⟩
    · split <;> simp +decide
    · split
      · simp only [List.mem_cons, not_or]
        exact ⟨by decide, comma_not_mem_to_string _⟩
      · simp
  · simp

theorem comma_not_mem_part (x y z w : Int) : ',' ∉ make_triplet_part x y z w := by
  unfold make_triplet_part
  simp only [List.mem_append, not_or]
  refine ⟨?_, comma_not_mem_const w⟩
  exact comma_not_mem_axis _ _ _ (by decide)
    (comma_not_mem_axis _ _ _ (by decide) (comma_not_mem_axis _ _ _ (by decide) (by simp)))

theorem normalize_tran_of_range (op : Op) (h : ∀ i, 0 ≤ op.tran i ∧ op.tran i < 12) :
    op.normalize_tran = op := by
  apply Op.ext
  · rfl
  · funext i
    rw [normalize_tran_tran]
    exact Int.emod_eq_of_lt (h i).1 (h i).2

/-! ## Triplet round trip -/

/-- C5 (as the code has it): for an operation whose rotation coefficients
are all in `{-1,0,1}`, whose rows each have a non-zero coefficient or a
non-zero translation component, and whose translation components (values of
type `int`, so between `-2^31` and `2^31 - 1`) are each even or divisible by
3, `parse_triplet(op.triplet())` returns `op` itself, translation unchanged;
it is the normalised `op` when the translation is already in `[0,12)`. -/
theorem triplet_round_trip (op : Op)
    (hrot : ∀ i j, op.rot i j = -1 ∨ op.rot i j = 0 ∨ op.rot i j = 1)
    (hrow : ∀ i, op.rot i 0 ≠ 0 ∨ op.rot i 1 ≠ 0 ∨ op.rot i 2 ≠ 0 ∨ op.tran i ≠ 0)
    (hw : ∀ i, (2 : Int) ∣ op.tran i ∨ (3 : Int) ∣ op.tran i)
    (hint : ∀ i, -2147483648 ≤ op.tran i ∧ op.tran i ≤ 2147483647) :
    parse_triplet op.triplet = .ok op ∧
    ((∀ i, 0 ≤ op.tran i ∧ op.tran i < 12) →
      parse_triplet op.triplet = .ok op.normalize_tran) := by
  have main : parse_triplet op.triplet = .ok op := by
    unfold Op.triplet
    rw [List.append_assoc, List.cons_append]
    rw [parse_triplet_split _ _ _ (comma_not_mem_part _ _ _ _) (comma_not_mem_part _ _ _ _)
      (comma_not_mem_part _ _ _ _)]
    rw [part_round_trip _ _ _ _ (hrot 0 0) (hrot 0 1) (hrot 0 2) (hrow 0) (hw 0) (hint 0),
      part_round_trip _ _ _ _ (hrot 1 0) (hrot 1 1) (hrot 1 2) (hrow 1) (hw 1) (hint 1),
      part_round_trip _ _ _ _ (hrot 2 0) (hrot 2 1) (hrot 2 2) (hrow 2) (hw 2) (hint 2)]
    simp only
    congr 1
    apply Op.ext
    · funext i j
      fin_cases i <;> fin_cases j <;> rfl
    · funext i
      fin_cases i <;> rfl
  refine ⟨main, fun h => ?_⟩
  rw [normalize_tran_of_range op h]
  exact main

theorem triplet_round_trip_witness :
    parse_triplet (Op.triplet ⟨mkRot 0 (-1) 0 1 (-1) 0 0 0 1, mkTran 0 6 8⟩)
        = .ok ⟨mkRot 0 (-1) 0 1 (-1) 0 0 0 1, mkTran 0 6 8⟩ ∧
    Op.triplet Op.identity = "x,y,z".toList ∧
    parse_triplet "x,y,z".toList = .ok Op.identity :=
  ⟨(triplet_round_trip ⟨mkRot 0 (-1) 0 1 (-1) 0 0 0 1, mkTran 0 6 8⟩
      (by decide) (by decide) (by decide) (by decide)).1, by decide, by decide⟩

/-- C5 as stated fails: the identity rotation with translation `(1,0,0)`
prints as `x+1/12,y,z`, which `parse_triplet` rejects; with translation
`(12,0,0)` it prints as `x+1,y,z` and parses back with translation
`(12,0,0)`, not the normalised `(0,0,0)`; with translation `(-6,0,0)` the
result is `(-6,0,0)`, not `(6,0,0)`; and a zero row with zero translation
prints an empty part, which `parse_triplet` rejects. -/
theorem triplet_round_trip_counterexample :
    Op.triplet ⟨mkRot 1 0 0 0 1 0 0 0 1, mkTran 1 0 0⟩ = "x+1/12,y,z".toList ∧
    parse_triplet (Op.triplet ⟨mkRot 1 0 0 0 1 0 0 0 1, mkTran 1 0 0⟩)
        = .error (.unexpectedDenominator 12) ∧
    Op.triplet ⟨mkRot 1 0 0 0 1 0 0 0 1, mkTran 12 0 0⟩ = "x+1,y,z".toList ∧
    parse_triplet (Op.triplet ⟨mkRot 1 0 0 0 1 0 0 0 1, mkTran 12 0 0⟩)
        = .ok ⟨mkRot 1 0 0 0 1 0 0 0 1, mkTran 12 0 0⟩ ∧
    parse_triplet (Op.triplet ⟨mkRot 1 0 0 0 1 0 0 0 1, mkTran 12 0 0⟩)
        ≠ .ok (Op.normalize_tran ⟨mkRot 1 0 0 0 1 0 0 0 1, mkTran 12 0 0⟩) ∧
    parse_triplet (Op.triplet ⟨mkRot 1 0 0 0 1 0 0 0 1, mkTran (-6) 0 0⟩)
        ≠ .ok (Op.normalize_tran ⟨mkRot 1 0 0 0 1 0 0 0 1, mkTran (-6) 0 0⟩) ∧
    parse_triplet (Op.triplet ⟨mkRot 0 0 0 0 1 0 0 0 1, mkTran 0 0 0⟩)
        = .error .trailingSign := by
  decide

/-! ## Enumeration of an operation set -/

theorem succ_div_mod (m k : Nat) (hm : 0 < m) :
    (k % m + 1 = m ∧ (k + 1) / m = k / m + 1 ∧ (k + 1) % m = 0) ∨
    (k % m + 1 < m ∧ (k + 1) / m = k / m ∧ (k + 1) % m = k % m + 1) := by
  have hr : k % m < m := Nat.mod_lt _ hm
  have hk : m * (k / m) + k % m = k := Nat.div_add_mod k m
  rcases Nat.lt_or_ge (k % m + 1) m with h | h
  · right
    have e : k + 1 = (k % m + 1) + m * (k / m) := by omega
    refine ⟨h, ?_, ?_⟩
    · rw [e, Nat.add_mul_div_left _ _ hm, Nat.div_eq_of_lt h, Nat.zero_add]
    · rw [e, Nat.add_mul_mod_self_left, Nat.mod_eq_of_lt h]
  · left
    have h1 : k % m + 1 = m := by omega
    have e : k + 1 = m * (k / m + 1) := by rw [Nat.mul_add, Nat.mul_one]; omega
    refine ⟨h1, ?_, ?_⟩
    · rw [e, Nat.mul_div_cancel_left _ hm]
    · rw [e, Nat.mul_mod_right]

theorem collect_from (s : SymOps) (hm : 0 < s.cen_ops.length)
    (hn32 : s.sym_ops.length < 2 ^ 32) (hm32 : s.cen_ops.length < 2 ^ 32)
    (elem : Nat → Op)
    (helem : ∀ k, k < s.sym_ops.length * s.cen_ops.length →
      Iter.deref s ⟨k / s.cen_ops.length, k % s.cen_ops.length⟩ = .ok (elem k)) :
    ∀ (d k fuel : Nat), k + d = s.sym_ops.length * s.cen_ops.length → d ≤ fuel →
      SymOps.collect s fuel ⟨k / s.cen_ops.length, k % s.cen_ops.length⟩
        = .ok ((List.range' k d).map elem) := by
  have hend : s.end_ = ⟨s.sym_ops.length, 0⟩ := by
    unfold SymOps.end_
    rw [Nat.mod_eq_of_lt hn32]
  intro d
  induction d with
  | zero =>
    intro k fuel hk _
    have hk' : k = s.sym_ops.length * s.cen_ops.length := by omega
    have hit : (⟨k / s.cen_ops.length, k % s.cen_ops.length⟩ : Iter) = s.end_ := by
      rw [hend, hk', Nat.mul_div_cancel _ hm, Nat.mul_mod_left]
    unfold SymOps.collect
    rw [if_pos hit]
    rfl
  | succ d ih =>
    intro k fuel hk hfuel
    obtain ⟨fuel, rfl⟩ : ∃ f, fuel = f + 1 := ⟨fuel - 1, by omega⟩
    have hklt : k < s.sym_ops.length * s.cen_ops.length := by omega
    have hq : k / s.cen_ops.length < s.sym_ops.length :=
      Nat.div_lt_of_lt_mul (by rw [Nat.mul_comm]; exact hklt)
    have hr : k % s.cen_ops.length < s.cen_ops.length := Nat.mod_lt _ hm
    have hit : (⟨k / s.cen_ops.length, k % s.cen_ops.length⟩ : Iter) ≠ s.end_ := by
      rw [hend]
      intro h
      have := congrArg Iter.n_symop h
      simp only at this
      omega
    have hnext : Iter.next s ⟨k / s.cen_ops.length, k % s.cen_ops.length⟩
        = ⟨(k + 1) / s.cen_ops.length, (k + 1) % s.cen_ops.length⟩ := by
      unfold Iter.next
      simp only
      rw [Nat.mod_eq_of_lt (show k % s.cen_ops.length + 1 < 2 ^ 32 by omega)]
      rcases succ_div_mod s.cen_ops.length k hm with ⟨h1, h2, h3⟩ | ⟨h1, h2, h3⟩
      · rw [if_pos h1, h2, h3, Nat.mod_eq_of_lt (by omega)]
      · rw [if_neg (by omega), h2, h3]
    unfold SymOps.collect
    rw [if_neg hit]
    simp only [helem k hklt, hnext, ih (k + 1) fuel (by omega) (by omega)]
    rfl

theorem deref_in_range (s : SymOps) (i j : Nat)
    (hi : i < s.sym_ops.length) (hj : j < s.cen_ops.length) :
    Iter.deref s ⟨i, j⟩ = .ok ((s.sym_ops.get ⟨i, hi⟩).translate (s.cen_ops.get ⟨j, hj⟩)) := by
  unfold Iter.deref
  simp only [List.get?_eq_get hi, List.get?_eq_get hj]

/-- C8 (as the code has it): for an operation set with at least one coset
and fewer than `2^32` generators and cosets, the traversal from `begin()` to
`end()` stops after exactly `|sym_ops| * |cen_ops|` steps, for any fuel of
at least that many; element `k` is `sym_ops[k / m]` with `cen_ops[k % m]`
added component-wise to its translation, the rotation unchanged and the
translation not reduced modulo 12. -/
theorem enumeration_is_row_major (s : SymOps) (hm : 0 < s.cen_ops.length)
    (hn32 : s.sym_ops.length < 2 ^ 32) (hm32 : s.cen_ops.length < 2 ^ 32) :
    ∃ l : List Op,
      (∀ fuel, s.sym_ops.length * s.cen_ops.length ≤ fuel →
        SymOps.collect s fuel s.begin = .ok l) ∧
      l.length = s.sym_ops.length * s.cen_ops.length ∧
      ∀ k, k < s.sym_ops.length * s.cen_ops.length →
        ∃ op t, s.sym_ops.get? (k / s.cen_ops.length) = some op ∧
          s.cen_ops.get? (k % s.cen_ops.length) = some t ∧
          l.get? k = some (op.translate t) ∧
          (op.translate t).rot = op.rot ∧
          ∀ i, (op.translate t).tran i = op.tran i + t i := by
  let elem : Nat → Op := fun k =>
    match s.sym_ops.get? (k / s.cen_ops.length), s.cen_ops.get? (k % s.cen_ops.length) with
    | some op, some t => op.translate t
    | _, _ => Op.identity
  have hidx : ∀ k, k < s.sym_ops.length * s.cen_ops.length →
      k / s.cen_ops.length < s.sym_ops.length ∧ k % s.cen_ops.length < s.cen_ops.length :=
    fun k hk => ⟨Nat.div_lt_of_lt_mul (by rw [Nat.mul_comm]; exact hk), Nat.mod_lt _ hm⟩
  have helem : ∀ k, k < s.sym_ops.length * s.cen_ops.length →
      Iter.deref s ⟨k / s.cen_ops.length, k % s.cen_ops.length⟩ = .ok (elem k) := by
    intro k hk
    obtain ⟨hi, hj⟩ := hidx k hk
    rw [deref_in_range s _ _ hi hj]
    simp only [elem, List.get?_eq_get hi, List.get?_eq_get hj]
  have hcol := collect_from s hm hn32 hm32 elem helem
  refine ⟨(List.range' 0 (s.sym_ops.length * s.cen_ops.length)).map elem, ?_, ?_, ?_⟩
  · intro fuel hfuel
    have h := hcol (s.sym_ops.length * s.cen_ops.length) 0 fuel (by omega) hfuel
    simpa [SymOps.begin] using h
  · simp
  · intro k hk
    obtain ⟨hi, hj⟩ := hidx k hk
    refine ⟨s.sym_ops.get ⟨_, hi⟩, s.cen_ops.get ⟨_, hj⟩, List.get?_eq_get hi,
      List.get?_eq_get hj, ?_, rfl, fun i => rfl⟩
    simp [List.getElem?_map, List.getElem?_range' , hk, elem, List.getElem?_eq_getElem hi,
      List.getElem?_eq_getElem hj]

theorem enumeration_is_row_major_witness :
    symops_from_hall (some "I 4".toList)
      = .ok ⟨[Op.identity, ⟨mkRot 0 (-1) 0 1 0 0 0 0 1, mkTran 0 0 0⟩],
             [mkTran 0 0 0, mkTran 6 6 6]⟩ ∧
    ∃ l : List Op,
      (∀ fuel, 2 * 2 ≤ fuel →
        SymOps.collect ⟨[Op.identity, ⟨mkRot 0 (-1) 0 1 0 0 0 0 1, mkTran 0 0 0⟩],
          [mkTran 0 0 0, mkTran 6 6 6]⟩ fuel ⟨0, 0⟩ = .ok l) ∧
      l.length = 4 :=
  ⟨by decide,
   (enumeration_is_row_major
      ⟨[Op.identity, ⟨mkRot 0 (-1) 0 1 0 0 0 0 1, mkTran 0 0 0⟩], [mkTran 0 0 0, mkTran 6 6 6]⟩
      (by decide) (by decide) (by decide)).imp fun _ h => ⟨h.1, h.2.1⟩⟩

theorem collect_no_coset :
    ¬ ∃ fuel, SymOps.collect ⟨[Op.identity], []⟩ fuel (SymOps.begin ⟨[Op.identity], []⟩)
        = .ok [] := by
  rintro ⟨fuel, h⟩
  cases fuel with
  | zero => revert h; decide
  | succ f =>
    unfold SymOps.collect at h
    rw [if_neg (by decide)] at h
    simp [Iter.deref, SymOps.begin] at h

theorem collect_wrapped (big : List Op) (h : big.length = 2 ^ 32) (cen : List Tran) :
    SymOps.collect ⟨big, cen⟩ 1 (SymOps.begin ⟨big, cen⟩) = .ok [] := by
  unfold SymOps.collect
  rw [if_pos (by simp only [SymOps.begin, SymOps.end_, h, Nat.mod_self])]

theorem next_keeps_symop (s : SymOps) (h : 2 ^ 32 ≤ s.cen_ops.length) (it : Iter) :
    (it.next s).n_symop = it.n_symop := by
  unfold Iter.next
  have hlt : (it.n_cenop + 1) % 2 ^ 32 < 2 ^ 32 := Nat.mod_lt _ (by decide)
  simp only
  rw [if_neg (by omega)]

theorem collect_never_ends (s : SymOps) (h : 2 ^ 32 ≤ s.cen_ops.length)
    (hn : s.end_.n_symop ≠ 0) :
    ∀ (fuel : Nat) (it : Iter), it.n_symop = 0 → ∀ l, SymOps.collect s fuel it ≠ .ok l := by
  intro fuel
  induction fuel with
  | zero =>
    intro it hit l hc
    unfold SymOps.collect at hc
    rw [if_neg (fun e : it = s.end_ => hn (by rw [← e]; exact hit))] at hc
    cases hc
  | succ fuel ih =>
    intro it hit l hc
    unfold SymOps.collect at hc
    rw [if_neg (fun e : it = s.end_ => hn (by rw [← e]; exact hit))] at hc
    simp only at hc
    split at hc
    · cases hc
    · have hnext := ih (it.next s) ((next_keeps_symop s h it).trans hit)
      split at hc
      · cases hc
      · exact hnext _ (by assumption)

/-- C8 as stated fails for an operation set without cosets: with one
generator and no coset the claimed sequence is empty, but the first step
already reads `cen_ops[0]` out of range, whatever the fuel. It also fails
when the `unsigned` counters wrap: with `2^32` generators `end()` equals
`begin()` and the traversal yields nothing, and with `2^32` cosets the
counter `n_cenop` never equals the size, so `end()` is never reached. -/
theorem enumeration_counterexample :
    (¬ ∃ fuel, SymOps.collect ⟨[Op.identity], []⟩ fuel (SymOps.begin ⟨[Op.identity], []⟩)
        = .ok []) ∧
    SymOps.collect ⟨[Op.identity], []⟩ 1 (SymOps.begin ⟨[Op.identity], []⟩)
        = .error (.indexOutOfRange 0) ∧
    SymOps.collect ⟨List.replicate (2 ^ 32) Op.identity, [mkTran 0 0 0]⟩ 1
        (SymOps.begin ⟨List.replicate (2 ^ 32) Op.identity, [mkTran 0 0 0]⟩) = .ok [] ∧
    (¬ ∃ fuel l, SymOps.collect ⟨[Op.identity], List.replicate (2 ^ 32) (mkTran 0 0 0)⟩ fuel
        (SymOps.begin ⟨[Op.identity], List.replicate (2 ^ 32) (mkTran 0 0 0)⟩) = .ok l) :=
  ⟨collect_no_coset, by decide, collect_wrapped _ (List.length_replicate _ _) _,
   fun ⟨fuel, l, h⟩ =>
     collect_never_ends ⟨[Op.identity], List.replicate (2 ^ 32) (mkTran 0 0 0)⟩
       (le_of_eq (List.length_replicate _ _).symm) (by decide) fuel _ rfl l h⟩

/-! ## Evaluations of the parsers -/

/-- C6: the parenthesised origin shift is ignored. `symops_from_hall` on
`P 2x (0 0 1)` accepts the text and returns, for `2x`, the rotation
`diag(1,-1,-1)` with translation `(0,0,0)`, the same generator as for
`P 2x`; the conjugation `t + s - R·s` would give `(0,0,2)`. -/
theorem origin_shift_is_ignored :
    symops_from_hall (some "P 2x (0 0 1)".toList)
      = .ok ⟨[Op.identity, ⟨mkRot 1 0 0 0 (-1) 0 0 0 (-1), mkTran 0 0 0⟩], [mkTran 0 0 0]⟩ ∧
    symops_from_hall (some "P 2x".toList)
      = .ok ⟨[Op.identity, ⟨mkRot 1 0 0 0 (-1) 0 0 0 (-1), mkTran 0 0 0⟩], [mkTran 0 0 0]⟩ ∧
    mkTran 0 0 0 ≠ mkTran 0 0 2 := by
  decide

/-- C7: a second constant in a part replaces the first instead of being
added to it. `x+1/2+1/2,y,z` parses to translation `(6,0,0)` and
`x+1/2+1/3,y,z` to `(4,0,0)`, where the signed sums are 12 and 10; axis
letters do accumulate (`x+x,y,z` has coefficient 2), and `-x,y+1/2,-z`
gives `diag(-1,1,-1)` with translation `(0,6,0)`. -/
theorem second_constant_overwrites :
    parse_triplet "x+1/2+1/2,y,z".toList
      = .ok ⟨mkRot 1 0 0 0 1 0 0 0 1, mkTran 6 0 0⟩ ∧
    parse_triplet "x+1/2+1/3,y,z".toList
      = .ok ⟨mkRot 1 0 0 0 1 0 0 0 1, mkTran 4 0 0⟩ ∧
    parse_triplet "x+x,y,z".toList
      = .ok ⟨mkRot 2 0 0 0 1 0 0 0 1, mkTran 0 0 0⟩ ∧
    parse_triplet "-x,y+1/2,-z".toList
      = .ok ⟨mkRot (-1) 0 0 0 1 0 0 0 (-1), mkTran 0 6 0⟩ := by
  decide

/-! ## Normalisation -/

/-- C11: `normalize_tran` leaves the rotation unchanged, puts every
translation component into `[0,12)` congruent modulo 12 to the original
component (negative components included), and is idempotent. -/
theorem normalize_tran_spec (op : Op) :
    (op.normalize_tran).rot = op.rot ∧
    (∀ i : Fin 3, 0 ≤ (op.normalize_tran).tran i ∧ (op.normalize_tran).tran i < 12 ∧
      (12 : Int) ∣ (op.normalize_tran).tran i - op.tran i) ∧
    (op.normalize_tran).normalize_tran = op.normalize_tran := by
  refine ⟨rfl, fun i => ?_, ?_⟩
  · rw [normalize_tran_tran]
    refine ⟨Int.emod_nonneg _ (by decide), Int.emod_lt_of_pos _ (by decide), ?_⟩
    omega
  · apply normalize_tran_of_range
    intro i
    rw [normalize_tran_tran]
    exact ⟨Int.emod_nonneg _ (by decide), Int.emod_lt_of_pos _ (by decide)⟩

/-! ## Comma count -/

/-- C15: a text whose number of commas is not 2 is rejected by
`parse_triplet` with the "expected exactly two commas" failure, before any
part is looked at; `x,y,z,z`, `x,y` and the empty text are such texts. -/
theorem parse_triplet_comma_count (s : List Char) :
    (s.count ',' ≠ 2 → parse_triplet s = .error .expectedTwoCommas) ∧
    ((∃ op, parse_triplet s = .ok op) → s.count ',' = 2) := by
  have h1 : s.count ',' ≠ 2 → parse_triplet s = .error .expectedTwoCommas := by
    intro h
    unfold parse_triplet
    rw [if_pos h]
  refine ⟨h1, ?_⟩
  rintro ⟨op, hop⟩
  by_contra h
  rw [h1 h] at hop
  cases hop

theorem parse_triplet_comma_count_witness :
    parse_triplet "x,y,z,z".toList = .error .expectedTwoCommas ∧
    parse_triplet "x,y".toList = .error .expectedTwoCommas ∧
    parse_triplet "".toList = .error .expectedTwoCommas ∧
    "x,y,z".toList.count ',' = 2 :=
  ⟨(parse_triplet_comma_count "x,y,z,z".toList).1 (by decide),
   (parse_triplet_comma_count "x,y".toList).1 (by decide),
   (parse_triplet_comma_count "".toList).1 (by decide),
   (parse_triplet_comma_count "x,y,z".toList).2 ⟨Op.identity, by decide⟩⟩

/-! ## Lattice letters -/

theorem and_32 (n : Nat) : n &&& 0x20 = 0 ∨ n &&& 0x20 = 0x20 := by
  have h32 : ∀ i, (0x20 : Nat).testBit i = decide (5 = i) := fun i =>
    Nat.testBit_two_pow (n := 5) (m := i)
  cases hb : n.testBit 5
  · left
    apply Nat.eq_of_testBit_eq
    intro i
    rw [Nat.testBit_and, h32, Nat.zero_testBit]
    by_cases hi : 5 = i
    · subst hi; simp [hb]
    · simp [hi]
  · right
    apply Nat.eq_of_testBit_eq
    intro i
    rw [Nat.testBit_and, h32]
    by_cases hi : 5 = i
    · subst hi; simp [hb]
    · simp [hi]

theorem char_of_toNat (c : Char) (n : Nat) (d : Char) (hd : d.toNat = n) (h : c.toNat = n) :
    c = d := by
  apply Char.ext
  apply UInt32.ext
  have h1 : c.val.toNat = d.val.toNat := by
    show c.toNat = d.toNat
    rw [h, hd]
  exact h1

theorem lattice_letter_cases (c : Char) (u : Nat) (up lo : Char)
    (hup : up.toNat = u) (hlo : lo.toNat = u + 32)
    (h : c.toNat - (c.toNat &&& 0x20) = u) (hu : 0 < u) : c = up ∨ c = lo := by
  rcases and_32 c.toNat with h0 | h0
  · left
    rw [h0] at h
    exact char_of_toNat c u up hup (by omega)
  · right
    rw [h0] at h
    exact char_of_toNat c (u + 32) lo hlo (by omega)

theorem lattice_if_neg (c up lo : Char) (hlo : lo.toNat = up.toNat + 32)
    (hup : 0 < up.toNat) (h1 : c ≠ up) (h2 : c ≠ lo) :
    ¬ c.toNat - (c.toNat &&& 0x20) = up.toNat := fun h =>
  (lattice_letter_cases c up.toNat up lo rfl hlo h hup).elim h1 h2

/-- C17: `lattice_translations` maps a lattice letter, in either case, to
its fixed coset list, whose first element is `(0,0,0)`: one coset for P, two
for A, B, C, I, three for R, S, T, four for F; every other character fails
with "not a lattice symbol". -/
theorem lattice_translations_table :
    (∀ c, c = 'P' ∨ c = 'p' → lattice_translations c = .ok [mkTran 0 0 0]) ∧
    (∀ c, c = 'A' ∨ c = 'a' → lattice_translations c = .ok [mkTran 0 0 0, mkTran 0 6 6]) ∧
    (∀ c, c = 'B' ∨ c = 'b' → lattice_translations c = .ok [mkTran 0 0 0, mkTran 6 0 6]) ∧
    (∀ c, c = 'C' ∨ c = 'c' → lattice_translations c = .ok [mkTran 0 0 0, mkTran 6 6 0]) ∧
    (∀ c, c = 'I' ∨ c = 'i' → lattice_translations c = .ok [mkTran 0 0 0, mkTran 6 6 6]) ∧
    (∀ c, c = 'R' ∨ c = 'r' →
      lattice_translations c = .ok [mkTran 0 0 0, mkTran 8 4 4, mkTran 4 8 8]) ∧
    (∀ c, c = 'S' ∨ c = 's' →
      lattice_translations c = .ok [mkTran 0 0 0, mkTran 4 4 8, mkTran 8 4 8]) ∧
    (∀ c, c = 'T' ∨ c = 't' →
      lattice_translations c = .ok [mkTran 0 0 0, mkTran 4 8 4, mkTran 8 4 8]) ∧
    (∀ c, c = 'F' ∨ c = 'f' →
      lattice_translations c
        = .ok [mkTran 0 0 0, mkTran 0 6 6, mkTran 6 0 6, mkTran 6 6 0]) ∧
    (∀ c, c ∉ ['P', 'p', 'A', 'a', 'B', 'b', 'C', 'c', 'I', 'i', 'R', 'r', 'S', 's',
        'T', 't', 'F', 'f'] → lattice_translations c = .error (.notLatticeSymbol c)) := by
  refine ⟨?_, ?_, ?_, ?_, ?_, ?_, ?_, ?_, ?_, ?_⟩
  case refine_10 =>
    intro c hc
    simp only [List.mem_cons, List.mem_singleton, List.not_mem_nil, not_or, or_false] at hc
    obtain ⟨hP, hp, hA, ha, hB, hb, hC, hc', hI, hi, hR, hr, hS, hs, hT, ht, hF, hf⟩ := hc
    unfold lattice_translations
    simp only
    rw [if_neg (lattice_if_neg c 'P' 'p' (by decide) (by decide) hP hp),
      if_neg (lattice_if_neg c 'A' 'a' (by decide) (by decide) hA ha),
      if_neg (lattice_if_neg c 'B' 'b' (by decide) (by decide) hB hb),
      if_neg (lattice_if_neg c 'C' 'c' (by decide) (by decide) hC hc'),
      if_neg (lattice_if_neg c 'I' 'i' (by decide) (by decide) hI hi),
      if_neg (lattice_if_neg c 'R' 'r' (by decide) (by decide) hR hr),
      if_neg (lattice_if_neg c 'S' 's' (by decide) (by decide) hS hs),
      if_neg (lattice_if_neg c 'T' 't' (by decide) (by decide) hT ht),
      if_neg (lattice_if_neg c 'F' 'f' (by decide) (by decide) hF hf)]
  all_goals
    intro c hc
    rcases hc with rfl | rfl <;> decide

theorem lattice_translations_table_witness :
    lattice_translations 'i' = .ok [mkTran 0 0 0, mkTran 6 6 6] ∧
    lattice_translations 'F'
      = .ok [mkTran 0 0 0, mkTran 0 6 6, mkTran 6 0 6, mkTran 6 6 0] ∧
    lattice_translations 'x' = .error (.notLatticeSymbol 'x') :=
  ⟨lattice_translations_table.2.2.2.2.1 'i' (Or.inr rfl),
   lattice_translations_table.2.2.2.2.2.2.2.2.1 'F' (Or.inl rfl),
   lattice_translations_table.2.2.2.2.2.2.2.2.2 'x' (by decide)⟩

/-! ## Lowest terms -/

theorem simplify_no_common_factor (w : Int) :
    ∃ v d : Int, simplify_step (simplify_step (simplify_step (w, 1) 2) 2) 3 = (v, d) ∧
      ((2 : Int) ∣ d → ¬ (2 : Int) ∣ v) ∧ ((3 : Int) ∣ d → ¬ (3 : Int) ∣ v) := by
  rcases simplify_step_cases w 1 2 with ⟨h1, e1⟩ | ⟨h1, e1⟩ <;> rw [e1]
  · rcases simplify_step_cases (w / 2) 1 2 with ⟨h2, e2⟩ | ⟨h2, e2⟩ <;> rw [e2]
    · rcases simplify_step_cases (w / 2 / 2) 1 3 with ⟨h3, e3⟩ | ⟨h3, e3⟩ <;> rw [e3] <;>
        exact ⟨_, _, rfl, by omega, by omega⟩
    · rcases simplify_step_cases (w / 2) (1 * 2) 3 with ⟨h3, e3⟩ | ⟨h3, e3⟩ <;> rw [e3] <;>
        exact ⟨_, _, rfl, by omega, by omega⟩
  · rcases simplify_step_cases w (1 * 2) 2 with ⟨h2, e2⟩ | ⟨h2, e2⟩ <;> rw [e2]
    · exact absurd h2 h1
    · rcases simplify_step_cases w (1 * 2 * 2) 3 with ⟨h3, e3⟩ | ⟨h3, e3⟩ <;> rw [e3] <;>
        exact ⟨_, _, rfl, by omega, by omega⟩

theorem gcd_one_of_no_common_factor (v d : Int)
    (hd : d = 1 ∨ d = 2 ∨ d = 3 ∨ d = 4 ∨ d = 6 ∨ d = 12)
    (h2 : (2 : Int) ∣ d → ¬ (2 : Int) ∣ v) (h3 : (3 : Int) ∣ d → ¬ (3 : Int) ∣ v) :
    Int.gcd v d = 1 := by
  have hgv : ((Int.gcd v d : Nat) : Int) ∣ v := Int.gcd_dvd_left
  have hgd : ((Int.gcd v d : Nat) : Int) ∣ d := Int.gcd_dvd_right
  have hpos : 0 < Int.gcd v d := Int.gcd_pos_of_ne_zero_right v (by omega)
  have hle : ((Int.gcd v d : Nat) : Int) ≤ 12 := by
    have := Int.le_of_dvd (by omega) hgd
    omega
  revert hgv hgd hpos hle
  generalize Int.gcd v d = g
  intro hgv hgd hpos hle
  have hg : g ≤ 12 := by omega
  interval_cases g <;> simp only [Nat.cast_ofNat, Nat.cast_one] at hgv hgd <;> omega

/-- C12: for a non-zero translation component `w` (in twelfths)
`make_triplet_part` appends the numerator `n` (with a `+` when positive)
and, unless it is 1, `/` and the denominator `d`, where `n/d = w/12`,
`d` is one of 1, 2, 3, 4, 6, 12 (so `d > 0`) and `gcd(|n|, d) = 1`. -/
theorem fraction_in_lowest_terms (w : Int) (hw : w ≠ 0) :
    ∃ n d : Int,
      make_triplet_const w
        = ((if n > 0 then ['+'] else []) ++ to_string n)
            ++ (if d ≠ 1 then '/' :: to_string d else []) ∧
      (∀ x y z, make_triplet_part x y z w
        = make_triplet_part x y z 0 ++ make_triplet_const w) ∧
      (d = 1 ∨ d = 2 ∨ d = 3 ∨ d = 4 ∨ d = 6 ∨ d = 12) ∧ 0 < d ∧
      n * 12 = w * d ∧ Int.gcd n d = 1 := by
  obtain ⟨v, d, hs, hd, hmul, -, -⟩ := simplify_spec w
  obtain ⟨v', d', hs', h2, h3⟩ := simplify_no_common_factor w
  rw [hs] at hs'
  obtain ⟨rfl, rfl⟩ := Prod.mk.inj hs'
  refine ⟨v, d, ?_, ?_, hd, by omega, ?_, gcd_one_of_no_common_factor v d hd h2 h3⟩
  · unfold make_triplet_const
    rw [if_pos hw]
    simp only [hs]
  · intro x y z
    simp only [make_triplet_part, make_triplet_const_zero, List.append_nil]
  · rcases hd with rfl | rfl | rfl | rfl | rfl | rfl <;>
      (rw [← hmul]
       simp only [show Int.tdiv 12 1 = 12 from rfl, show Int.tdiv 12 2 = 6 from rfl,
         show Int.tdiv 12 3 = 4 from rfl, show Int.tdiv 12 4 = 3 from rfl,
         show Int.tdiv 12 6 = 2 from rfl, show Int.tdiv 12 12 = 1 from rfl]
       omega)

theorem fraction_in_lowest_terms_witness :
    (∃ n d : Int,
      make_triplet_const 6
        = ((if n > 0 then ['+'] else []) ++ to_string n)
            ++ (if d ≠ 1 then '/' :: to_string d else []) ∧
      (∀ x y z, make_triplet_part x y z 6
        = make_triplet_part x y z 0 ++ make_triplet_const 6) ∧
      (d = 1 ∨ d = 2 ∨ d = 3 ∨ d = 4 ∨ d = 6 ∨ d = 12) ∧ 0 < d ∧
      n * 12 = 6 * d ∧ Int.gcd n d = 1) ∧
    make_triplet_part 0 0 0 6 = "+1/2".toList ∧
    make_triplet_part 0 0 0 4 = "+1/3".toList ∧
    make_triplet_part 0 0 0 3 = "+1/4".toList ∧
    make_triplet_part 0 0 0 2 = "+1/6".toList ∧
    make_triplet_part 1 0 0 (-9) = "x-3/4".toList ∧
    make_triplet_part 0 1 0 24 = "y+2".toList :=
  ⟨fraction_in_lowest_terms 6 (by decide), by decide, by decide, by decide, by decide,
   by decide, by decide⟩

/-! ## Tabulated rotations -/

/-- C20: for `N` in `{1,2,3,4,6}` `rotation_around_z N` returns a matrix of
determinant `+1` that fixes `(0,0,1)`, whose `N`-th power is the identity
and none of whose `k`-th powers with `0 < k < N` is; for every other `N` it
fails with "wrong n-fold order". -/
theorem rotation_around_z_order (N : Int) :
    ((N = 1 ∨ N = 2 ∨ N = 3 ∨ N = 4 ∨ N = 6) →
      ∃ R : Rot, rotation_around_z N = .ok R ∧
        Op.det_rot ⟨R, mkTran 0 0 0⟩ = 1 ∧
        Matrix.mulVec (Matrix.of R) ![0, 0, 1] = ![0, 0, 1] ∧
        (Matrix.of R) ^ N.toNat = 1 ∧
        ∀ k : Nat, 0 < k → k < N.toNat → (Matrix.of R) ^ k ≠ 1) ∧
    (¬ (N = 1 ∨ N = 2 ∨ N = 3 ∨ N = 4 ∨ N = 6) →
      rotation_around_z N = .error (.wrongOrder N)) := by
  constructor
  · rintro (rfl | rfl | rfl | rfl | rfl)
    · refine ⟨_, rfl, by decide, by decide, by decide, fun k h0 hk => ?_⟩
      have hk' : k < 1 := hk
      omega
    · refine ⟨_, rfl, by decide, by decide, by decide, fun k h0 hk => ?_⟩
      have hk' : k < 2 := hk
      interval_cases k
      decide
    · refine ⟨_, rfl, by decide, by decide, by decide, fun k h0 hk => ?_⟩
      have hk' : k < 3 := hk
      interval_cases k <;> decide
    · refine ⟨_, rfl, by decide, by decide, by decide, fun k h0 hk => ?_⟩
      have hk' : k < 4 := hk
      interval_cases k <;> decide
    · refine ⟨_, rfl, by decide, by decide, by decide, fun k h0 hk => ?_⟩
      have hk' : k < 6 := hk
      interval_cases k <;> decide
  · intro h
    simp only [not_or] at h
    obtain ⟨h1, h2, h3, h4, h6⟩ := h
    unfold rotation_around_z
    rw [if_neg h1, if_neg h2, if_neg h3, if_neg h4, if_neg h6]

theorem rotation_around_z_order_witness :
    (∃ R : Rot, rotation_around_z 6 = .ok R ∧
        Op.det_rot ⟨R, mkTran 0 0 0⟩ = 1 ∧
        Matrix.mulVec (Matrix.of R) ![0, 0, 1] = ![0, 0, 1] ∧
        (Matrix.of R) ^ (6 : Int).toNat = 1 ∧
        ∀ k : Nat, 0 < k → k < (6 : Int).toNat → (Matrix.of R) ^ k ≠ 1) ∧
    rotation_around_z 5 = .error (.wrongOrder 5) ∧
    rotation_around_z 0 = .error (.wrongOrder 0) :=
  ⟨(rotation_around_z_order 6).1 (by decide), (rotation_around_z_order 5).2 (by decide),
   (rotation_around_z_order 0).2 (by decide)⟩

/-! ## Diagonal axes -/

theorem hall_apos (pos : Int) (first : Char) :
    hall_matrix_symbol ['2', APOS] pos first
      = .ok ⟨mkRot 0 (-1) 0 (-1) 0 0 0 0 (-1), Op.identity.tran⟩ := by
  simp +decide [hall_matrix_symbol, hall_matrix_symbol_loop]

theorem hall_dquote (pos : Int) (first : Char) :
    hall_matrix_symbol ['2', DQUOTE] pos first
      = .ok ⟨mkRot 0 1 0 1 0 0 0 0 (-1), Op.identity.tran⟩ := by
  simp +decide [hall_matrix_symbol, hall_matrix_symbol_loop]

theorem hall_star (pos : Int) (first : Char) :
    hall_matrix_symbol ['3', '*'] pos first
      = .ok ⟨mkRot 0 0 1 1 0 0 0 1 0, Op.identity.tran⟩ := by
  simp +decide [hall_matrix_symbol, hall_matrix_symbol_loop]

/-- C19 (as the code has it): the matrix chosen for marker apostrophe is a
proper 2-fold rotation about `[1-10]` (`R·R = I`, `R ≠ I`, `det R = 1`,
`R·(1,-1,0) = (1,-1,0)`), the matrix for the double quote a proper 2-fold
rotation about `[110]` (`R·(1,1,0) = (1,1,0)`), and the matrix for `*` a
proper 3-fold rotation about `[111]` (`R·R·R = I`, `R ≠ I`, `det R = 1`,
`R·(1,1,1) = (1,1,1)`), whatever the position and `first`. -/
theorem diagonal_axis_rotations (pos : Int) (first : Char) :
    (∃ R : Rot, hall_matrix_symbol ['2', APOS] pos first = .ok ⟨R, mkTran 0 0 0⟩ ∧
      Matrix.of R * Matrix.of R = 1 ∧ Matrix.of R ≠ 1 ∧ Op.det_rot ⟨R, mkTran 0 0 0⟩ = 1 ∧
      Matrix.mulVec (Matrix.of R) ![1, -1, 0] = ![1, -1, 0]) ∧
    (∃ R : Rot, hall_matrix_symbol ['2', DQUOTE] pos first = .ok ⟨R, mkTran 0 0 0⟩ ∧
      Matrix.of R * Matrix.of R = 1 ∧ Matrix.of R ≠ 1 ∧ Op.det_rot ⟨R, mkTran 0 0 0⟩ = 1 ∧
      Matrix.mulVec (Matrix.of R) ![1, 1, 0] = ![1, 1, 0]) ∧
    (∃ R : Rot, hall_matrix_symbol ['3', '*'] pos first = .ok ⟨R, mkTran 0 0 0⟩ ∧
      Matrix.of R * Matrix.of R * Matrix.of R = 1 ∧ Matrix.of R ≠ 1 ∧
      Op.det_rot ⟨R, mkTran 0 0 0⟩ = 1 ∧
      Matrix.mulVec (Matrix.of R) ![1, 1, 1] = ![1, 1, 1]) :=
  ⟨⟨_, hall_apos pos first, by decide, by decide, by decide, by decide⟩,
   ⟨_, hall_dquote pos first, by decide, by decide, by decide, by decide⟩,
   ⟨_, hall_star pos first, by decide, by decide, by decide, by decide⟩⟩

/-- C19 as stated fails: the matrix chosen for the apostrophe maps
`(1,1,0)` to `(-1,-1,0)`, so `[110]` is not its axis, and the matrix chosen
for the double quote maps `(1,-1,0)` to `(-1,1,0)`. -/
theorem diagonal_axis_counterexample :
    hall_matrix_symbol ['2', APOS] 1 NUL
      = .ok ⟨mkRot 0 (-1) 0 (-1) 0 0 0 0 (-1), mkTran 0 0 0⟩ ∧
    Matrix.mulVec (Matrix.of (mkRot 0 (-1) 0 (-1) 0 0 0 0 (-1))) ![1, 1, 0] = ![-1, -1, 0] ∧
    Matrix.mulVec (Matrix.of (mkRot 0 (-1) 0 (-1) 0 0 0 0 (-1))) ![1, 1, 0] ≠ ![1, 1, 0] ∧
    hall_matrix_symbol ['2', DQUOTE] 1 NUL
      = .ok ⟨mkRot 0 1 0 1 0 0 0 0 (-1), mkTran 0 0 0⟩ ∧
    Matrix.mulVec (Matrix.of (mkRot 0 1 0 1 0 0 0 0 (-1))) ![1, -1, 0] = ![-1, 1, 0] ∧
    Matrix.mulVec (Matrix.of (mkRot 0 1 0 1 0 0 0 0 (-1))) ![1, -1, 0] ≠ ![1, -1, 0] := by
  decide

/-! ## Leading generators of a Hall symbol -/

theorem shift_back_eq (l : List Op) (tr : Tran) : shift_back l tr = l := by
  unfold shift_back
  cases h : l.reverse with
  | nil => simpa using h.symm
  | cons x xs =>
    show (x :: xs).reverse = l
    rw [← h, List.reverse_reverse]

theorem symops_from_hall_loop_extends (cen_ops : List Tran) (fuel : Nat) :
    ∀ (part : Option (List Char)) (sym_ops : List Op) (counter : Int) (first : Char)
      (s : SymOps),
      symops_from_hall_loop cen_ops fuel part sym_ops counter first = .ok s →
      (∃ extra, s.sym_ops = sym_ops ++ extra) ∧ s.cen_ops = cen_ops := by
  induction fuel with
  | zero =>
    intro part sym_ops counter first s h
    match part with
    | none =>
      simp only [symops_from_hall_loop] at h
      cases h
      exact ⟨⟨[], by simp⟩, rfl⟩
    | some [] =>
      simp only [symops_from_hall_loop] at h
      cases h
      exact ⟨⟨[], by simp⟩, rfl⟩
    | some (c :: cs) =>
      simp only [symops_from_hall_loop] at h
      cases h
  | succ fuel ih =>
    intro part sym_ops counter first s h
    match part with
    | none =>
      simp only [symops_from_hall_loop] at h
      cases h
      exact ⟨⟨[], by simp⟩, rfl⟩
    | some [] =>
      simp only [symops_from_hall_loop] at h
      cases h
      exact ⟨⟨[], by simp⟩, rfl⟩
    | some (c :: cs) =>
      simp only [symops_from_hall_loop] at h
      split at h
      · split at h
        · cases h
        · split at h
          · cases h
          · split at h
            · cases h
            · rw [shift_back_eq] at h
              exact ih _ _ _ _ _ h
      · split at h
        · split at h
          · cases h
          · obtain ⟨⟨extra, he⟩, hc⟩ := ih _ _ _ _ _ h
            exact ⟨⟨[_] ++ extra, by rw [he, List.append_assoc]⟩, hc⟩
        · exact ih _ _ _ _ _ h

theorem negated_identity :
    Op.identity.negated = ⟨mkRot (-1) 0 0 0 (-1) 0 0 0 (-1), mkTran 0 0 0⟩ := by
  decide

/-- C16: in every result of `symops_from_hall` generator 0 is the identity,
and when the first non-blank character of the text is `-`, generator 1 is
the negated identity (rotation `-I`, translation `(0,0,0)`); the coset list
is the one of the lattice letter. -/
theorem hall_leading_generators (hall : List Char) (s : SymOps)
    (hs : symops_from_hall (some hall) = .ok s) :
    s.sym_ops.get? 0 = some Op.identity ∧
    ((hall.dropWhile fun c => c = ' ' || c = '\t').head? = some '-' →
      s.sym_ops.get? 1 = some ⟨mkRot (-1) 0 0 0 (-1) 0 0 0 (-1), mkTran 0 0 0⟩) := by
  unfold symops_from_hall at hs
  simp only [skip_blank] at hs
  split at hs
  · cases hs
  · obtain ⟨⟨extra, he⟩, -⟩ := symops_from_hall_loop_extends _ _ _ _ _ _ _ hs
    rw [he]
    constructor
    · split <;> rfl
    · intro hneg
      simp only [hneg, decide_True, if_true]
      rw [negated_identity]
      rfl

theorem hall_leading_generators_witness :
    symops_from_hall (some "P 1".toList) = .ok ⟨[Op.identity], [mkTran 0 0 0]⟩ ∧
    symops_from_hall (some "-P 1".toList)
      = .ok ⟨[Op.identity, ⟨mkRot (-1) 0 0 0 (-1) 0 0 0 (-1), mkTran 0 0 0⟩],
             [mkTran 0 0 0]⟩ ∧
    (SymOps.sym_ops ⟨[Op.identity, ⟨mkRot (-1) 0 0 0 (-1) 0 0 0 (-1), mkTran 0 0 0⟩],
        [mkTran 0 0 0]⟩).get? 0 = some Op.identity ∧
    (SymOps.sym_ops ⟨[Op.identity, ⟨mkRot (-1) 0 0 0 (-1) 0 0 0 (-1), mkTran 0 0 0⟩],
        [mkTran 0 0 0]⟩).get? 1
      = some ⟨mkRot (-1) 0 0 0 (-1) 0 0 0 (-1), mkTran 0 0 0⟩ :=
  ⟨by decide, by decide,
   (hall_leading_generators "-P 1".toList
      ⟨[Op.identity, ⟨mkRot (-1) 0 0 0 (-1) 0 0 0 (-1), mkTran 0 0 0⟩], [mkTran 0 0 0]⟩
      (by decide)).1,
   (hall_leading_generators "-P 1".toList
      ⟨[Op.identity, ⟨mkRot (-1) 0 0 0 (-1) 0 0 0 (-1), mkTran 0 0 0⟩], [mkTran 0 0 0]⟩
      (by decide)).2 (by decide)⟩

/-! ## Axis inference -/

/-- C18: at position 2 with `N = 2` and `first` none of `2`, `3`, `4`, `6`
no axis is inferred and no "missing axis" failure is raised: the symbol is
accepted as a 2-fold rotation about z. `P 1 2` (`first` is `1`) and
`P -4 2` (`first` is `-`) are accepted, while the same symbol at position 4
fails with "missing axis"; the inferences at position 1, at position 2
after `2`, `4`, `3`, `6`, and at position 3 are made. -/
theorem missing_axis_not_reported :
    hall_matrix_symbol ['2'] 2 '1'
      = .ok ⟨mkRot (-1) 0 0 0 (-1) 0 0 0 1, mkTran 0 0 0⟩ ∧
    hall_matrix_symbol ['2'] 2 '-'
      = .ok ⟨mkRot (-1) 0 0 0 (-1) 0 0 0 1, mkTran 0 0 0⟩ ∧
    symops_from_hall (some "P 1 2".toList)
      = .ok ⟨[Op.identity, ⟨mkRot (-1) 0 0 0 (-1) 0 0 0 1, mkTran 0 0 0⟩],
             [mkTran 0 0 0]⟩ ∧
    symops_from_hall (some "P -4 2".toList)
      = .ok ⟨[Op.identity, ⟨mkRot 0 1 0 (-1) 0 0 0 0 (-1), mkTran 0 0 0⟩,
              ⟨mkRot (-1) 0 0 0 (-1) 0 0 0 1, mkTran 0 0 0⟩], [mkTran 0 0 0]⟩ ∧
    hall_matrix_symbol ['2'] 4 '1' = .error .missingAxis ∧
    hall_matrix_symbol ['3'] 2 '2' = .error .missingAxis ∧
    hall_matrix_symbol ['2'] 1 '2'
      = .ok ⟨mkRot (-1) 0 0 0 (-1) 0 0 0 1, mkTran 0 0 0⟩ ∧
    hall_matrix_symbol ['2'] 2 '4'
      = .ok ⟨mkRot 1 0 0 0 (-1) 0 0 0 (-1), mkTran 0 0 0⟩ ∧
    hall_matrix_symbol ['2'] 2 '6'
      = .ok ⟨mkRot 0 (-1) 0 (-1) 0 0 0 0 (-1), mkTran 0 0 0⟩ ∧
    hall_matrix_symbol ['3'] 3 '2'
      = .ok ⟨mkRot 0 0 1 1 0 0 0 1 0, mkTran 0 0 0⟩ := by
  decide

/-! ## What `strtol` leaves unread -/

theorem strtol_digits_rest (T : List Char)
    (hT : ∀ c, T.head? = some c → isDigit c = false) :
    ∀ (q : List Char) (acc : Nat),
      ∃ q', (strtol_digits acc (q ++ T)).2 = q' ++ T ∧ q'.length ≤ q.length := by
  intro q
  induction q with
  | nil =>
    intro acc
    exact ⟨[], by rw [List.nil_append, strtol_digits_stop T acc hT], Nat.le_refl _⟩
  | cons c cs ih =>
    intro acc
    by_cases hc : isDigit c = true
    · obtain ⟨q', h1, h2⟩ := ih (acc * 10 + digitVal c)
      refine ⟨q', ?_, Nat.le_succ_of_le h2⟩
      simp only [List.cons_append, strtol_digits, hc, if_true]
      exact h1
    · refine ⟨c :: cs, ?_, Nat.le_refl _⟩
      simp only [List.cons_append, strtol_digits, hc]
      rfl

theorem strtol_of_digit (c : Char) (cs : List Char) (hc : isDigit c = true) :
    strtol (c :: cs)
      = (clamp_long ((strtol_digits (digitVal c) cs).1 : Int),
          (strtol_digits (digitVal c) cs).2) := by
  obtain ⟨h1, h2, h3, -⟩ := isDigit_not_special c hc
  simp [strtol, h1, h2, h3, hc, strtol_digits]

theorem strtol_snd_cases (s : List Char) :
    (strtol s).2 = s ∨
    (strtol s).2 = (strtol_digits 0 (s.dropWhile isspace)).2 ∨
    ∃ sg c u, s.dropWhile isspace = sg :: c :: u ∧ (sg = '-' ∨ sg = '+') ∧
      isDigit c = true ∧ (strtol s).2 = (strtol_digits 0 (c :: u)).2 := by
  unfold strtol
  generalize s.dropWhile isspace = t
  cases t with
  | nil => left; simp
  | cons a t' =>
    by_cases hs : a = '-' ∨ a = '+'
    · have hh : (a :: t').head? = some '-' ∨ (a :: t').head? = some '+' := by
        simpa using hs
      simp only [hh, if_true, List.tail_cons]
      cases t' with
      | nil => left; rfl
      | cons c u =>
        by_cases hc : isDigit c = true
        · right; right
          exact ⟨a, c, u, rfl, hs, hc, by simp [hc]⟩
        · left
          simp [hc]
    · have hh : ¬ ((a :: t').head? = some '-' ∨ (a :: t').head? = some '+') := by
        simpa using hs
      simp only [hh, if_false]
      by_cases hc : isDigit a = true
      · right; left
        simp [hc]
      · left
        simp [hc]

theorem dropWhile_isspace_append (h : Char) (T' : List Char) (hspace : isspace h = false)
    (q : List Char) :
    (q ++ h :: T').dropWhile isspace = q.dropWhile isspace ++ h :: T' := by
  induction q with
  | nil => simp [List.dropWhile_cons, hspace]
  | cons a q ih =>
    by_cases ha : isspace a = true
    · simp only [List.cons_append, List.dropWhile_cons, ha, if_true]
      exact ih
    · simp [List.dropWhile_cons, ha]

theorem length_dropWhile_isspace (q : List Char) :
    (q.dropWhile isspace).length ≤ q.length := by
  induction q with
  | nil => simp
  | cons a q ih =>
    by_cases ha : isspace a = true
    · simp only [List.dropWhile_cons, ha, if_true, List.length_cons]
      omega
    · simp [List.dropWhile_cons, ha]

theorem strtol_rest (h : Char) (T' : List Char) (hspace : isspace h = false)
    (hdig : isDigit h = false)
    (hsign : (h = '-' ∨ h = '+') → ∀ c, T'.head? = some c → isDigit c = false)
    (q : List Char) :
    ∃ q', (strtol (q ++ h :: T')).2 = q' ++ h :: T' ∧ q'.length ≤ q.length := by
  have hT : ∀ c, (h :: T').head? = some c → isDigit c = false := by
    intro c hc
    simp only [List.head?_cons, Option.some.injEq] at hc
    rw [← hc]; exact hdig
  have hlen := length_dropWhile_isspace q
  rcases strtol_snd_cases (q ++ h :: T') with h1 | h1 | ⟨sg, c, u, hd, hsg, hc, h1⟩
  · exact ⟨q, h1, Nat.le_refl _⟩
  · rw [dropWhile_isspace_append h T' hspace] at h1
    obtain ⟨q', e, hl⟩ := strtol_digits_rest (h :: T') hT (q.dropWhile isspace) 0
    exact ⟨q', by rw [h1, e], by omega⟩
  · rw [dropWhile_isspace_append h T' hspace] at hd
    cases hq : q.dropWhile isspace with
    | nil =>
      rw [hq, List.nil_append] at hd
      obtain ⟨rfl, rfl⟩ := List.cons.inj hd
      exact absurd hc (by rw [hsign hsg c rfl]; decide)
    | cons a q2 =>
      rw [hq, List.cons_append] at hd
      obtain ⟨-, e2⟩ := List.cons.inj hd
      rw [hq, List.length_cons] at hlen
      rw [← e2] at h1
      obtain ⟨q', e, hl⟩ := strtol_digits_rest (h :: T') hT q2 0
      exact ⟨q', by rw [h1, e], by omega⟩

/-! ## Texts that `parse_triplet_part` cannot get past -/

theorem loop_fails_before (h : Char) (T' : List Char) (hspace : isspace h = false)
    (hdig : isDigit h = false)
    (hsign : (h = '-' ∨ h = '+') → ∀ c, T'.head? = some c → isDigit c = false)
    (hslash : h = '/' → (to_int (strtol T').1 ≠ 1 ∧ to_int (strtol T').1 ≠ 2
      ∧ to_int (strtol T').1 ≠ 3 ∧ to_int (strtol T').1 ≠ 4 ∧ to_int (strtol T').1 ≠ 6))
    (hfail : ∀ fuel r sg, (h :: T').length ≤ fuel →
      ∃ e, parse_triplet_part_loop fuel (h :: T') r sg = .error e ∧ e ≠ .outOfFuel) :
    ∀ (fuel : Nat) (q : List Char) (r : Fin 4 → Int) (sg : Int),
      (q ++ h :: T').length ≤ fuel →
      ∃ e, parse_triplet_part_loop fuel (q ++ h :: T') r sg = .error e ∧ e ≠ .outOfFuel := by
  have hT : ∀ c, (h :: T').head? = some c → isDigit c = false := by
    intro c hc
    simp only [List.head?_cons, Option.some.injEq] at hc
    rw [← hc]; exact hdig
  intro fuel
  induction fuel with
  | zero =>
    intro q r sg hl
    simp only [List.length_append, List.length_cons] at hl
    omega
  | succ f ih =>
    intro q r sg hl
    cases q with
    | nil => exact hfail _ r sg hl
    | cons c cs =>
      simp only [List.cons_append, List.length_cons, List.length_append] at hl
      have hcs : (cs ++ h :: T').length ≤ f := by
        simp only [List.length_append, List.length_cons]; omega
      simp only [List.cons_append, parse_triplet_part_loop]
      split
      · exact ih cs r _ hcs
      · split
        · exact ih cs r _ hcs
        · split
          · exact ⟨_, rfl, by simp⟩
          · split
            · rename_i hc
              rw [strtol_of_digit c _ hc]
              simp only [List.append_eq]
              obtain ⟨q', e, hq'⟩ := strtol_digits_rest (h :: T') hT cs (digitVal c)
              simp only [e]
              cases q' with
              | nil =>
                simp only [List.nil_append, List.head?_cons, Option.some.injEq, List.tail_cons]
                by_cases hh : h = '/'
                · rw [if_pos hh, if_pos (hslash hh)]
                  exact ⟨_, rfl, by simp⟩
                · rw [if_neg hh]
                  exact hfail f _ _ (by simp only [List.length_cons]; omega)
              | cons a q2 =>
                simp only [List.cons_append, List.head?_cons, Option.some.injEq,
                  List.tail_cons]
                simp only [List.length_cons] at hq'
                by_cases ha : a = '/'
                · rw [if_pos ha]
                  obtain ⟨q3, e3, hq3⟩ := strtol_rest h T' hspace hdig hsign q2
                  split
                  · exact ⟨_, rfl, by simp⟩
                  · rw [e3]
                    exact ih q3 _ _ (by
                      simp only [List.length_append, List.length_cons]; omega)
                · rw [if_neg ha]
                  exact ih (a :: q2) _ _ (by
                    simp only [List.length_append, List.length_cons]; omega)
            · split
              · exact ih cs _ _ hcs
              · split
                · exact ih cs _ _ hcs
                · split
                  · exact ih cs _ _ hcs
                  · exact ⟨_, rfl, by simp⟩

/-! ## The fuel of `parse_triplet_part` is never used up -/

theorem strtol_digits_length (s : List Char) :
    ∀ acc, (strtol_digits acc s).2.length ≤ s.length := by
  induction s with
  | nil => intro acc; simp [strtol_digits]
  | cons c cs ih =>
    intro acc
    by_cases hc : isDigit c = true
    · simp only [strtol_digits, hc, if_true, List.length_cons]
      exact Nat.le_succ_of_le (ih _)
    · simp [strtol_digits, hc]

theorem strtol_length (s : List Char) : (strtol s).2.length ≤ s.length := by
  have hd := length_dropWhile_isspace s
  rcases strtol_snd_cases s with h | h | ⟨sg, c, u, hs, -, -, h⟩
  · rw [h]
  · rw [h]
    exact Nat.le_trans (strtol_digits_length _ _) hd
  · rw [h]
    have h1 := strtol_digits_length (c :: u) 0
    rw [hs] at hd
    simp only [List.length_cons] at hd h1 ⊢
    omega

theorem loop_never_out_of_fuel :
    ∀ (fuel : Nat) (q : List Char) (r : Fin 4 → Int) (sg : Int), q.length ≤ fuel →
      parse_triplet_part_loop fuel q r sg ≠ .error .outOfFuel := by
  intro fuel
  induction fuel with
  | zero =>
    intro q r sg hl
    have hq : q = [] := List.length_eq_zero.1 (by omega)
    subst hq
    simp only [parse_triplet_part_loop]
    split <;> simp
  | succ f ih =>
    intro q r sg hl
    cases q with
    | nil =>
      simp only [parse_triplet_part_loop]
      split <;> simp
    | cons c cs =>
      simp only [List.length_cons] at hl
      have hcs : cs.length ≤ f := by omega
      simp only [parse_triplet_part_loop]
      split
      · exact ih cs r _ hcs
      · split
        · exact ih cs r _ hcs
        · split
          · simp
          · split
            · rename_i hc
              have h1 : (strtol (c :: cs)).2.length ≤ cs.length := by
                rw [strtol_of_digit c _ hc]
                exact strtol_digits_length _ _
              split
              · split
                · simp
                · apply ih
                  have h2 := strtol_length (strtol (c :: cs)).2.tail
                  have h3 : (strtol (c :: cs)).2.tail.length ≤ (strtol (c :: cs)).2.length := by
                    simp
                  omega
              · exact ih _ _ _ (by omega)
            · split
              · exact ih cs _ _ hcs
              · split
                · exact ih cs _ _ hcs
                · split
                  · exact ih cs _ _ hcs
                  · simp

theorem parse_triplet_part_never_out_of_fuel (p : List Char) :
    parse_triplet_part p ≠ .error .outOfFuel :=
  loop_never_out_of_fuel p.length p _ _ (Nat.le_refl _)

theorem parse_triplet_never_out_of_fuel (s : List Char) :
    parse_triplet s ≠ .error .outOfFuel := by
  unfold parse_triplet
  split
  · simp
  · simp only
    split
    · rename_i e he
      intro h
      cases h
      exact parse_triplet_part_never_out_of_fuel _ he
    · split
      · rename_i e he
        intro h
        cases h
        exact parse_triplet_part_never_out_of_fuel _ he
      · split
        · rename_i e he
          intro h
          cases h
          exact parse_triplet_part_never_out_of_fuel _ he
        · simp

/-! ## Dangling signs and bad denominators -/

theorem loop_blanks (bl : List Char) (hb : ∀ c ∈ bl, c = ' ' ∨ c = '\t') :
    ∀ (fuel : Nat) (r : Fin 4 → Int) (sg : Int), sg ≠ 0 → bl.length ≤ fuel →
      parse_triplet_part_loop fuel bl r sg = .error .trailingSign := by
  induction bl with
  | nil =>
    intro fuel r sg hsg _
    cases fuel <;> simp [parse_triplet_part_loop, hsg]
  | cons c bl ih =>
    intro fuel r sg hsg hl
    obtain ⟨f, rfl⟩ : ∃ f, fuel = f + 1 := ⟨fuel - 1, by simp only [List.length_cons] at hl; omega⟩
    have hc : c = ' ' ∨ c = '\t' := hb c (List.mem_cons_self _ _)
    have hns : ¬ (c = '+' ∨ c = '-') := by
      rcases hc with rfl | rfl <;> decide
    simp only [parse_triplet_part_loop, if_neg hns, if_pos hc]
    exact ih (fun x hx => hb x (List.mem_cons_of_mem _ hx)) f r sg hsg
      (by simp only [List.length_cons] at hl; omega)

theorem loop_blanks_then (bl : List Char) (hb : ∀ c ∈ bl, c = ' ' ∨ c = '\t')
    (bad : Char) (post : List Char)
    (h1 : bad ≠ '+') (h2 : bad ≠ '-') (h3 : bad ≠ ' ') (h4 : bad ≠ '\t')
    (h5 : isDigit bad = false) (h6 : isAxisX bad = false) (h7 : isAxisY bad = false)
    (h8 : isAxisZ bad = false) :
    ∀ (fuel : Nat) (r : Fin 4 → Int) (sg : Int), sg ≠ 0 →
      (bl ++ bad :: post).length ≤ fuel →
      parse_triplet_part_loop fuel (bl ++ bad :: post) r sg
        = .error (.unexpectedCharacter bad) := by
  induction bl with
  | nil =>
    intro fuel r sg hsg hl
    obtain ⟨f, rfl⟩ : ∃ f, fuel = f + 1 :=
      ⟨fuel - 1, by simp only [List.nil_append, List.length_cons] at hl; omega⟩
    simp [parse_triplet_part_loop, h1, h2, h3, h4, h5, h6, h7, h8, hsg]
  | cons c bl ih =>
    intro fuel r sg hsg hl
    obtain ⟨f, rfl⟩ : ∃ f, fuel = f + 1 :=
      ⟨fuel - 1, by simp only [List.cons_append, List.length_cons] at hl; omega⟩
    have hc : c = ' ' ∨ c = '\t' := hb c (List.mem_cons_self _ _)
    have hns : ¬ (c = '+' ∨ c = '-') := by
      rcases hc with rfl | rfl <;> decide
    simp only [List.cons_append, parse_triplet_part_loop, if_neg hns, if_pos hc]
    exact ih (fun x hx => hb x (List.mem_cons_of_mem _ hx)) f r sg hsg
      (by simp only [List.cons_append, List.length_cons] at hl; omega)

theorem loop_sign (f : Nat) (sg : Char) (hsg : sg = '+' ∨ sg = '-') (rest : List Char)
    (r : Fin 4 → Int) (s : Int) :
    ∃ s', s' ≠ 0 ∧ parse_triplet_part_loop (f + 1) (sg :: rest) r s
      = parse_triplet_part_loop f rest r s' := by
  rcases hsg with rfl | rfl
  · exact ⟨1, by decide, loop_plus f rest r s⟩
  · exact ⟨-1, by decide, loop_minus f rest r s⟩

theorem sign_not_special (sg : Char) (hsg : sg = '+' ∨ sg = '-') :
    isspace sg = false ∧ isDigit sg = false ∧ sg ≠ '/' := by
  rcases hsg with rfl | rfl <;> decide

theorem blank_not_digit (c : Char) (hc : c = ' ' ∨ c = '\t') : isDigit c = false := by
  rcases hc with rfl | rfl <;> decide

theorem part_fails_of_dangling_sign (p : List Char)
    (hbad : (∀ c ∈ p, c = ' ' ∨ c = '\t') ∨
      (∃ q sg bl, p = q ++ sg :: bl ∧ (sg = '+' ∨ sg = '-') ∧
        ∀ c ∈ bl, c = ' ' ∨ c = '\t') ∨
      (∃ q sg bl bad post, p = q ++ sg :: (bl ++ bad :: post) ∧ (sg = '+' ∨ sg = '-') ∧
        (∀ c ∈ bl, c = ' ' ∨ c = '\t') ∧ bad ≠ '+' ∧ bad ≠ '-' ∧ bad ≠ ' ' ∧ bad ≠ '\t' ∧
        isDigit bad = false ∧ isAxisX bad = false ∧ isAxisY bad = false ∧
        isAxisZ bad = false)) :
    ∃ e, parse_triplet_part p = .error e ∧ e ≠ .outOfFuel := by
  rcases hbad with hb | ⟨q, sg, bl, rfl, hsg, hb⟩ |
    ⟨q, sg, bl, bad, post, rfl, hsg, hb, h1, h2, h3, h4, h5, h6, h7, h8⟩
  · exact ⟨_, loop_blanks p hb _ _ _ (by decide) (Nat.le_refl _), by simp⟩
  · obtain ⟨hs1, hs2, hs3⟩ := sign_not_special sg hsg
    refine loop_fails_before sg bl hs1 hs2 ?_ (fun h => absurd h hs3) ?_ _ q _ _ (Nat.le_refl _)
    · intro _ c hc
      cases bl with
      | nil => cases hc
      | cons b bl' =>
        simp only [List.head?_cons, Option.some.injEq] at hc
        rw [← hc]
        exact blank_not_digit b (hb b (List.mem_cons_self _ _))
    · intro fuel r s hl
      obtain ⟨f, rfl⟩ : ∃ f, fuel = f + 1 :=
        ⟨fuel - 1, by simp only [List.length_cons] at hl; omega⟩
      obtain ⟨s', hs', e⟩ := loop_sign f sg hsg bl r s
      rw [e, loop_blanks bl hb f r s' hs' (by simp only [List.length_cons] at hl; omega)]
      exact ⟨_, rfl, by simp⟩
  · obtain ⟨hs1, hs2, hs3⟩ := sign_not_special sg hsg
    refine loop_fails_before sg (bl ++ bad :: post) hs1 hs2 ?_ (fun h => absurd h hs3) ?_
      _ q _ _ (Nat.le_refl _)
    · intro _ c hc
      cases bl with
      | nil =>
        simp only [List.nil_append, List.head?_cons, Option.some.injEq] at hc
        rw [← hc]; exact h5
      | cons b bl' =>
        simp only [List.cons_append, List.head?_cons, Option.some.injEq] at hc
        rw [← hc]
        exact blank_not_digit b (hb b (List.mem_cons_self _ _))
    · intro fuel r s hl
      obtain ⟨f, rfl⟩ : ∃ f, fuel = f + 1 :=
        ⟨fuel - 1, by simp only [List.length_cons] at hl; omega⟩
      obtain ⟨s', hs', e⟩ := loop_sign f sg hsg (bl ++ bad :: post) r s
      rw [e, loop_blanks_then bl hb bad post h1 h2 h3 h4 h5 h6 h7 h8 f r s' hs'
        (by simp only [List.length_cons] at hl; omega)]
      exact ⟨_, rfl, by simp⟩

theorem parse_triplet_fails_of_part (p0 p1 p2 : List Char)
    (h0 : ',' ∉ p0) (h1 : ',' ∉ p1) (h2 : ',' ∉ p2)
    (h : (∃ e, parse_triplet_part p0 = .error e) ∨ (∃ e, parse_triplet_part p1 = .error e) ∨
      (∃ e, parse_triplet_part p2 = .error e)) :
    ∃ e, parse_triplet (p0 ++ ',' :: (p1 ++ ',' :: p2)) = .error e ∧ e ≠ .outOfFuel := by
  have hoof := parse_triplet_never_out_of_fuel (p0 ++ ',' :: (p1 ++ ',' :: p2))
  suffices hs : ∃ e, parse_triplet (p0 ++ ',' :: (p1 ++ ',' :: p2)) = .error e by
    obtain ⟨e, he⟩ := hs
    exact ⟨e, he, fun h => hoof (by rw [he, h])⟩
  rw [parse_triplet_split p0 p1 p2 h0 h1 h2]
  cases e0 : parse_triplet_part p0 with
  | error e => exact ⟨e, rfl⟩
  | ok a =>
    cases e1 : parse_triplet_part p1 with
    | error e => exact ⟨e, rfl⟩
    | ok b =>
      cases e2 : parse_triplet_part p2 with
      | error e => exact ⟨e, rfl⟩
      | ok c =>
        rcases h with ⟨e, he⟩ | ⟨e, he⟩ | ⟨e, he⟩
        · rw [e0] at he; cases he
        · rw [e1] at he; cases he
        · rw [e2] at he; cases he

/-- C13 (as the code has it): a part that is empty or blank, a part whose
last non-blank character is a sign, and a part in which a sign is followed
(blanks ignored) by a character that is neither a sign, a digit nor an axis
letter make `parse_triplet` fail, in whichever of the three positions the
part stands. -/
theorem dangling_sign_fails (p a b : List Char)
    (hp : ',' ∉ p) (ha : ',' ∉ a) (hb : ',' ∉ b)
    (hbad : (∀ c ∈ p, c = ' ' ∨ c = '\t') ∨
      (∃ q sg bl, p = q ++ sg :: bl ∧ (sg = '+' ∨ sg = '-') ∧
        ∀ c ∈ bl, c = ' ' ∨ c = '\t') ∨
      (∃ q sg bl bad post, p = q ++ sg :: (bl ++ bad :: post) ∧ (sg = '+' ∨ sg = '-') ∧
        (∀ c ∈ bl, c = ' ' ∨ c = '\t') ∧ bad ≠ '+' ∧ bad ≠ '-' ∧ bad ≠ ' ' ∧ bad ≠ '\t' ∧
        isDigit bad = false ∧ isAxisX bad = false ∧ isAxisY bad = false ∧
        isAxisZ bad = false)) :
    (∃ e, parse_triplet (p ++ ',' :: (a ++ ',' :: b)) = .error e ∧ e ≠ .outOfFuel) ∧
    (∃ e, parse_triplet (a ++ ',' :: (p ++ ',' :: b)) = .error e ∧ e ≠ .outOfFuel) ∧
    (∃ e, parse_triplet (a ++ ',' :: (b ++ ',' :: p)) = .error e ∧ e ≠ .outOfFuel) := by
  obtain ⟨e, he, -⟩ := part_fails_of_dangling_sign p hbad
  exact ⟨parse_triplet_fails_of_part p a b hp ha hb (Or.inl ⟨e, he⟩),
    parse_triplet_fails_of_part a p b ha hp hb (Or.inr (Or.inl ⟨e, he⟩)),
    parse_triplet_fails_of_part a b p ha hb hp (Or.inr (Or.inr ⟨e, he⟩))⟩

theorem dangling_sign_fails_witness :
    (∃ e, parse_triplet ("x+".toList ++ ',' :: ("y".toList ++ ',' :: "z".toList)) = .error e
      ∧ e ≠ .outOfFuel) ∧
    (∃ e, parse_triplet ("y".toList ++ ',' :: ("".toList ++ ',' :: "z".toList)) = .error e
      ∧ e ≠ .outOfFuel) ∧
    (∃ e, parse_triplet ("y".toList ++ ',' :: ("z".toList ++ ',' :: "x- ?".toList)) = .error e
      ∧ e ≠ .outOfFuel) ∧
    parse_triplet "x+,y,z".toList = .error .trailingSign ∧
    parse_triplet "y,,z".toList = .error .trailingSign ∧
    parse_triplet "y,z,x- ?".toList = .error (.unexpectedCharacter '?') :=
  ⟨(dangling_sign_fails "x+".toList "y".toList "z".toList (by decide) (by decide) (by decide)
      (Or.inr (Or.inl ⟨['x'], '+', [], rfl, Or.inl rfl, by simp⟩))).1,
   (dangling_sign_fails "".toList "y".toList "z".toList (by decide) (by decide) (by decide)
      (Or.inl (by simp))).2.1,
   (dangling_sign_fails "x- ?".toList "y".toList "z".toList (by decide) (by decide) (by decide)
      (Or.inr (Or.inr ⟨['x'], '-', [' '], '?', [], rfl, Or.inr rfl, by simp, by decide,
        by decide, by decide, by decide, by decide, by decide, by decide, by decide⟩))).2.2,
   by decide, by decide, by decide⟩

/-- C13 as stated fails: a sign directly followed by another sign is
accepted, the later sign replacing the earlier; `x,+-y,z` parses to the
operation of `x,-y,z` and `x,-+y,z` to the identity. -/
theorem double_sign_accepted :
    parse_triplet "x,+-y,z".toList = .ok ⟨mkRot 1 0 0 0 (-1) 0 0 0 1, mkTran 0 0 0⟩ ∧
    parse_triplet "x,-y,z".toList = .ok ⟨mkRot 1 0 0 0 (-1) 0 0 0 1, mkTran 0 0 0⟩ ∧
    parse_triplet "x,-+y,z".toList = .ok ⟨mkRot 1 0 0 0 1 0 0 0 1, mkTran 0 0 0⟩ ∧
    parse_triplet "x,- + - y,z".toList
      = .ok ⟨mkRot 1 0 0 0 (-1) 0 0 0 1, mkTran 0 0 0⟩ := by
  decide

theorem loop_slash_fails (post : List Char) (fuel : Nat) (r : Fin 4 → Int) (sg : Int)
    (hl : ('/' :: post).length ≤ fuel) :
    ∃ e, parse_triplet_part_loop fuel ('/' :: post) r sg = .error e ∧ e ≠ .outOfFuel := by
  obtain ⟨f, rfl⟩ : ∃ f, fuel = f + 1 :=
    ⟨fuel - 1, by simp only [List.length_cons] at hl; omega⟩
  by_cases hsg : sg = 0
  · exact ⟨.wrongTripletFormat, by simp +decide [parse_triplet_part_loop, hsg], by simp⟩
  · exact ⟨.unexpectedCharacter '/', by simp +decide [parse_triplet_part_loop, hsg], by simp⟩

/-! ## The coset lists as groups -/

/-- C24: the coset list of lattice letter S is not closed under addition
modulo 12. It is `(0,0,0), (4,4,8), (8,4,8)`; the sum of `(4,4,8)` with
itself is `(8,8,4)`, which is not in the list (nor is the sum of the two
non-zero vectors, `(0,8,4)`). The lists of P, A, B, C, I, R, T and F contain
`(0,0,0)`, have no repeated vector and are closed. -/
theorem lattice_S_not_closed :
    lattice_translations 'S' = .ok [mkTran 0 0 0, mkTran 4 4 8, mkTran 8 4 8] ∧
    (fun i => wrap12 (mkTran 4 4 8 i + mkTran 4 4 8 i)) = mkTran 8 8 4 ∧
    mkTran 8 8 4 ∉ [mkTran 0 0 0, mkTran 4 4 8, mkTran 8 4 8] ∧
    (fun i => wrap12 (mkTran 4 4 8 i + mkTran 8 4 8 i)) = mkTran 0 8 4 ∧
    mkTran 0 8 4 ∉ [mkTran 0 0 0, mkTran 4 4 8, mkTran 8 4 8] ∧
    (∀ c ∈ ['P', 'A', 'B', 'C', 'I', 'R', 'T', 'F'],
      ∃ l, lattice_translations c = .ok l ∧ mkTran 0 0 0 ∈ l ∧ l.Nodup ∧
        ∀ a ∈ l, ∀ b ∈ l, (fun i => wrap12 (a i + b i)) ∈ l) := by
  refine ⟨by decide, by decide, by decide, by decide, by decide, ?_⟩
  intro c hc
  simp only [List.mem_cons, List.mem_singleton, List.not_mem_nil, or_false] at hc
  rcases hc with rfl | rfl | rfl | rfl | rfl | rfl | rfl | rfl <;>
    exact ⟨_, rfl, by decide, by decide, by decide⟩

/-! ## The screw translation index -/

/-- C23: with a screw digit and a diagonal marker, given or inferred, or
with no axis inferred at all, `principal_axis` is still NUL at the update
`op.tran[principal_axis - 'x'] += ...`, so the index is `-120`: for the
symbols `21'` and `31*` at position 1, for `21` at position 2 after `6`
(marker inferred) or after `1` (nothing inferred) and for `31` at position 3;
`P 21'` and `P 31*` reach it through `symops_from_hall`. With an explicit or
inferred principal axis the index is 0, 1 or 2. -/
theorem screw_index_out_of_range :
    hall_matrix_symbol ['2', '1', APOS] 1 '2' = .error (.indexOutOfRange (-120)) ∧
    hall_matrix_symbol ['3', '1', '*'] 1 '3' = .error (.indexOutOfRange (-120)) ∧
    hall_matrix_symbol ['2', '1'] 2 '6' = .error (.indexOutOfRange (-120)) ∧
    hall_matrix_symbol ['2', '1'] 2 '1' = .error (.indexOutOfRange (-120)) ∧
    hall_matrix_symbol ['3', '1'] 3 '2' = .error (.indexOutOfRange (-120)) ∧
    symops_from_hall (some ['P', ' ', '2', '1', APOS]) = .error (.indexOutOfRange (-120)) ∧
    symops_from_hall (some "P 31*".toList) = .error (.indexOutOfRange (-120)) ∧
    ((NUL.toNat : Int) - 'x'.toNat = -120) ∧
    hall_matrix_symbol ['2', '1'] 2 '4'
      = .ok ⟨mkRot 1 0 0 0 (-1) 0 0 0 (-1), mkTran 6 0 0⟩ ∧
    hall_matrix_symbol ['2', '1', APOS, 'x'] 2 '4'
      = .ok ⟨mkRot (-1) 0 0 0 0 (-1) 0 (-1) 0, mkTran 6 0 0⟩ ∧
    hall_matrix_symbol ['4', '1'] 1 '4'
      = .ok ⟨mkRot 0 (-1) 0 1 0 0 0 0 1, mkTran 0 0 3⟩ := by
  decide

theorem char_lt_iff (a b : Char) : a < b ↔ a.toNat < b.toNat := Iff.rfl

theorem char_le_iff (a b : Char) : a ≤ b ↔ a.toNat ≤ b.toNat := Iff.rfl

theorem order_digit_value (c : Char) (h : ¬ (c < '1' ∨ c = '5' ∨ c > '6')) :
    (c.toNat : Int) - '0'.toNat = 1 ∨ (c.toNat : Int) - '0'.toNat = 2 ∨
    (c.toNat : Int) - '0'.toNat = 3 ∨ (c.toNat : Int) - '0'.toNat = 4 ∨
    (c.toNat : Int) - '0'.toNat = 6 := by
  simp only [not_or, char_lt_iff, gt_iff_lt, Nat.not_lt] at h
  obtain ⟨h1, h5, h6⟩ := h
  have e1 : '1'.toNat = 49 := rfl
  have e6 : '6'.toNat = 54 := rfl
  have e0 : '0'.toNat = 48 := rfl
  have h5' : c.toNat ≠ 53 := fun e => h5 (char_of_toNat c 53 '5' rfl e)
  rw [e1] at h1
  rw [e6] at h6
  rw [e0]
  omega

/-! ## The steps of `hall_matrix_symbol` on an accepted symbol -/

theorem hall_matrix_symbol_ok (sym : List Char) (pos : Int) (first : Char) (op : Op)
    (h : hall_matrix_symbol sym pos first = .ok op) :
    ∃ (c : Char) (rest : List Char) (st : HallState) (pa da : Char) (rot0 R : Rot),
      (if sym.head? = some '-' then sym.tail else sym) = c :: rest ∧
      ¬ (c < '1' ∨ c = '5' ∨ c > '6') ∧
      hall_matrix_symbol_loop ((c.toNat : Int) - '0'.toNat) rest ⟨Op.identity, 0, NUL, NUL⟩
        = .ok st ∧
      (if st.principal_axis = NUL ∧ st.diagonal_axis = NUL then
          if pos = 1 then Except.ok ('z', st.diagonal_axis)
          else if pos = 2 ∧ (c.toNat : Int) - '0'.toNat = 2 then
            if first = '2' ∨ first = '4' then Except.ok ('x', st.diagonal_axis)
            else if first = '3' ∨ first = '6' then Except.ok (st.principal_axis, APOS)
            else Except.ok (st.principal_axis, st.diagonal_axis)
          else if pos = 3 ∧ (c.toNat : Int) - '0'.toNat = 3 then
            Except.ok (st.principal_axis, '*')
          else Except.error Fail.missingAxis
        else Except.ok (st.principal_axis, st.diagonal_axis)) = Except.ok (pa, da) ∧
      (if da = NUL then rotation_around_z ((c.toNat : Int) - '0'.toNat)
        else if da = APOS then Except.ok (mkRot 0 (-1) 0 (-1) 0 0 0 0 (-1))
        else if da = DQUOTE then Except.ok (mkRot 0 1 0 1 0 0 0 0 (-1))
        else if da = '*' then Except.ok (mkRot 0 0 1 1 0 0 0 1 0)
        else Except.error Fail.impossible) = Except.ok rot0 ∧
      R = (if sym.head? = some '-' then Op.negated_rot ⟨rot0, st.op.tran⟩ else rot0) ∧
      op.rot = (if pa = 'x' then
          mkRot (R 2 2) (R 2 0) (R 2 1) (R 0 2) (R 0 0) (R 0 1) (R 1 2) (R 1 0) (R 1 1)
        else if pa = 'y' then
          mkRot (R 1 1) (R 1 2) (R 1 0) (R 2 1) (R 2 2) (R 2 0) (R 0 1) (R 0 2) (R 0 0)
        else R) ∧
      (st.fractional_tran = 0 → op.tran = st.op.tran) ∧
      (st.fractional_tran ≠ 0 →
        ∃ k, tran_index ((pa.toNat : Int) - 'x'.toNat) = some k ∧
          op.tran = assign st.op.tran k
            (st.op.tran k + Int.tdiv 12 ((c.toNat : Int) - '0'.toNat) * st.fractional_tran)) := by
  unfold hall_matrix_symbol at h
  simp only at h
  split at h
  · cases h
  · split at h
    · cases h
    · split at h
      · cases h
      · split at h
        · cases h
        · split at h
          · cases h
          · split at h
            · cases h
            · rename_i u c rest hbody hc x1 st hloop filled pa da hfilled base rot0 hbase x2 op3 hscrew
              simp only [decide_eq_true_eq] at hbody hscrew
              refine ⟨c, rest, st, pa, da, rot0, _, hbody, hc, hloop, hfilled, hbase, rfl, ?_⟩
              have hop3 : op3.rot
                    = (if sym.head? = some '-' then Op.negated_rot ⟨rot0, st.op.tran⟩ else rot0) ∧
                  (st.fractional_tran = 0 → op3.tran = st.op.tran) ∧
                  (st.fractional_tran ≠ 0 →
                    ∃ k, tran_index ((pa.toNat : Int) - 'x'.toNat) = some k ∧
                      op3.tran = assign st.op.tran k
                        (st.op.tran k
                          + Int.tdiv 12 ((c.toNat : Int) - '0'.toNat) * st.fractional_tran)) := by
                by_cases hf : st.fractional_tran = 0
                · rw [if_neg (by simpa using hf)] at hscrew
                  cases hscrew
                  refine ⟨?_, fun _ => ?_, fun hn => absurd hf hn⟩
                  · split <;> rfl
                  · split <;> rfl
                · rw [if_pos hf] at hscrew
                  split at hscrew
                  · cases hscrew
                  · rename_i k hk
                    cases hscrew
                    refine ⟨?_, fun h0 => absurd h0 hf, fun _ => ⟨k, hk, ?_⟩⟩
                    · split <;> rfl
                    · split <;> rfl
              obtain ⟨hr, ht0, ht1⟩ := hop3
              rw [← hr]
              by_cases hx : pa = 'x'
              · rw [if_pos hx] at h
                cases h
                exact ⟨by rw [if_pos hx], ht0, ht1⟩
              · rw [if_neg hx] at h
                by_cases hy : pa = 'y'
                · rw [if_pos hy] at h
                  cases h
                  exact ⟨by rw [if_neg hx, if_pos hy], ht0, ht1⟩
                · rw [if_neg hy] at h
                  cases h
                  exact ⟨by rw [if_neg hx, if_neg hy], ht0, ht1⟩

/-! ## Generators are unimodular with entries in `{-1,0,1}` -/

theorem base_rotation_good (da : Char) (N : Int) (rot0 : Rot)
    (h : (if da = NUL then rotation_around_z N
        else if da = APOS then Except.ok (mkRot 0 (-1) 0 (-1) 0 0 0 0 (-1))
        else if da = DQUOTE then Except.ok (mkRot 0 1 0 1 0 0 0 0 (-1))
        else if da = '*' then Except.ok (mkRot 0 0 1 1 0 0 0 1 0)
        else Except.error Fail.impossible) = Except.ok rot0) :
    (∀ i j, rot0 i j = -1 ∨ rot0 i j = 0 ∨ rot0 i j = 1) ∧
    Op.det_rot ⟨rot0, mkTran 0 0 0⟩ = 1 := by
  split at h
  · unfold rotation_around_z at h
    split at h
    · cases h; decide
    · split at h
      · cases h; decide
      · split at h
        · cases h; decide
        · split at h
          · cases h; decide
          · split at h
            · cases h; decide
            · cases h
  · split at h
    · cases h; decide
    · split at h
      · cases h; decide
      · split at h
        · cases h; decide
        · cases h

theorem negated_rot_good (R : Rot) (t : Tran) (d : Int)
    (h : (∀ i j, R i j = -1 ∨ R i j = 0 ∨ R i j = 1) ∧ Op.det_rot ⟨R, mkTran 0 0 0⟩ = d) :
    (∀ i j, Op.negated_rot ⟨R, t⟩ i j = -1 ∨ Op.negated_rot ⟨R, t⟩ i j = 0
      ∨ Op.negated_rot ⟨R, t⟩ i j = 1) ∧
    Op.det_rot ⟨Op.negated_rot ⟨R, t⟩, mkTran 0 0 0⟩ = -d := by
  obtain ⟨he, hd⟩ := h
  constructor
  · intro i j
    have := he i j
    fin_cases i <;> fin_cases j <;> simp [Op.negated_rot] at this ⊢ <;> omega
  · rw [← hd]
    simp only [Op.det_rot, Op.negated_rot, mkRot_00, mkRot_01, mkRot_02, mkRot_10, mkRot_11,
      mkRot_12, mkRot_20, mkRot_21, mkRot_22]
    ring

theorem permute_x_good (R : Rot) (d : Int)
    (h : (∀ i j, R i j = -1 ∨ R i j = 0 ∨ R i j = 1) ∧ Op.det_rot ⟨R, mkTran 0 0 0⟩ = d) :
    (∀ i j, mkRot (R 2 2) (R 2 0) (R 2 1) (R 0 2) (R 0 0) (R 0 1) (R 1 2) (R 1 0) (R 1 1) i j = -1
      ∨ mkRot (R 2 2) (R 2 0) (R 2 1) (R 0 2) (R 0 0) (R 0 1) (R 1 2) (R 1 0) (R 1 1) i j = 0
      ∨ mkRot (R 2 2) (R 2 0) (R 2 1) (R 0 2) (R 0 0) (R 0 1) (R 1 2) (R 1 0) (R 1 1) i j = 1) ∧
    Op.det_rot ⟨mkRot (R 2 2) (R 2 0) (R 2 1) (R 0 2) (R 0 0) (R 0 1) (R 1 2) (R 1 0) (R 1 1),
      mkTran 0 0 0⟩ = d := by
  obtain ⟨he, hd⟩ := h
  constructor
  · intro i j
    fin_cases i <;> fin_cases j <;> exact he _ _
  · rw [← hd]
    simp only [Op.det_rot, mkRot_00, mkRot_01, mkRot_02, mkRot_10, mkRot_11,
      mkRot_12, mkRot_20, mkRot_21, mkRot_22]
    ring

theorem permute_y_good (R : Rot) (d : Int)
    (h : (∀ i j, R i j = -1 ∨ R i j = 0 ∨ R i j = 1) ∧ Op.det_rot ⟨R, mkTran 0 0 0⟩ = d) :
    (∀ i j, mkRot (R 1 1) (R 1 2) (R 1 0) (R 2 1) (R 2 2) (R 2 0) (R 0 1) (R 0 2) (R 0 0) i j = -1
      ∨ mkRot (R 1 1) (R 1 2) (R 1 0) (R 2 1) (R 2 2) (R 2 0) (R 0 1) (R 0 2) (R 0 0) i j = 0
      ∨ mkRot (R 1 1) (R 1 2) (R 1 0) (R 2 1) (R 2 2) (R 2 0) (R 0 1) (R 0 2) (R 0 0) i j = 1) ∧
    Op.det_rot ⟨mkRot (R 1 1) (R 1 2) (R 1 0) (R 2 1) (R 2 2) (R 2 0) (R 0 1) (R 0 2) (R 0 0),
      mkTran 0 0 0⟩ = d := by
  obtain ⟨he, hd⟩ := h
  constructor
  · intro i j
    fin_cases i <;> fin_cases j <;> exact he _ _
  · rw [← hd]
    simp only [Op.det_rot, mkRot_00, mkRot_01, mkRot_02, mkRot_10, mkRot_11,
      mkRot_12, mkRot_20, mkRot_21, mkRot_22]
    ring

theorem hall_matrix_symbol_good (sym : List Char) (pos : Int) (first : Char) (op : Op)
    (h : hall_matrix_symbol sym pos first = .ok op) :
    (∀ i j, op.rot i j = -1 ∨ op.rot i j = 0 ∨ op.rot i j = 1) ∧
    op.det_rot = (if sym.head? = some '-' then -1 else 1) := by
  obtain ⟨c, rest, st, pa, da, rot0, R, -, -, -, -, hbase, hR, hrot, -, -⟩ :=
    hall_matrix_symbol_ok sym pos first op h
  have h0 := base_rotation_good da _ rot0 hbase
  have hRgood : (∀ i j, R i j = -1 ∨ R i j = 0 ∨ R i j = 1) ∧
      Op.det_rot ⟨R, mkTran 0 0 0⟩ = (if sym.head? = some '-' then -1 else 1) := by
    by_cases hneg : sym.head? = some '-'
    · rw [if_pos hneg] at hR ⊢
      rw [hR]
      exact negated_rot_good rot0 _ 1 h0
    · rw [if_neg hneg] at hR ⊢
      rw [hR]
      exact h0
  have hdet : op.det_rot = Op.det_rot ⟨op.rot, mkTran 0 0 0⟩ := rfl
  rw [hdet, hrot]
  by_cases hx : pa = 'x'
  · rw [if_pos hx]
    exact permute_x_good R _ hRgood
  · rw [if_neg hx]
    by_cases hy : pa = 'y'
    · rw [if_pos hy]
      exact permute_y_good R _ hRgood
    · rw [if_neg hy]
      exact hRgood

theorem symops_from_hall_loop_all (P : Op → Prop)
    (hP : ∀ sym pos first op, hall_matrix_symbol sym pos first = .ok op → P op)
    (cen_ops : List Tran) (fuel : Nat) :
    ∀ (part : Option (List Char)) (sym_ops : List Op) (counter : Int) (first : Char)
      (s : SymOps),
      (∀ g ∈ sym_ops, P g) →
      symops_from_hall_loop cen_ops fuel part sym_ops counter first = .ok s →
      ∀ g ∈ s.sym_ops, P g := by
  induction fuel with
  | zero =>
    intro part sym_ops counter first s hall h
    match part with
    | none =>
      simp only [symops_from_hall_loop] at h
      cases h
      exact hall
    | some [] =>
      simp only [symops_from_hall_loop] at h
      cases h
      exact hall
    | some (c :: cs) =>
      simp only [symops_from_hall_loop] at h
      cases h
  | succ fuel ih =>
    intro part sym_ops counter first s hall h
    match part with
    | none =>
      simp only [symops_from_hall_loop] at h
      cases h
      exact hall
    | some [] =>
      simp only [symops_from_hall_loop] at h
      cases h
      exact hall
    | some (c :: cs) =>
      simp only [symops_from_hall_loop] at h
      split at h
      · split at h
        · cases h
        · split at h
          · cases h
          · split at h
            · cases h
            · rw [shift_back_eq] at h
              exact ih _ _ _ _ _ hall h
      · split at h
        · split at h
          · cases h
          · rename_i op hop
            refine ih _ _ _ _ _ ?_ h
            intro g hg
            rcases List.mem_append.1 hg with hg | hg
            · exact hall g hg
            · rw [List.mem_singleton] at hg
              rw [hg]
              exact hP _ _ _ _ hop
        · exact ih _ _ _ _ _ hall h

theorem symops_from_hall_all (P : Op → Prop)
    (hP : ∀ sym pos first op, hall_matrix_symbol sym pos first = .ok op → P op)
    (hid : P Op.identity) (hneg : P Op.identity.negated)
    (hall : List Char) (s : SymOps) (hs : symops_from_hall (some hall) = .ok s) :
    ∀ g ∈ s.sym_ops, P g := by
  unfold symops_from_hall at hs
  simp only [skip_blank] at hs
  split at hs
  · cases hs
  · refine symops_from_hall_loop_all P hP _ _ _ _ _ _ _ ?_ hs
    intro g hg
    split at hg
    · rcases List.mem_append.1 hg with hg | hg
      · rw [List.mem_singleton] at hg; rw [hg]; exact hid
      · rw [List.mem_singleton] at hg; rw [hg]; exact hneg
    · rw [List.mem_singleton] at hg; rw [hg]; exact hid

/-- C22: every generator returned by `hall_matrix_symbol` has its nine
rotation entries in `{-1,0,1}` and determinant `-1` when the symbol starts
with `-` and `+1` otherwise; the identity has determinant `+1` and the
negated identity `-1`; so every generator in a result of `symops_from_hall`
has entries in `{-1,0,1}`, determinant `+1` or `-1`, and `inverted`
succeeds on it. The x and y re-expressions keep the determinant. -/
theorem generators_are_unimodular :
    (∀ sym pos first op, hall_matrix_symbol sym pos first = .ok op →
      (∀ i j, op.rot i j = -1 ∨ op.rot i j = 0 ∨ op.rot i j = 1) ∧
      op.det_rot = (if sym.head? = some '-' then -1 else 1)) ∧
    (Op.identity.det_rot = 1 ∧ Op.identity.negated.det_rot = -1) ∧
    (∀ hall s, symops_from_hall (some hall) = .ok s → ∀ g ∈ s.sym_ops,
      (∀ i j, g.rot i j = -1 ∨ g.rot i j = 0 ∨ g.rot i j = 1) ∧
      (g.det_rot = 1 ∨ g.det_rot = -1) ∧ ∃ inv, g.inverted = .ok inv) ∧
    (∀ R : Rot, (∀ i j, R i j = -1 ∨ R i j = 0 ∨ R i j = 1) →
      ((∀ i j,
        mkRot (R 2 2) (R 2 0) (R 2 1) (R 0 2) (R 0 0) (R 0 1) (R 1 2) (R 1 0) (R 1 1) i j = -1
        ∨ mkRot (R 2 2) (R 2 0) (R 2 1) (R 0 2) (R 0 0) (R 0 1) (R 1 2) (R 1 0) (R 1 1) i j = 0
        ∨ mkRot (R 2 2) (R 2 0) (R 2 1) (R 0 2) (R 0 0) (R 0 1) (R 1 2) (R 1 0) (R 1 1) i j = 1) ∧
      Op.det_rot ⟨mkRot (R 2 2) (R 2 0) (R 2 1) (R 0 2) (R 0 0) (R 0 1) (R 1 2) (R 1 0) (R 1 1),
        mkTran 0 0 0⟩ = Op.det_rot ⟨R, mkTran 0 0 0⟩) ∧
      ((∀ i j,
        mkRot (R 1 1) (R 1 2) (R 1 0) (R 2 1) (R 2 2) (R 2 0) (R 0 1) (R 0 2) (R 0 0) i j = -1
        ∨ mkRot (R 1 1) (R 1 2) (R 1 0) (R 2 1) (R 2 2) (R 2 0) (R 0 1) (R 0 2) (R 0 0) i j = 0
        ∨ mkRot (R 1 1) (R 1 2) (R 1 0) (R 2 1) (R 2 2) (R 2 0) (R 0 1) (R 0 2) (R 0 0) i j = 1) ∧
      Op.det_rot ⟨mkRot (R 1 1) (R 1 2) (R 1 0) (R 2 1) (R 2 2) (R 2 0) (R 0 1) (R 0 2) (R 0 0),
        mkTran 0 0 0⟩ = Op.det_rot ⟨R, mkTran 0 0 0⟩)) := by
  refine ⟨hall_matrix_symbol_good, ⟨by decide, by decide⟩, ?_, ?_⟩
  · intro hall s hs
    have key : ∀ g ∈ s.sym_ops,
        (∀ i j, g.rot i j = -1 ∨ g.rot i j = 0 ∨ g.rot i j = 1) ∧
        (g.det_rot = 1 ∨ g.det_rot = -1) := by
      refine symops_from_hall_all _ ?_ ⟨by decide, by decide⟩ ⟨by decide, by decide⟩ hall s hs
      intro sym pos first op hop
      obtain ⟨h1, h2⟩ := hall_matrix_symbol_good sym pos first op hop
      refine ⟨h1, ?_⟩
      rw [h2]
      split
      · exact Or.inr rfl
      · exact Or.inl rfl
    intro g hg
    obtain ⟨h1, h2⟩ := key g hg
    exact ⟨h1, h2, _, inverted_of_det g h2⟩
  · intro R hR
    exact ⟨permute_x_good R _ ⟨hR, rfl⟩, permute_y_good R _ ⟨hR, rfl⟩⟩

theorem generators_are_unimodular_witness :
    symops_from_hall (some "-P 2ac 2ab".toList)
      = .ok ⟨[Op.identity, ⟨mkRot (-1) 0 0 0 (-1) 0 0 0 (-1), mkTran 0 0 0⟩,
              ⟨mkRot (-1) 0 0 0 (-1) 0 0 0 1, mkTran 6 0 6⟩,
              ⟨mkRot 1 0 0 0 (-1) 0 0 0 (-1), mkTran 6 6 0⟩], [mkTran 0 0 0]⟩ ∧
    (∃ inv, Op.inverted ⟨mkRot 1 0 0 0 (-1) 0 0 0 (-1), mkTran 6 6 0⟩ = .ok inv) ∧
    hall_matrix_symbol "-2ab".toList 2 '2'
      = .ok ⟨mkRot (-1) 0 0 0 1 0 0 0 1, mkTran 6 6 0⟩ ∧
    Op.det_rot ⟨mkRot (-1) 0 0 0 1 0 0 0 1, mkTran 6 6 0⟩ = -1 :=
  ⟨by decide,
   ((generators_are_unimodular.2.2.1 "-P 2ac 2ab".toList
      ⟨[Op.identity, ⟨mkRot (-1) 0 0 0 (-1) 0 0 0 (-1), mkTran 0 0 0⟩,
        ⟨mkRot (-1) 0 0 0 (-1) 0 0 0 1, mkTran 6 0 6⟩,
        ⟨mkRot 1 0 0 0 (-1) 0 0 0 (-1), mkTran 6 6 0⟩], [mkTran 0 0 0]⟩ (by decide))
      ⟨mkRot 1 0 0 0 (-1) 0 0 0 (-1), mkTran 6 6 0⟩ (by decide)).2.2,
   by decide,
   (generators_are_unimodular.1 "-2ab".toList 2 '2'
      ⟨mkRot (-1) 0 0 0 1 0 0 0 1, mkTran 6 6 0⟩ (by decide)).2⟩

/-! ## The translation of a matrix symbol -/

theorem translation_from_symbol_ok_mem (p : Char) (t : Tran)
    (h : translation_from_symbol p = .ok t) :
    p ∈ ['a', 'b', 'c', 'n', 'u', 'v', 'w', 'd'] := by
  unfold translation_from_symbol at h
  simp only [List.mem_cons, List.mem_singleton, List.not_mem_nil, or_false]
  by_contra hn
  simp only [not_or] at hn
  obtain ⟨h1, h2, h3, h4, h5, h6, h7, h8⟩ := hn
  rw [if_neg h1, if_neg h2, if_neg h3, if_neg h4, if_neg h5, if_neg h6, if_neg h7,
    if_neg h8] at h
  cases h

theorem not_glide_toOption (p : Char)
    (h : p ∉ ['a', 'b', 'c', 'n', 'u', 'v', 'w', 'd']) :
    (translation_from_symbol p).toOption = none := by
  cases ht : translation_from_symbol p with
  | error e => rfl
  | ok t => exact absurd (translation_from_symbol_ok_mem p t ht) h

theorem getLast?_cons_getD (p x : Char) (l : List Char) :
    ((p :: l).getLast?).getD x = (l.getLast?).getD p := by
  cases l with
  | nil => rfl
  | cons a l =>
    rw [List.getLast?_cons_cons]
    cases h : (a :: l).getLast? with
    | none => simp at h
    | some y => rfl

theorem hall_loop_spec (N : Int) :
    ∀ (rest : List Char) (st st' : HallState),
      hall_matrix_symbol_loop N rest st = .ok st' →
      (∀ i, st'.op.tran i = st.op.tran i
        + ((rest.filterMap fun c => (translation_from_symbol c).toOption).map
            fun t => t i).sum) ∧
      st'.fractional_tran = st.fractional_tran
        + ((rest.filter fun c => decide ('1' ≤ c ∧ c ≤ '5')).map
            fun c => (c.toNat : Int) - '0'.toNat).sum ∧
      (st.fractional_tran ≠ 0 → (rest.filter fun c => decide ('1' ≤ c ∧ c ≤ '5')) = []) ∧
      (rest.filter fun c => decide ('1' ≤ c ∧ c ≤ '5')).length ≤ 1 ∧
      st'.principal_axis
        = ((rest.filter fun c => decide (c = 'x' ∨ c = 'y' ∨ c = 'z')).getLast?).getD
            st.principal_axis ∧
      st'.diagonal_axis
        = ((rest.filter fun c => decide (c = APOS ∨ c = DQUOTE ∨ c = '*')).getLast?).getD
            st.diagonal_axis := by
  intro rest
  induction rest with
  | nil =>
    intro st st' h
    simp only [hall_matrix_symbol_loop] at h
    cases h
    simp
  | cons p ps ih =>
    intro st st' h
    simp only [hall_matrix_symbol_loop] at h
    split at h
    · rename_i hd
      have hng : p ∉ ['a', 'b', 'c', 'n', 'u', 'v', 'w', 'd'] := by
        intro hm
        simp only [List.mem_cons, List.mem_singleton, List.not_mem_nil, or_false] at hm
        rcases hm with rfl | rfl | rfl | rfl | rfl | rfl | rfl | rfl <;> exact absurd hd (by decide)
      have hna : ¬ (p = 'x' ∨ p = 'y' ∨ p = 'z') := by
        rintro (rfl | rfl | rfl) <;> exact absurd hd (by decide)
      have hnm : ¬ (p = APOS ∨ p = DQUOTE ∨ p = '*') := by
        rintro (rfl | rfl | rfl) <;> exact absurd hd (by decide)
      have hv : (p.toNat : Int) - '0'.toNat ≠ 0 := by
        have h1 : '1'.toNat ≤ p.toNat := hd.1
        have e1 : '1'.toNat = 49 := rfl
        have e0 : '0'.toNat = 48 := rfl
        rw [e1] at h1
        rw [e0]
        omega
      split at h
      · cases h
      · rename_i hf
        have hf0 : st.fractional_tran = 0 := by simpa using hf
        obtain ⟨h1, h2, h3, h4, h5, h6⟩ := ih _ _ h
        have hnil := h3 hv
        try simp only at h1 h2 h5 h6
        refine ⟨?_, ?_, ?_, ?_, ?_, ?_⟩
        · intro i
          rw [h1 i, List.filterMap_cons, not_glide_toOption p hng]
        · rw [h2, hf0, List.filter_cons, if_pos (by simpa using hd), hnil]
          simp
        · intro hne
          exact absurd hf0 hne
        · rw [List.filter_cons, if_pos (by simpa using hd), hnil]
          simp
        · rw [h5, List.filter_cons, if_neg (by simpa using hna)]
        · rw [h6, List.filter_cons, if_neg (by simpa using hnm)]
    · rename_i hd
      split at h
      · rename_i hm
        have hng : p ∉ ['a', 'b', 'c', 'n', 'u', 'v', 'w', 'd'] := by
          intro hmem
          simp only [List.mem_cons, List.mem_singleton, List.not_mem_nil, or_false] at hmem
          rcases hmem with rfl | rfl | rfl | rfl | rfl | rfl | rfl | rfl <;>
            exact absurd hm (by decide)
        have hna : ¬ (p = 'x' ∨ p = 'y' ∨ p = 'z') := by
          rintro (rfl | rfl | rfl) <;> exact absurd hm (by decide)
        by_cases hN : N ≠ (if p = '*' then 3 else 2)
        · rw [if_pos hN] at h
          cases h
        · rw [if_neg hN] at h
          obtain ⟨h1, h2, h3, h4, h5, h6⟩ := ih _ _ h
          try simp only at h1 h2 h3 h5 h6
          refine ⟨?_, ?_, ?_, ?_, ?_, ?_⟩
          · intro i
            rw [h1 i, List.filterMap_cons, not_glide_toOption p hng]
          · rw [h2, List.filter_cons, if_neg (by simpa using hd)]
          · intro hne
            rw [List.filter_cons, if_neg (by simpa using hd)]
            exact h3 hne
          · rw [List.filter_cons, if_neg (by simpa using hd)]
            exact h4
          · rw [h5, List.filter_cons, if_neg (by simpa using hna)]
          · rw [h6, List.filter_cons, if_pos (by simpa using hm), getLast?_cons_getD]
      · rename_i hm
        split at h
        · rename_i ha
          have hng : p ∉ ['a', 'b', 'c', 'n', 'u', 'v', 'w', 'd'] := by
            intro hmem
            simp only [List.mem_cons, List.mem_singleton, List.not_mem_nil, or_false] at hmem
            rcases hmem with rfl | rfl | rfl | rfl | rfl | rfl | rfl | rfl <;>
              exact absurd ha (by decide)
          obtain ⟨h1, h2, h3, h4, h5, h6⟩ := ih _ _ h
          try simp only at h1 h2 h3 h5 h6
          refine ⟨?_, ?_, ?_, ?_, ?_, ?_⟩
          · intro i
            rw [h1 i, List.filterMap_cons, not_glide_toOption p hng]
          · rw [h2, List.filter_cons, if_neg (by simpa using hd)]
          · intro hne
            rw [List.filter_cons, if_neg (by simpa using hd)]
            exact h3 hne
          · rw [List.filter_cons, if_neg (by simpa using hd)]
            exact h4
          · rw [h5, List.filter_cons, if_pos (by simpa using ha), getLast?_cons_getD]
          · rw [h6, List.filter_cons, if_neg (by simpa using hm)]
        · rename_i ha
          split at h
          · cases h
          · rename_i t ht
            obtain ⟨h1, h2, h3, h4, h5, h6⟩ := ih _ _ h
            try simp only at h1 h2 h3 h5 h6
            refine ⟨?_, ?_, ?_, ?_, ?_, ?_⟩
            · intro i
              rw [h1 i, List.filterMap_cons, ht]
              simp only [Except.toOption, List.map_cons, List.sum_cons, Op.translate]
              ring
            · rw [h2, List.filter_cons, if_neg (by simpa using hd)]
            · intro hne
              rw [List.filter_cons, if_neg (by simpa using hd)]
              exact h3 hne
            · rw [List.filter_cons, if_neg (by simpa using hd)]
              exact h4
            · rw [h5, List.filter_cons, if_neg (by simpa using ha)]
            · rw [h6, List.filter_cons, if_neg (by simpa using hm)]

theorem spec_glide_vector_not_mem (p : Char)
    (h : p ∉ ['a', 'b', 'c', 'n', 'u', 'v', 'w', 'd']) :
    spec_glide_vector p = mkTran 0 0 0 := by
  simp only [List.mem_cons, List.mem_singleton, List.not_mem_nil, or_false, not_or] at h
  obtain ⟨h1, h2, h3, h4, h5, h6, h7, h8⟩ := h
  unfold spec_glide_vector
  split <;> first | rfl | contradiction

theorem spec_glide_vector_ok (p : Char) (t : Tran)
    (h : translation_from_symbol p = .ok t) : spec_glide_vector p = t := by
  have hm := translation_from_symbol_ok_mem p t h
  simp only [List.mem_cons, List.mem_singleton, List.not_mem_nil, or_false] at hm
  rcases hm with rfl | rfl | rfl | rfl | rfl | rfl | rfl | rfl <;>
    · simp +decide only [translation_from_symbol, if_true, if_false, Except.ok.injEq] at h
      subst h
      rfl

theorem spec_glide_vector_error (p : Char) (e : Fail)
    (h : translation_from_symbol p = .error e) : spec_glide_vector p = mkTran 0 0 0 := by
  apply spec_glide_vector_not_mem
  intro hm
  simp only [List.mem_cons, List.mem_singleton, List.not_mem_nil, or_false] at hm
  rcases hm with rfl | rfl | rfl | rfl | rfl | rfl | rfl | rfl <;>
    simp +decide [translation_from_symbol] at h

theorem glide_sum_eq (i : Fin 3) (l : List Char) :
    ((l.filterMap fun c => (translation_from_symbol c).toOption).map fun t => t i).sum
      = (l.map fun c => spec_glide_vector c i).sum := by
  induction l with
  | nil => rfl
  | cons p ps ih =>
    rw [List.filterMap_cons, List.map_cons, List.sum_cons, ← ih]
    cases ht : translation_from_symbol p with
    | error e =>
      rw [spec_glide_vector_error p e ht]
      fin_cases i <;> simp [Except.toOption]
    | ok t =>
      rw [spec_glide_vector_ok p t ht]
      simp [Except.toOption]

theorem tran_index_some (j : Int) (k : Fin 3) (h : tran_index j = some k) :
    ((k : Nat) : Int) = j := by
  unfold tran_index at h
  split at h
  · cases h; simp [*]
  · split at h
    · cases h; simp [*]
    · split at h
      · cases h; simp [*]
      · cases h

theorem axis_of_index (pa : Char) (k : Fin 3)
    (h : tran_index ((pa.toNat : Int) - 'x'.toNat) = some k) :
    pa = 'x' ∨ pa = 'y' ∨ pa = 'z' := by
  have hk := tran_index_some _ _ h
  have e : 'x'.toNat = 120 := rfl
  rw [e] at hk
  have h3 := k.isLt
  have hx : pa.toNat = 120 ∨ pa.toNat = 121 ∨ pa.toNat = 122 := by omega
  have hp := Char.ofNat_toNat pa
  rcases hx with hx | hx | hx
  · left; rw [hx] at hp; exact hp.symm.trans (by decide)
  · right; left; rw [hx] at hp; exact hp.symm.trans (by decide)
  · right; right; rw [hx] at hp; exact hp.symm.trans (by decide)

theorem getLast?_getD_filter (q : Char → Bool) (l : List Char) (d : Char)
    (hq : q d = false) :
    ((l.filter q).getLast?).getD d = d → l.filter q = [] := by
  intro h
  cases hl : (l.filter q).getLast? with
  | none => simpa using hl
  | some y =>
    rw [hl] at h
    have hy : y ∈ l.filter q := List.mem_of_getLast?_eq_some hl
    have := (List.mem_filter.1 hy).2
    simp only [Option.getD_some] at h
    rw [h, hq] at this
    cases this

theorem identity_tran (i : Fin 3) : Op.identity.tran i = 0 := by
  fin_cases i <;> rfl

theorem order_digit_not_glide (c : Char) (h : ¬ (c < '1' ∨ c = '5' ∨ c > '6')) :
    spec_glide_vector c = mkTran 0 0 0 := by
  apply spec_glide_vector_not_mem
  intro hm
  simp only [List.mem_cons, List.mem_singleton, List.not_mem_nil, or_false] at hm
  rcases hm with rfl | rfl | rfl | rfl | rfl | rfl | rfl | rfl <;> exact h (by decide)

theorem mkTran_zero (i : Fin 3) : mkTran 0 0 0 i = 0 := by
  fin_cases i <;> rfl

theorem glide_sum_body (sym : List Char) (c : Char) (rest : List Char) (i : Fin 3)
    (hbody : (if sym.head? = some '-' then sym.tail else sym) = c :: rest)
    (hc : ¬ (c < '1' ∨ c = '5' ∨ c > '6')) :
    (sym.map fun s => spec_glide_vector s i).sum
      = (rest.map fun s => spec_glide_vector s i).sum := by
  have hc0 : spec_glide_vector c i = 0 := by
    rw [order_digit_not_glide c hc, mkTran_zero]
  by_cases hneg : sym.head? = some '-'
  · rw [if_pos hneg] at hbody
    cases sym with
    | nil => cases hneg
    | cons a l =>
      simp only [List.head?_cons, Option.some.injEq] at hneg
      simp only [List.tail_cons] at hbody
      subst hneg
      subst hbody
      have hm : spec_glide_vector '-' i = 0 := by
        rw [spec_glide_vector_not_mem '-' (by decide), mkTran_zero]
      simp only [List.map_cons, List.sum_cons, hm, hc0, zero_add]
  · rw [if_neg hneg] at hbody
    subst hbody
    simp only [List.map_cons, List.sum_cons, hc0, zero_add]

theorem screw_digit_bounds (d : Char) (h : '1' ≤ d ∧ d ≤ '5') :
    1 ≤ (d.toNat : Int) - '0'.toNat ∧ (d.toNat : Int) - '0'.toNat ≤ 5 := by
  have h1 : '1'.toNat ≤ d.toNat := h.1
  have h2 : d.toNat ≤ '5'.toNat := h.2
  have e1 : '1'.toNat = 49 := rfl
  have e5 : '5'.toNat = 53 := rfl
  have e0 : '0'.toNat = 48 := rfl
  rw [e1] at h1
  rw [e5] at h2
  rw [e0]
  omega

theorem translation_from_symbol_table (c : Char) :
    translation_from_symbol c
      = if c ∈ ['a', 'b', 'c', 'n', 'u', 'v', 'w', 'd'] then .ok (spec_glide_vector c)
        else .error (.unknownSymbol c) := by
  by_cases hm : c ∈ ['a', 'b', 'c', 'n', 'u', 'v', 'w', 'd']
  · rw [if_pos hm]
    simp only [List.mem_cons, List.mem_singleton, List.not_mem_nil, or_false] at hm
    rcases hm with rfl | rfl | rfl | rfl | rfl | rfl | rfl | rfl <;> rfl
  · rw [if_neg hm]
    simp only [List.mem_cons, List.mem_singleton, List.not_mem_nil, or_false, not_or] at hm
    obtain ⟨h1, h2, h3, h4, h5, h6, h7, h8⟩ := hm
    unfold translation_from_symbol
    rw [if_neg h1, if_neg h2, if_neg h3, if_neg h4, if_neg h5, if_neg h6, if_neg h7,
      if_neg h8]

/-- C21: for every matrix symbol accepted by `hall_matrix_symbol`, with order
digit `c` (order `N`), at most one screw digit follows it (numerator `k`,
`0` when absent), and the translation of the returned generator is the
component-wise sum of the specification's fixed vectors of all its glide
letters plus, when `k ≠ 0`, `(12/N) * k` on the component of the principal
axis `ax`, which is then `x`, `y` or `z`: the last axis letter of the symbol,
or, with no axis letter and no diagonal marker, `z` at position 1 and `x` at
position 2 for order 2 after a first symbol of order 2 or 4. The vectors of
`translation_from_symbol` are the specification's. The symbol "-P 2ac 2ab"
gives a 2-fold about z with translation (6,0,6) and a 2-fold about x with
translation (6,6,0); "P 41" gives translation (0,0,3). -/
theorem hall_symbol_translation :
    (∀ (sym : List Char) (pos : Int) (first : Char) (op : Op),
      hall_matrix_symbol sym pos first = .ok op →
      ∃ (c : Char) (rest : List Char) (k : Int) (ax : Char),
        (if sym.head? = some '-' then sym.tail else sym) = c :: rest ∧
        ((c.toNat : Int) - '0'.toNat = 1 ∨ (c.toNat : Int) - '0'.toNat = 2 ∨
          (c.toNat : Int) - '0'.toNat = 3 ∨ (c.toNat : Int) - '0'.toNat = 4 ∨
          (c.toNat : Int) - '0'.toNat = 6) ∧
        (((rest.filter fun d => decide ('1' ≤ d ∧ d ≤ '5')) = [] ∧ k = 0) ∨
          ∃ d, (rest.filter fun d => decide ('1' ≤ d ∧ d ≤ '5')) = [d] ∧
            k = (d.toNat : Int) - '0'.toNat ∧ 1 ≤ k ∧ k ≤ 5) ∧
        (k ≠ 0 → (ax = 'x' ∨ ax = 'y' ∨ ax = 'z') ∧
          ((rest.filter fun d => decide (d = 'x' ∨ d = 'y' ∨ d = 'z')).getLast? = some ax ∨
           ((rest.filter fun d => decide (d = 'x' ∨ d = 'y' ∨ d = 'z')) = [] ∧
            (rest.filter fun d => decide (d = APOS ∨ d = DQUOTE ∨ d = '*')) = [] ∧
            ((pos = 1 ∧ ax = 'z') ∨
             (pos = 2 ∧ (c.toNat : Int) - '0'.toNat = 2 ∧ (first = '2' ∨ first = '4') ∧
               ax = 'x'))))) ∧
        ∀ i : Fin 3, op.tran i = (sym.map fun s => spec_glide_vector s i).sum
          + (if k ≠ 0 ∧ ((i : Nat) : Int) = (ax.toNat : Int) - 'x'.toNat
              then Int.tdiv 12 ((c.toNat : Int) - '0'.toNat) * k else 0)) ∧
    (∀ c : Char, translation_from_symbol c
      = if c ∈ ['a', 'b', 'c', 'n', 'u', 'v', 'w', 'd'] then .ok (spec_glide_vector c)
        else .error (.unknownSymbol c)) ∧
    symops_from_hall (some "-P 2ac 2ab".toList)
      = .ok ⟨[Op.identity, Op.identity.negated,
              ⟨mkRot (-1) 0 0 0 (-1) 0 0 0 1, mkTran 6 0 6⟩,
              ⟨mkRot 1 0 0 0 (-1) 0 0 0 (-1), mkTran 6 6 0⟩], [mkTran 0 0 0]⟩ ∧
    symops_from_hall (some "P 41".toList)
      = .ok ⟨[Op.identity, ⟨mkRot 0 (-1) 0 1 0 0 0 0 1, mkTran 0 0 3⟩], [mkTran 0 0 0]⟩ := by
  refine ⟨?_, translation_from_symbol_table, by decide, by decide⟩
  intro sym pos first op h
  obtain ⟨c, rest, st, pa, da, rot0, R, hbody, hc, hloop, hfill, hbase, hR, hrot, ht0, htk⟩ :=
    hall_matrix_symbol_ok sym pos first op h
  obtain ⟨h1, h2, h3, h4, h5, h6⟩ := hall_loop_spec _ rest _ st hloop
  simp only [zero_add] at h2
  refine ⟨c, rest, st.fractional_tran, pa, hbody, order_digit_value c hc, ?_, ?_, ?_⟩
  · cases hf : (rest.filter fun d => decide ('1' ≤ d ∧ d ≤ '5')) with
    | nil =>
      left
      rw [hf] at h2
      exact ⟨rfl, h2⟩
    | cons d l =>
      cases l with
      | nil =>
        right
        rw [hf] at h2
        have hd : d ∈ (rest.filter fun d => decide ('1' ≤ d ∧ d ≤ '5')) := by
          rw [hf]; exact List.mem_singleton.2 rfl
        have hd2 := (List.mem_filter.1 hd).2
        simp only [decide_eq_true_eq] at hd2
        have hk : st.fractional_tran = (d.toNat : Int) - '0'.toNat := by
          rw [h2]; simp
        refine ⟨d, rfl, hk, ?_⟩
        rw [hk]
        exact screw_digit_bounds d hd2
      | cons e l =>
        rw [hf] at h4
        simp at h4
  · intro hk
    obtain ⟨kk, hkk, -⟩ := htk hk
    have hax := axis_of_index pa kk hkk
    refine ⟨hax, ?_⟩
    have hpaN : pa ≠ NUL := by
      rcases hax with rfl | rfl | rfl <;> decide
    by_cases hnn : st.principal_axis = NUL ∧ st.diagonal_axis = NUL
    · rw [if_pos hnn] at hfill
      right
      refine ⟨getLast?_getD_filter _ rest NUL (by decide) (h5.symm.trans hnn.1),
        getLast?_getD_filter _ rest NUL (by decide) (h6.symm.trans hnn.2), ?_⟩
      by_cases hp1 : pos = 1
      · rw [if_pos hp1] at hfill
        simp only [Except.ok.injEq, Prod.mk.injEq] at hfill
        exact Or.inl ⟨hp1, hfill.1.symm⟩
      · rw [if_neg hp1] at hfill
        by_cases hp2 : pos = 2 ∧ (c.toNat : Int) - '0'.toNat = 2
        · rw [if_pos hp2] at hfill
          by_cases hf1 : first = '2' ∨ first = '4'
          · rw [if_pos hf1] at hfill
            simp only [Except.ok.injEq, Prod.mk.injEq] at hfill
            exact Or.inr ⟨hp2.1, hp2.2, hf1, hfill.1.symm⟩
          · rw [if_neg hf1] at hfill
            split at hfill <;>
              · simp only [Except.ok.injEq, Prod.mk.injEq] at hfill
                exact absurd (hfill.1.symm.trans hnn.1) hpaN
        · rw [if_neg hp2] at hfill
          split at hfill
          · simp only [Except.ok.injEq, Prod.mk.injEq] at hfill
            exact absurd (hfill.1.symm.trans hnn.1) hpaN
          · cases hfill
    · rw [if_neg hnn] at hfill
      simp only [Except.ok.injEq, Prod.mk.injEq] at hfill
      left
      rw [← hfill.1, h5]
      cases hl : (rest.filter fun d => decide (d = 'x' ∨ d = 'y' ∨ d = 'z')).getLast? with
      | none =>
        rw [hl] at h5
        exact absurd (hfill.1.symm.trans h5) hpaN
      | some y => rfl
  · intro i
    rw [glide_sum_body sym c rest i hbody hc, ← glide_sum_eq]
    have hi := h1 i
    rw [identity_tran, zero_add] at hi
    by_cases hk : st.fractional_tran = 0
    · rw [ht0 hk, hi, if_neg (fun hh => hh.1 hk), add_zero]
    · obtain ⟨kk, hkk, hop⟩ := htk hk
      have hidx := tran_index_some _ _ hkk
      rw [hop]
      simp only [assign]
      by_cases hik : i = kk
      · subst hik
        rw [if_pos rfl, if_pos ⟨hk, hidx⟩, hi]
      · rw [if_neg hik, if_neg, hi, add_zero]
        rintro ⟨-, hh⟩
        apply hik
        apply Fin.ext
        have := hh.trans hidx.symm
        exact_mod_cast this

theorem hall_symbol_translation_witness :
    hall_matrix_symbol "-21xab".toList 1 '2'
      = .ok ⟨mkRot (-1) 0 0 0 1 0 0 0 1, mkTran 12 6 0⟩ ∧
    ∃ (c : Char) (rest : List Char) (k : Int) (ax : Char),
      (if "-21xab".toList.head? = some '-' then "-21xab".toList.tail else "-21xab".toList)
        = c :: rest ∧
      ((c.toNat : Int) - '0'.toNat = 1 ∨ (c.toNat : Int) - '0'.toNat = 2 ∨
        (c.toNat : Int) - '0'.toNat = 3 ∨ (c.toNat : Int) - '0'.toNat = 4 ∨
        (c.toNat : Int) - '0'.toNat = 6) ∧
      (((rest.filter fun d => decide ('1' ≤ d ∧ d ≤ '5')) = [] ∧ k = 0) ∨
        ∃ d, (rest.filter fun d => decide ('1' ≤ d ∧ d ≤ '5')) = [d] ∧
          k = (d.toNat : Int) - '0'.toNat ∧ 1 ≤ k ∧ k ≤ 5) ∧
      (k ≠ 0 → (ax = 'x' ∨ ax = 'y' ∨ ax = 'z') ∧
        ((rest.filter fun d => decide (d = 'x' ∨ d = 'y' ∨ d = 'z')).getLast? = some ax ∨
         ((rest.filter fun d => decide (d = 'x' ∨ d = 'y' ∨ d = 'z')) = [] ∧
          (rest.filter fun d => decide (d = APOS ∨ d = DQUOTE ∨ d = '*')) = [] ∧
          (((1 : Int) = 1 ∧ ax = 'z') ∨
           ((1 : Int) = 2 ∧ (c.toNat : Int) - '0'.toNat = 2 ∧ ('2' = '2' ∨ '2' = '4') ∧
             ax = 'x'))))) ∧
      ∀ i : Fin 3, (mkTran 12 6 0) i = ("-21xab".toList.map fun s => spec_glide_vector s i).sum
        + (if k ≠ 0 ∧ ((i : Nat) : Int) = (ax.toNat : Int) - 'x'.toNat
            then Int.tdiv 12 ((c.toNat : Int) - '0'.toNat) * k else 0) :=
  ⟨by decide,
   hall_symbol_translation.1 "-21xab".toList 1 '2'
     ⟨mkRot (-1) 0 0 0 1 0 0 0 1, mkTran 12 6 0⟩ (by decide)⟩

/-! ## The denominator guard and the conversion to `int` -/

theorem part_fails_of_bad_denominator (q post : List Char)
    (hden : to_int (strtol post).1 ≠ 1 ∧ to_int (strtol post).1 ≠ 2
      ∧ to_int (strtol post).1 ≠ 3 ∧ to_int (strtol post).1 ≠ 4
      ∧ to_int (strtol post).1 ≠ 6) :
    ∃ e, parse_triplet_part (q ++ '/' :: post) = .error e ∧ e ≠ .outOfFuel :=
  loop_fails_before '/' post (by decide) (by decide) (fun h => absurd h (by decide))
    (fun _ => hden) (fun fuel r sg hl => loop_slash_fails post fuel r sg hl)
    _ q _ _ (Nat.le_refl _)

theorem strtol_digits_append_stop (T : List Char)
    (hT : ∀ c, T.head? = some c → isDigit c = false) :
    ∀ (q : List Char) (acc : Nat),
      strtol_digits acc (q ++ T) = ((strtol_digits acc q).1, (strtol_digits acc q).2 ++ T) := by
  intro q
  induction q with
  | nil =>
    intro acc
    rw [List.nil_append, strtol_digits_stop T acc hT]
    rfl
  | cons c cs ih =>
    intro acc
    by_cases hc : isDigit c = true
    · simp only [List.cons_append, strtol_digits, hc, if_true]
      exact ih _
    · simp [strtol_digits, hc]

theorem strtol_append (h : Char) (T' : List Char) (hspace : isspace h = false)
    (hdig : isDigit h = false) (q : List Char) :
    strtol q = (0, q) ∨
    strtol (q ++ h :: T') = ((strtol q).1, (strtol q).2 ++ h :: T') := by
  have hT : ∀ c, (h :: T').head? = some c → isDigit c = false := by
    intro c hc
    simp only [List.head?_cons, Option.some.injEq] at hc
    rw [← hc]; exact hdig
  unfold strtol
  rw [dropWhile_isspace_append h T' hspace]
  generalize q.dropWhile isspace = t
  cases t with
  | nil => left; simp
  | cons a t' =>
    by_cases hs : a = '-' ∨ a = '+'
    · cases t' with
      | nil => left; simp [hs]
      | cons c u =>
        by_cases hc : isDigit c = true
        · right
          have key := strtol_digits_append_stop (h :: T') hT (c :: u) 0
          simp only [List.cons_append] at key
          simp [hs, hc, key]
        · left
          simp [hs, hc]
    · by_cases hc : isDigit a = true
      · right
        have key := strtol_digits_append_stop (h :: T') hT (a :: t') 0
        simp only [List.cons_append] at key
        simp [hs, hc, key]
      · left
        simp [hs, hc]

theorem loop_fuel_irrelevant :
    ∀ (fuel fuel2 : Nat) (q : List Char) (r : Fin 4 → Int) (sg : Int),
      q.length ≤ fuel → q.length ≤ fuel2 →
      parse_triplet_part_loop fuel q r sg = parse_triplet_part_loop fuel2 q r sg := by
  intro fuel
  induction fuel with
  | zero =>
    intro fuel2 q r sg hl hl2
    have hq : q = [] := List.length_eq_zero.1 (by omega)
    subst hq
    simp only [parse_triplet_part_loop]
  | succ f ih =>
    intro fuel2 q r sg hl hl2
    cases q with
    | nil => simp only [parse_triplet_part_loop]
    | cons c cs =>
      simp only [List.length_cons] at hl hl2
      obtain ⟨f2, rfl⟩ : ∃ f2, fuel2 = f2 + 1 := ⟨fuel2 - 1, by omega⟩
      have hcs : cs.length ≤ f := by omega
      have hcs2 : cs.length ≤ f2 := by omega
      simp only [parse_triplet_part_loop]
      by_cases h1 : c = '+' ∨ c = '-'
      · simp only [if_pos h1]
        exact ih _ cs r _ hcs hcs2
      · simp only [if_neg h1]
        by_cases h2 : c = ' ' ∨ c = '\t'
        · simp only [if_pos h2]
          exact ih _ cs r _ hcs hcs2
        · simp only [if_neg h2]
          by_cases h3 : sg = 0
          · simp only [if_pos h3]
          · simp only [if_neg h3]
            by_cases hc : isDigit c = true
            · simp only [if_pos hc]
              have hn : (strtol (c :: cs)).2.length ≤ cs.length := by
                rw [strtol_of_digit c _ hc]
                exact strtol_digits_length _ _
              by_cases h5 : (strtol (c :: cs)).2.head? = some '/'
              · simp only [if_pos h5]
                split
                · rfl
                · apply ih
                  · have h6 := strtol_length (strtol (c :: cs)).2.tail
                    have h7 : (strtol (c :: cs)).2.tail.length ≤ (strtol (c :: cs)).2.length := by
                      simp
                    omega
                  · have h6 := strtol_length (strtol (c :: cs)).2.tail
                    have h7 : (strtol (c :: cs)).2.tail.length ≤ (strtol (c :: cs)).2.length := by
                      simp
                    omega
              · simp only [if_neg h5]
                exact ih _ _ _ _ (by omega) (by omega)
            · simp only [if_neg hc]
              by_cases hx : isAxisX c = true
              · simp only [if_pos hx]
                exact ih _ cs _ _ hcs hcs2
              · simp only [if_neg hx]
                by_cases hy : isAxisY c = true
                · simp only [if_pos hy]
                  exact ih _ cs _ _ hcs hcs2
                · simp only [if_neg hy]
                  by_cases hz : isAxisZ c = true
                  · simp only [if_pos hz]
                    exact ih _ cs _ _ hcs hcs2
                  · simp only [if_neg hz]

theorem loop_ok_append (h : Char) (T' : List Char) (hsign : h = '+' ∨ h = '-') :
    ∀ (fuel : Nat) (q : List Char) (r : Fin 4 → Int) (sg : Int) (r' : Fin 4 → Int),
      (q ++ h :: T').length ≤ fuel →
      parse_triplet_part_loop fuel q r sg = .ok r' →
      parse_triplet_part_loop fuel (q ++ h :: T') r sg
        = parse_triplet_part_loop (h :: T').length (h :: T') r' 0 := by
  have hspace : isspace h = false := by rcases hsign with rfl | rfl <;> decide
  have hdig : isDigit h = false := by rcases hsign with rfl | rfl <;> decide
  have hslash : h ≠ '/' := by rcases hsign with rfl | rfl <;> decide
  have hT : ∀ c, (h :: T').head? = some c → isDigit c = false := by
    intro c hc
    simp only [List.head?_cons, Option.some.injEq] at hc
    rw [← hc]; exact hdig
  intro fuel
  induction fuel with
  | zero =>
    intro q r sg r' hl
    simp only [List.length_append, List.length_cons] at hl
    omega
  | succ f ih =>
    intro q r sg r' hl hq
    cases q with
    | nil =>
      simp only [parse_triplet_part_loop] at hq
      split at hq
      · cases hq
      · rename_i hsg
        have hsg0 : sg = 0 := by simpa using hsg
        cases hq
        subst hsg0
        exact loop_fuel_irrelevant _ _ _ _ _ hl (Nat.le_refl _)
    | cons c cs =>
      simp only [List.cons_append, List.length_cons, List.length_append] at hl
      have hcs : (cs ++ h :: T').length ≤ f := by
        simp only [List.length_append, List.length_cons]; omega
      simp only [List.cons_append, parse_triplet_part_loop] at hq ⊢
      by_cases h1 : c = '+' ∨ c = '-'
      · simp only [if_pos h1] at hq ⊢
        exact ih cs r _ r' hcs hq
      · simp only [if_neg h1] at hq ⊢
        by_cases h2 : c = ' ' ∨ c = '\t'
        · simp only [if_pos h2] at hq ⊢
          exact ih cs r _ r' hcs hq
        · simp only [if_neg h2] at hq ⊢
          by_cases h3 : sg = 0
          · simp only [if_pos h3] at hq
            cases hq
          · simp only [if_neg h3] at hq ⊢
            by_cases hc : isDigit c = true
            · simp only [if_pos hc] at hq ⊢
              have halone := strtol_of_digit c cs hc
              have hcomb := strtol_of_digit c (cs ++ h :: T') hc
              rw [strtol_digits_append_stop (h :: T') hT] at hcomb
              have hlen := strtol_digits_length cs (digitVal c)
              revert halone hcomb hlen
              generalize strtol_digits (digitVal c) cs = p
              obtain ⟨v, q'⟩ := p
              intro halone hcomb hlen
              simp only at halone hcomb hlen
              simp only [halone] at hq
              simp only [List.append_eq, hcomb]
              cases q' with
              | nil =>
                simp only [List.head?_nil, List.nil_append, List.head?_cons, Option.some.injEq,
                  hslash, if_false] at hq ⊢
                rw [loop_nil] at hq
                cases hq
                exact loop_fuel_irrelevant _ _ _ _ _ (by simp only [List.length_cons]; omega)
                  (Nat.le_refl _)
              | cons a q2 =>
                simp only [List.length_cons] at hlen
                simp only [List.cons_append, List.head?_cons, Option.some.injEq,
                  List.tail_cons] at hq ⊢
                by_cases ha : a = '/'
                · simp only [if_pos ha] at hq ⊢
                  rcases strtol_append h T' hspace hdig q2 with hA | hB
                  · rw [hA] at hq
                    simp only at hq
                    rw [if_pos (by decide)] at hq
                    cases hq
                  · rw [hB]
                    simp only
                    split at hq
                    · cases hq
                    · rename_i hbad
                      rw [if_neg hbad]
                      have h6 := strtol_length q2
                      exact ih _ _ _ r' (by
                        simp only [List.length_append, List.length_cons]; omega) hq
                · simp only [if_neg ha] at hq ⊢
                  exact ih (a :: q2) _ _ r' (by
                    simp only [List.length_append, List.length_cons]; omega) hq
            · simp only [if_neg hc] at hq ⊢
              by_cases hx : isAxisX c = true
              · simp only [if_pos hx] at hq ⊢
                exact ih cs _ _ r' hcs hq
              · simp only [if_neg hx] at hq ⊢
                by_cases hy : isAxisY c = true
                · simp only [if_pos hy] at hq ⊢
                  exact ih cs _ _ r' hcs hq
                · simp only [if_neg hy] at hq ⊢
                  by_cases hz : isAxisZ c = true
                  · simp only [if_pos hz] at hq ⊢
                    exact ih cs _ _ r' hcs hq
                  · simp only [if_neg hz] at hq
                    cases hq

theorem signed_in_range (s : Int) (n : Nat) (k : Int) (hs : s = 1 ∨ s = -1) (hk : 1 ≤ k)
    (hb : (n : Int) * k ≤ 2147483647) : to_int (s * clamp_long (n : Int)) = s * (n : Int) := by
  have hn : (n : Int) ≤ (n : Int) * k := le_mul_of_one_le_right (Int.ofNat_nonneg n) hk
  have h0 : (0 : Int) ≤ (n : Int) := Int.ofNat_nonneg n
  rw [clamp_long_of_range _ (by omega) (by omega)]
  rcases hs with rfl | rfl
  · exact to_int_of_range _ (by omega) (by omega)
  · exact to_int_of_range _ (by omega) (by omega)

theorem tdiv_twelve_pos (d : Int) (hd : d = 1 ∨ d = 2 ∨ d = 3 ∨ d = 4 ∨ d = 6) :
    1 ≤ Int.tdiv 12 d ∧ d * Int.tdiv 12 d = 12 := by
  rcases hd with rfl | rfl | rfl | rfl | rfl <;> decide

theorem loop_fraction_at (f n : Nat) (post : List Char) (r : Fin 4 → Int) (s : Int)
    (hs : s = 1 ∨ s = -1)
    (hD : to_int (strtol post).1 = 1 ∨ to_int (strtol post).1 = 2 ∨ to_int (strtol post).1 = 3
      ∨ to_int (strtol post).1 = 4 ∨ to_int (strtol post).1 = 6)
    (hb : (n : Int) * Int.tdiv 12 (to_int (strtol post).1) ≤ 2147483647)
    (hf : post.length ≤ f) :
    parse_triplet_part_loop (f + 1) (Nat.toDigits 10 n ++ '/' :: post) r s
      = parse_triplet_part_loop (strtol post).2.length (strtol post).2
          (assign r 3 (s * n * Int.tdiv 12 (to_int (strtol post).1))) 0 := by
  have hs0 : s ≠ 0 := by rcases hs with rfl | rfl <;> decide
  rw [loop_number f n ('/' :: post) r s hs0 (by simp +decide)]
  simp only [List.head?_cons, List.tail_cons, if_true]
  rw [if_neg (by omega), signed_in_range s n _ hs (tdiv_twelve_pos _ hD).1 hb]
  exact loop_fuel_irrelevant _ _ _ _ _ (Nat.le_trans (strtol_length post) hf) (Nat.le_refl _)

theorem part_with_fraction (q post : List Char) (sc : Char) (s : Int) (n : Nat)
    (r : Fin 4 → Int) (hq : parse_triplet_part q = .ok r)
    (hsc : (sc = '+' ∧ s = 1) ∨ (sc = '-' ∧ s = -1))
    (hD : to_int (strtol post).1 = 1 ∨ to_int (strtol post).1 = 2 ∨ to_int (strtol post).1 = 3
      ∨ to_int (strtol post).1 = 4 ∨ to_int (strtol post).1 = 6)
    (hb : (n : Int) * Int.tdiv 12 (to_int (strtol post).1) ≤ 2147483647) :
    parse_triplet_part (q ++ sc :: (Nat.toDigits 10 n ++ '/' :: post))
      = parse_triplet_part_loop (strtol post).2.length (strtol post).2
          (assign r 3 (s * n * Int.tdiv 12 (to_int (strtol post).1))) 0 := by
  have hsign : sc = '+' ∨ sc = '-' := hsc.elim (fun h => Or.inl h.1) (fun h => Or.inr h.1)
  have hs : s = 1 ∨ s = -1 := hsc.elim (fun h => Or.inl h.2) (fun h => Or.inr h.2)
  unfold parse_triplet_part at hq ⊢
  have hq2 : parse_triplet_part_loop
      (q ++ sc :: (Nat.toDigits 10 n ++ '/' :: post)).length q (fun _ => 0) 1 = .ok r := by
    rw [← hq]
    exact loop_fuel_irrelevant _ _ _ _ _ (by simp) (Nat.le_refl _)
  rw [loop_ok_append sc _ hsign _ q _ _ r (Nat.le_refl _) hq2]
  obtain ⟨f, hf⟩ : ∃ f, (Nat.toDigits 10 n ++ '/' :: post).length = f + 1 ∧ post.length ≤ f :=
    ⟨(Nat.toDigits 10 n).length + post.length, by
      simp only [List.length_append, List.length_cons]; omega⟩
  simp only [List.length_cons, hf.1]
  rcases hsc with ⟨rfl, rfl⟩ | ⟨rfl, rfl⟩
  · rw [loop_plus, loop_fraction_at f n post r 1 hs hD hb hf.2]
  · rw [loop_minus, loop_fraction_at f n post r (-1) hs hD hb hf.2]

theorem part_starting_with_fraction (post : List Char) (n : Nat)
    (hD : to_int (strtol post).1 = 1 ∨ to_int (strtol post).1 = 2 ∨ to_int (strtol post).1 = 3
      ∨ to_int (strtol post).1 = 4 ∨ to_int (strtol post).1 = 6)
    (hb : (n : Int) * Int.tdiv 12 (to_int (strtol post).1) ≤ 2147483647) :
    parse_triplet_part (Nat.toDigits 10 n ++ '/' :: post)
      = parse_triplet_part_loop (strtol post).2.length (strtol post).2
          (assign (fun _ => 0) 3 (1 * n * Int.tdiv 12 (to_int (strtol post).1))) 0 ∧
    parse_triplet_part ('-' :: (Nat.toDigits 10 n ++ '/' :: post))
      = parse_triplet_part_loop (strtol post).2.length (strtol post).2
          (assign (fun _ => 0) 3 (-1 * n * Int.tdiv 12 (to_int (strtol post).1))) 0 := by
  obtain ⟨f, hf⟩ : ∃ f, (Nat.toDigits 10 n ++ '/' :: post).length = f + 1 ∧ post.length ≤ f :=
    ⟨(Nat.toDigits 10 n).length + post.length, by
      simp only [List.length_append, List.length_cons]; omega⟩
  unfold parse_triplet_part
  simp only [List.length_cons, hf.1]
  exact ⟨loop_fraction_at f n post _ 1 (Or.inl rfl) hD hb hf.2, by
    rw [loop_minus, loop_fraction_at f n post _ (-1) (Or.inr rfl) hD hb hf.2]⟩

theorem parse_triplet_of_parts (p0 p1 p2 : List Char) (a b c : Fin 4 → Int)
    (h0 : ',' ∉ p0) (h1 : ',' ∉ p1) (h2 : ',' ∉ p2)
    (ha : parse_triplet_part p0 = .ok a) (hb : parse_triplet_part p1 = .ok b)
    (hc : parse_triplet_part p2 = .ok c) :
    parse_triplet (p0 ++ ',' :: (p1 ++ ',' :: p2))
      = .ok ⟨mkRot (a 0) (a 1) (a 2) (b 0) (b 1) (b 2) (c 0) (c 1) (c 2),
              mkTran (a 3) (b 3) (c 3)⟩ := by
  rw [parse_triplet_split p0 p1 p2 h0 h1 h2, ha, hb, hc]

theorem parse_part_y : parse_triplet_part "y".toList = .ok ![0, 1, 0, 0] := by decide

theorem parse_part_z : parse_triplet_part "z".toList = .ok ![0, 0, 1, 0] := by decide

/-- C14: the guard on the denominator tests the value that `strtol` read
after it has been stored in the `int` `den`, that is, reduced modulo `2^32`:
`x+1/4294967298,y,z` is accepted and parsed as `x+1/2,y,z`, although
4294967298 is none of 1, 2, 3, 4, 6 (so are the denominators 4294967297 and
-4294967290, read as 1 and 6); the numerator is reduced likewise, so that
`x+4294967297/2,y,z` contributes 6 and not `4294967297 * 6`. What holds:
a part that contains a `/` after which the value read, so reduced, is none of
1, 2, 3, 4, 6 (0 when no digits follow; also 5 and 12) makes `parse_triplet`
fail, in whichever position the part stands; a constant `N/D` with the reduced
`D` in `{1,2,3,4,6}` and `N * (12/D) < 2^31`, standing after a sign `s` and a
prefix of the part that parses on its own, or at the start of the part, sets
the fourth component of the part to `s * N * (12/D)`, and parsing goes on
after the denominator; the fourth components of the three parts are the
translation of the result; and `D * (12/D) = 12`. -/
theorem denominator_guard :
    parse_triplet "x+1/4294967298,y,z".toList
      = .ok ⟨mkRot 1 0 0 0 1 0 0 0 1, mkTran 6 0 0⟩ ∧
    parse_triplet "x+1/2,y,z".toList = .ok ⟨mkRot 1 0 0 0 1 0 0 0 1, mkTran 6 0 0⟩ ∧
    (strtol "4294967298,y,z".toList).1 = 4294967298 ∧ to_int 4294967298 = 2 ∧
    parse_triplet "x,y+1/4294967297,z".toList
      = .ok ⟨mkRot 1 0 0 0 1 0 0 0 1, mkTran 0 12 0⟩ ∧
    parse_triplet "x,y,z+1/-4294967290".toList
      = .ok ⟨mkRot 1 0 0 0 1 0 0 0 1, mkTran 0 0 2⟩ ∧
    parse_triplet "x+4294967297/2,y,z".toList
      = .ok ⟨mkRot 1 0 0 0 1 0 0 0 1, mkTran 6 0 0⟩ ∧
    (∀ (q post a b : List Char),
      (to_int (strtol post).1 ≠ 1 ∧ to_int (strtol post).1 ≠ 2 ∧ to_int (strtol post).1 ≠ 3
        ∧ to_int (strtol post).1 ≠ 4 ∧ to_int (strtol post).1 ≠ 6) →
      ',' ∉ q ++ '/' :: post → ',' ∉ a → ',' ∉ b →
      (∃ e, parse_triplet ((q ++ '/' :: post) ++ ',' :: (a ++ ',' :: b)) = .error e
        ∧ e ≠ .outOfFuel) ∧
      (∃ e, parse_triplet (a ++ ',' :: ((q ++ '/' :: post) ++ ',' :: b)) = .error e
        ∧ e ≠ .outOfFuel) ∧
      (∃ e, parse_triplet (a ++ ',' :: (b ++ ',' :: (q ++ '/' :: post))) = .error e
        ∧ e ≠ .outOfFuel)) ∧
    (∀ (q post : List Char) (sc : Char) (s : Int) (n : Nat) (r : Fin 4 → Int),
      parse_triplet_part q = .ok r →
      ((sc = '+' ∧ s = 1) ∨ (sc = '-' ∧ s = -1)) →
      (to_int (strtol post).1 = 1 ∨ to_int (strtol post).1 = 2 ∨ to_int (strtol post).1 = 3
        ∨ to_int (strtol post).1 = 4 ∨ to_int (strtol post).1 = 6) →
      (n : Int) * Int.tdiv 12 (to_int (strtol post).1) ≤ 2147483647 →
      parse_triplet_part (q ++ sc :: (Nat.toDigits 10 n ++ '/' :: post))
        = parse_triplet_part_loop (strtol post).2.length (strtol post).2
            (assign r 3 (s * n * Int.tdiv 12 (to_int (strtol post).1))) 0) ∧
    (∀ (post : List Char) (n : Nat),
      (to_int (strtol post).1 = 1 ∨ to_int (strtol post).1 = 2 ∨ to_int (strtol post).1 = 3
        ∨ to_int (strtol post).1 = 4 ∨ to_int (strtol post).1 = 6) →
      (n : Int) * Int.tdiv 12 (to_int (strtol post).1) ≤ 2147483647 →
      parse_triplet_part (Nat.toDigits 10 n ++ '/' :: post)
        = parse_triplet_part_loop (strtol post).2.length (strtol post).2
            (assign (fun _ => 0) 3 (1 * n * Int.tdiv 12 (to_int (strtol post).1))) 0 ∧
      parse_triplet_part ('-' :: (Nat.toDigits 10 n ++ '/' :: post))
        = parse_triplet_part_loop (strtol post).2.length (strtol post).2
            (assign (fun _ => 0) 3 (-1 * n * Int.tdiv 12 (to_int (strtol post).1))) 0) ∧
    (∀ (p0 p1 p2 : List Char) (a b c : Fin 4 → Int),
      ',' ∉ p0 → ',' ∉ p1 → ',' ∉ p2 →
      parse_triplet_part p0 = .ok a → parse_triplet_part p1 = .ok b →
      parse_triplet_part p2 = .ok c →
      parse_triplet (p0 ++ ',' :: (p1 ++ ',' :: p2))
        = .ok ⟨mkRot (a 0) (a 1) (a 2) (b 0) (b 1) (b 2) (c 0) (c 1) (c 2),
                mkTran (a 3) (b 3) (c 3)⟩) ∧
    (∀ d : Int, (d = 1 ∨ d = 2 ∨ d = 3 ∨ d = 4 ∨ d = 6) → d * Int.tdiv 12 d = 12) := by
  refine ⟨by decide, by decide, by decide, by decide, by decide, by decide, by decide,
    ?_, part_with_fraction, part_starting_with_fraction, parse_triplet_of_parts,
    fun d hd => (tdiv_twelve_pos d hd).2⟩
  intro q post a b hden hp ha hb
  obtain ⟨e, he, -⟩ := part_fails_of_bad_denominator q post hden
  exact ⟨parse_triplet_fails_of_part _ a b hp ha hb (Or.inl ⟨e, he⟩),
    parse_triplet_fails_of_part a _ b ha hp hb (Or.inr (Or.inl ⟨e, he⟩)),
    parse_triplet_fails_of_part a b _ ha hb hp (Or.inr (Or.inr ⟨e, he⟩))⟩

theorem denominator_guard_witness :
    (∃ e, parse_triplet ("x+1/5".toList ++ ',' :: ("y".toList ++ ',' :: "z".toList))
      = .error e ∧ e ≠ .outOfFuel) ∧
    parse_triplet_part ("x".toList ++ '-' :: (Nat.toDigits 10 5 ++ '/' :: "6 +y".toList))
      = parse_triplet_part_loop (strtol "6 +y".toList).2.length (strtol "6 +y".toList).2
          (assign ![1, 0, 0, 0] 3
            (-1 * (5 : Nat) * Int.tdiv 12 (to_int (strtol "6 +y".toList).1))) 0 ∧
    parse_triplet_part "x-5/6 +y".toList = .ok ![1, 1, 0, -10] ∧
    parse_triplet "x+1/5,y,z".toList = .error (.unexpectedDenominator 5) ∧
    parse_triplet "x+1/0,y,z".toList = .error (.unexpectedDenominator 0) ∧
    parse_triplet "x+1/12,y,z".toList = .error (.unexpectedDenominator 12) ∧
    parse_triplet "x+1/,y,z".toList = .error (.unexpectedDenominator 0) ∧
    parse_triplet "x+1/4294967301,y,z".toList = .error (.unexpectedDenominator 5) ∧
    parse_triplet "x+1/99999999999999999999,y,z".toList
      = .error (.unexpectedDenominator (-1)) ∧
    parse_triplet "x-5/6,y,z".toList = .ok ⟨mkRot 1 0 0 0 1 0 0 0 1, mkTran (-10) 0 0⟩ :=
  ⟨(denominator_guard.2.2.2.2.2.2.2.1 "x+1".toList "5".toList "y".toList "z".toList
      (by decide) (by decide) (by decide) (by decide)).1,
   denominator_guard.2.2.2.2.2.2.2.2.1 "x".toList "6 +y".toList '-' (-1) 5 ![1, 0, 0, 0]
      (by decide) (by decide) (by decide) (by decide),
   by decide, by decide, by decide, by decide, by decide, by decide, by decide, by decide⟩

end sym
end gemmi
